import Mathlib

/-!
# simpleDataLink: framing engine

Shallow embedding of `src/simpleDataLink.c` (byte stuffing, CRC-16, frame /
deframe, line-level send / receive) together with the properties of the
specification that are checked against it.

Bytes (`uint8_t`) and 16-bit words (`uint16_t`) are natural numbers; a 16-bit
result is reduced `% 65536` where the C arithmetic would truncate.  A C
function returning a `uint8_t` status and mutating the buffer behind a pointer
becomes a function returning the status together with the new buffer.
-/

namespace SimpleDataLink

/-! ## Constants -/

/-- Macro `#define FRAME_FLAG 0x7E` -/
abbrev FRAME_FLAG : Nat := 0x7E

/-- Macro `#define ESCAPE_FLAG 0x7D` -/
abbrev ESCAPE_FLAG : Nat := 0x7D

/-- Macro `#define INVERTBIT5(byte) (byte ^ 0x20)` -/
abbrev INVERTBIT5 (byte : Nat) : Nat := byte ^^^ 0x20

/-- Macro `#define CRC_INITIAL 0xFFFF` -/
abbrev CRC_INITIAL : Nat := 0xFFFF

/-- Macro `#define CRC_POLY 0x1021` -/
abbrev CRC_POLY : Nat := 0x1021

/-- Macro `#define SDL_MAX_PAY_LEN 256` -/
abbrev SDL_MAX_PAY_LEN : Nat := 256

/-! ## Ring buffer (`bufferUtils.h`, consumed interface) -/

/-- Modelled from the spec: the fixed-capacity byte ring buffer of
`bufferUtils.h`, whose implementation is not part of the sources.  It is a
FIFO over bytes of capacity `buffLen`; `elems` lists the stored bytes from the
logical head to the logical tail, so that the C field `elemNum` is
`elems.length`.  `buff` records whether the backing array pointer is non-NULL
(the functions of `simpleDataLink.c` test it).  -/
structure circular_buffer_handle where
  buff : Bool
  buffLen : Nat
  elems : List Nat
deriving DecidableEq, Repr

/-- The C field `elemNum`: number of stored bytes. -/
abbrev circular_buffer_handle.elemNum (h : circular_buffer_handle) : Nat := h.elems.length

/-- Modelled from the spec: `cBuffInit(handle, array, len, 0)`, an empty ring
buffer of capacity `len` over `array` (`array = true` when the pointer is
non-NULL). -/
def cBuffInit (array : Bool) (len : Nat) : circular_buffer_handle :=
  { buff := array, buffLen := len, elems := [] }

/-- Modelled from the spec: `cBuffFull`, the buffer holds `buffLen` bytes. -/
def cBuffFull (h : circular_buffer_handle) : Bool := decide (h.buffLen ≤ h.elemNum)

/-- Modelled from the spec: `cBuffFlush`, discard every stored byte. -/
def cBuffFlush (h : circular_buffer_handle) : circular_buffer_handle :=
  { h with elems := [] }

/-- Modelled from the spec: `cBuffPushToFill(handle, data, len, ht)` stores as
many of the bytes of `data` as fit in the free space and returns how many were
stored.  The last argument selects the end, as the call sites of
`simpleDataLink.c` document it ("push byte on tail" for `1`, "add head and
tail" pushing with `0` then `1`): `0` is the head, anything else the tail.
Bytes pushed on the head are pushed one after the other. -/
def cBuffPushToFill (h : circular_buffer_handle) (data : List Nat) (ht : Nat) :
    Nat × circular_buffer_handle :=
  let pushed := data.take (h.buffLen - h.elemNum)
  (pushed.length,
    if ht = 0 then { h with elems := pushed.reverse ++ h.elems }
    else { h with elems := h.elems ++ pushed })

/-- Modelled from the spec: `cBuffPush(handle, data, len, ht)` stores every
byte of `data` at the selected end and returns how many were stored; it differs
from `cBuffPushToFill` only when the free space is insufficient, where the
ring overwrites the bytes at the opposite end.  `sdlReceive` calls it one byte
at a time, on the accumulation buffer only while that buffer is not full. -/
def cBuffPush (h : circular_buffer_handle) (data : List Nat) (ht : Nat) :
    Nat × circular_buffer_handle :=
  if ht = 0 then
    (data.length, { h with elems := (data.reverse ++ h.elems).take h.buffLen })
  else
    (data.length,
      { h with elems := (h.elems ++ data).drop ((h.elems ++ data).length - h.buffLen) })

/-- Modelled from the spec: `cBuffPull(handle, out, len, ht)` removes up to
`len` bytes and returns how many were removed, the removed bytes (in removal
order) and the new buffer.  The last argument selects the end, as the call
sites document it ("pull byte from buffer head" for `0`, "remove head and
tail" pulling with `0` then `1`). -/
def cBuffPull (h : circular_buffer_handle) (len : Nat) (ht : Nat) :
    Nat × List Nat × circular_buffer_handle :=
  let n := min len h.elemNum
  if ht = 0 then (n, h.elems.take n, { h with elems := h.elems.drop n })
  else (n, (h.elems.drop (h.elemNum - n)).reverse,
        { h with elems := h.elems.take (h.elemNum - n) })

/-- Modelled from the spec: `cBuffReadByte(handle, 0, off)`, the byte at
offset `off` from the logical head, without removal. -/
def cBuffReadByte (h : circular_buffer_handle) (ht : Nat) (off : Nat) : Nat :=
  if ht = 0 then h.elems.getD off 0 else h.elems.reverse.getD off 0

/-! ## Network ordering -/

/-- Function `num16ToNet`: the two bytes of a 16-bit number, most significant first. -/
def num16ToNet (num : Nat) : List Nat :=
  [(num >>> 8) &&& 0xFF, num &&& 0xFF]

/-- Function `netToNum16`: the 16-bit number held big-endian in two bytes. -/
def netToNum16 (net : List Nat) : Nat :=
  (((net.getD 0 0) <<< 8) % 65536) ||| (net.getD 1 0)

/-! ## Byte stuffing -/

/-- The `while(elemNum)` loop of `doByteStuffing`; the first argument is the
local counter `elemNum`. -/
def doByteStuffingLoop : Nat → circular_buffer_handle → Nat × circular_buffer_handle
  | 0, data => (1, data)
  | elemNum + 1, data =>
    let r := cBuffPull data 1 0
    let tmpByte := r.2.1.headD 0
    let data := r.2.2
    if tmpByte = FRAME_FLAG ∨ tmpByte = ESCAPE_FLAG then
      let p := cBuffPushToFill data [ESCAPE_FLAG] 1
      if p.1 = 0 then (0, p.2)
      else
        let tmpByte := INVERTBIT5 tmpByte
        let q := cBuffPushToFill p.2 [tmpByte] 1
        if q.1 = 0 then (0, q.2)
        else doByteStuffingLoop elemNum q.2
    else
      let q := cBuffPushToFill data [tmpByte] 1
      if q.1 = 0 then (0, q.2)
      else doByteStuffingLoop elemNum q.2

/-- Function `doByteStuffing`: escape `0x7E` and `0x7D` in place. -/
def doByteStuffing (data : circular_buffer_handle) : Nat × circular_buffer_handle :=
  if data.buff = false ∨ data.buffLen = 0 ∨ data.elemNum = 0 ∨ data.elemNum = data.buffLen then
    (0, data)
  else doByteStuffingLoop data.elemNum data

/-- The `while(elemNum)` loop of `undoByteStuffing`; the first argument is the
local counter `elemNum`. -/
def undoByteStuffingLoop : Nat → circular_buffer_handle → Nat × circular_buffer_handle
  | 0, data => (1, data)
  | elemNum + 1, data =>
    let r := cBuffPull data 1 0
    let tmpByte := r.2.1.headD 0
    let data := r.2.2
    if tmpByte = FRAME_FLAG then (0, data)
    else if tmpByte = ESCAPE_FLAG then
      match elemNum with
      | 0 => (0, data)
      | elemNum + 1 =>
        let r := cBuffPull data 1 0
        let tmpByte := INVERTBIT5 (r.2.1.headD 0)
        let data := r.2.2
        if tmpByte ≠ ESCAPE_FLAG ∧ tmpByte ≠ FRAME_FLAG then (0, data)
        else undoByteStuffingLoop elemNum (cBuffPushToFill data [tmpByte] 1).2
    else undoByteStuffingLoop elemNum (cBuffPushToFill data [tmpByte] 1).2

/-- Function `undoByteStuffing`: revert the escaping in place. -/
def undoByteStuffing (data : circular_buffer_handle) : Nat × circular_buffer_handle :=
  if data.buff = false ∨ data.buffLen = 0 ∨ data.elemNum = 0 then (0, data)
  else undoByteStuffingLoop data.elemNum data

/-! ## CRC -/

/-- Table `CRCLUT1021`: the 256-entry lookup table. -/
def CRCLUT1021 : List Nat := [
  0x0000, 0x1021, 0x2042, 0x3063, 0x4084, 0x50a5, 0x60c6, 0x70e7, 0x8108, 0x9129, 0xa14a, 0xb16b, 0xc18c, 0xd1ad, 0xe1ce, 0xf1ef,
  0x1231, 0x0210, 0x3273, 0x2252, 0x52b5, 0x4294, 0x72f7, 0x62d6, 0x9339, 0x8318, 0xb37b, 0xa35a, 0xd3bd, 0xc39c, 0xf3ff, 0xe3de,
  0x2462, 0x3443, 0x0420, 0x1401, 0x64e6, 0x74c7, 0x44a4, 0x5485, 0xa56a, 0xb54b, 0x8528, 0x9509, 0xe5ee, 0xf5cf, 0xc5ac, 0xd58d,
  0x3653, 0x2672, 0x1611, 0x0630, 0x76d7, 0x66f6, 0x5695, 0x46b4, 0xb75b, 0xa77a, 0x9719, 0x8738, 0xf7df, 0xe7fe, 0xd79d, 0xc7bc,
  0x48c4, 0x58e5, 0x6886, 0x78a7, 0x0840, 0x1861, 0x2802, 0x3823, 0xc9cc, 0xd9ed, 0xe98e, 0xf9af, 0x8948, 0x9969, 0xa90a, 0xb92b,
  0x5af5, 0x4ad4, 0x7ab7, 0x6a96, 0x1a71, 0x0a50, 0x3a33, 0x2a12, 0xdbfd, 0xcbdc, 0xfbbf, 0xeb9e, 0x9b79, 0x8b58, 0xbb3b, 0xab1a,
  0x6ca6, 0x7c87, 0x4ce4, 0x5cc5, 0x2c22, 0x3c03, 0x0c60, 0x1c41, 0xedae, 0xfd8f, 0xcdec, 0xddcd, 0xad2a, 0xbd0b, 0x8d68, 0x9d49,
  0x7e97, 0x6eb6, 0x5ed5, 0x4ef4, 0x3e13, 0x2e32, 0x1e51, 0x0e70, 0xff9f, 0xefbe, 0xdfdd, 0xcffc, 0xbf1b, 0xaf3a, 0x9f59, 0x8f78,
  0x9188, 0x81a9, 0xb1ca, 0xa1eb, 0xd10c, 0xc12d, 0xf14e, 0xe16f, 0x1080, 0x00a1, 0x30c2, 0x20e3, 0x5004, 0x4025, 0x7046, 0x6067,
  0x83b9, 0x9398, 0xa3fb, 0xb3da, 0xc33d, 0xd31c, 0xe37f, 0xf35e, 0x02b1, 0x1290, 0x22f3, 0x32d2, 0x4235, 0x5214, 0x6277, 0x7256,
  0xb5ea, 0xa5cb, 0x95a8, 0x8589, 0xf56e, 0xe54f, 0xd52c, 0xc50d, 0x34e2, 0x24c3, 0x14a0, 0x0481, 0x7466, 0x6447, 0x5424, 0x4405,
  0xa7db, 0xb7fa, 0x8799, 0x97b8, 0xe75f, 0xf77e, 0xc71d, 0xd73c, 0x26d3, 0x36f2, 0x0691, 0x16b0, 0x6657, 0x7676, 0x4615, 0x5634,
  0xd94c, 0xc96d, 0xf90e, 0xe92f, 0x99c8, 0x89e9, 0xb98a, 0xa9ab, 0x5844, 0x4865, 0x7806, 0x6827, 0x18c0, 0x08e1, 0x3882, 0x28a3,
  0xcb7d, 0xdb5c, 0xeb3f, 0xfb1e, 0x8bf9, 0x9bd8, 0xabbb, 0xbb9a, 0x4a75, 0x5a54, 0x6a37, 0x7a16, 0x0af1, 0x1ad0, 0x2ab3, 0x3a92,
  0xfd2e, 0xed0f, 0xdd6c, 0xcd4d, 0xbdaa, 0xad8b, 0x9de8, 0x8dc9, 0x7c26, 0x6c07, 0x5c64, 0x4c45, 0x3ca2, 0x2c83, 0x1ce0, 0x0cc1,
  0xef1f, 0xff3e, 0xcf5d, 0xdf7c, 0xaf9b, 0xbfba, 0x8fd9, 0x9ff8, 0x6e17, 0x7e36, 0x4e55, 0x5e74, 0x2e93, 0x3eb2, 0x0ed1, 0x1ef0]

/-- One iteration of the `for` loop of `computeCRCwithLUT`:
`crc=(byte<<8) ^ crc; crc=(crc<<8) ^ CRCLUT1021[(uint8_t)(crc>>8)];` on
`uint16_t`. -/
def crcStep (crc : Nat) (byte : Nat) : Nat :=
  let crc := ((byte <<< 8) ^^^ crc) % 65536
  ((crc <<< 8) ^^^ CRCLUT1021.getD ((crc >>> 8) % 256) 0) % 65536

/-- Function `computeCRCwithLUT`: table-driven CRC-16 over the bytes of the buffer, read
by offset from the head. -/
def computeCRCwithLUT (dataBuff : circular_buffer_handle) : Nat :=
  if dataBuff.buff = false then 0
  else
    (List.range dataBuff.elemNum).foldl
      (fun crc b => crcStep crc (cBuffReadByte dataBuff 0 b)) CRC_INITIAL

/-- Function `addCRC`: append the CRC of the buffer content, big-endian. -/
def addCRC (data : circular_buffer_handle) : Nat × circular_buffer_handle :=
  if data.buff = false ∨ data.buffLen = 0 then (0, data)
  else
    let CRC := computeCRCwithLUT data
    let tmpCRC := num16ToNet CRC
    let p := cBuffPushToFill data tmpCRC 1
    if p.1 = 2 then (1, p.2) else (0, p.2)

/-- Function `removeVerifyCRC`: compute the CRC over content and trailing checksum
(zero when intact), then drop the two checksum bytes. -/
def removeVerifyCRC (data : circular_buffer_handle) : Nat × circular_buffer_handle :=
  if data.buff = false ∨ data.buffLen = 0 ∨ data.elemNum < 2 then (0, data)
  else
    let CRC := computeCRCwithLUT data
    let r := cBuffPull data 2 1
    if CRC = 0 then (1, r.2.2) else (0, r.2.2)

/-! ## Frame / deframe -/

/-- Function `frame`: build `|FLAG| PAYLOAD | CRC16 |FLAG|` (stuffed) in place. -/
def frame (payload : circular_buffer_handle) : Nat × circular_buffer_handle :=
  if payload.buff = false then (0, payload)
  else
    let a := addCRC payload
    if a.1 = 0 then (0, a.2)
    else
      let s := doByteStuffing a.2
      if s.1 = 0 then (0, s.2)
      else
        let flag := FRAME_FLAG
        let h := cBuffPushToFill s.2 [flag] 0
        if h.1 = 0 then (0, h.2)
        else
          let t := cBuffPushToFill h.2 [flag] 1
          if t.1 = 0 then (0, t.2)
          else (1, t.2)

/-- Function `deframe`: strip the flags, revert the stuffing, verify and remove the
CRC, in place. -/
def deframe (frame : circular_buffer_handle) : Nat × circular_buffer_handle :=
  if frame.buff = false then (0, frame)
  else
    let h := cBuffPull frame 1 0
    if h.1 = 0 then (0, h.2.2)
    else if h.2.1.headD 0 ≠ FRAME_FLAG then (0, h.2.2)
    else
      let t := cBuffPull h.2.2 1 1
      if t.1 = 0 then (0, t.2.2)
      else if t.2.1.headD 0 ≠ FRAME_FLAG then (0, t.2.2)
      else
        let u := undoByteStuffing t.2.2
        if u.1 = 0 then (0, u.2)
        else
          let c := removeVerifyCRC u.2
          if c.1 = 0 then (0, c.2)
          else (1, c.2)

/-- A payload held in a ring buffer of capacity `cap` over a non-NULL array
(what `cBuffInit` followed by a complete push of the payload leaves). -/
def payloadBuff (cap : Nat) (P : List Nat) : circular_buffer_handle :=
  { buff := true, buffLen := cap, elems := P }

/-! ## Pure descriptions of the wire format -/

/-- The escaping rule as a function on byte sequences: each `0x7E` or `0x7D`
becomes `0x7D` followed by the byte XOR `0x20`, every other byte is kept. -/
def stuff : List Nat → List Nat
  | [] => []
  | b :: bs =>
    if b = FRAME_FLAG ∨ b = ESCAPE_FLAG then ESCAPE_FLAG :: INVERTBIT5 b :: stuff bs
    else b :: stuff bs

/-- Number of bytes of a sequence that the escaping rule expands. -/
def escCount : List Nat → Nat
  | [] => 0
  | b :: bs => (if b = FRAME_FLAG ∨ b = ESCAPE_FLAG then 1 else 0) + escCount bs

/-- The decoding rule as a function on byte sequences: `none` on an unescaped
`0x7E`, on a trailing `0x7D`, and on a `0x7D` followed by a byte that does not
un-escape to `0x7D` or `0x7E`. -/
def unstuff : List Nat → Option (List Nat)
  | [] => some []
  | b :: rest =>
    if b = FRAME_FLAG then none
    else if b = ESCAPE_FLAG then
      match rest with
      | [] => none
      | c :: rest2 =>
        if INVERTBIT5 c ≠ ESCAPE_FLAG ∧ INVERTBIT5 c ≠ FRAME_FLAG then none
        else (unstuff rest2).map (fun ys => INVERTBIT5 c :: ys)
    else (unstuff rest).map (fun ys => b :: ys)

/-- CRC-16 of a byte sequence: the loop body of `computeCRCwithLUT` folded
over the bytes, from `CRC_INITIAL`. -/
def crc16 (P : List Nat) : Nat := P.foldl crcStep CRC_INITIAL

/-- The wire format of the specification:
`0x7E  escaped(payload || CRC16_BE(payload))  0x7E`. -/
def wireFrame (P : List Nat) : List Nat :=
  FRAME_FLAG :: stuff (P ++ num16ToNet (crc16 P)) ++ [FRAME_FLAG]

/-- A byte sequence with bit `k` of the byte at index `i` inverted. -/
def flipBit (F : List Nat) (i k : Nat) : List Nat :=
  F.set i (F.getD i 0 ^^^ 2 ^ k)

/-! ## Line session -/

/-- Modelled from the spec: the boundary rule type of `frameUtils.h`
(`search_frame_rule`); `hard` is the exact-match policy. -/
inductive search_policy where
  | hard
deriving DecidableEq, Repr

/-- Modelled from the spec: `search_frame_rule` of `frameUtils.h`, head and
tail markers with their lengths, length bounds and match policy. -/
structure search_frame_rule where
  head : List Nat
  headLen : Nat
  tail : List Nat
  tailLen : Nat
  minLen : Nat
  maxLen : Nat
  policy : search_policy
deriving DecidableEq, Repr

/-- Constant `const uint8_t headTail=FRAME_FLAG;` -/
abbrev headTail : Nat := FRAME_FLAG

/-- Constant `search_frame_rule rule`: the rule used to search frames. -/
def rule : search_frame_rule :=
  { head := [headTail], headLen := 1, tail := [headTail], tailLen := 1,
    minLen := 0, maxLen := SDL_MAX_PAY_LEN * 2 + 4, policy := search_policy.hard }

/-- The frame locator `searchFrameAdvance(&rxBuff, &tmpHandle, &rule,
SHIFTOUT_FULL | SHIFTOUT_NEXT | SHIFTOUT_FAST)` of `frameUtils.h`, taken as a
parameter: from the accumulation buffer and the rule it gives the status, the
accumulation buffer after the search, and the handle on the candidate. -/
abbrev Locator : Type :=
  circular_buffer_handle → search_frame_rule →
    Nat × circular_buffer_handle × circular_buffer_handle

/-- Structure `serial_line_handle`: the two I/O function pointers (`none` is NULL) and
the receive buffer (which stands for `rxBuff` over `rxBuffArray`).  The
functions act on a state `σ` of the transport: `txFunc` gets the byte and
returns its status; `rxFunc` returns its status and the byte it wrote. -/
structure serial_line_handle (σ : Type) where
  txFunc : Option (σ → Nat → Nat × σ)
  rxFunc : Option (σ → Nat × Nat × σ)
  rxBuff : circular_buffer_handle

/-- Function `sdlInitLine`: assign the function pointers and initialise the receive
buffer over `rxBuffArray` (`SDL_MAX_PAY_LEN*2+6` bytes). -/
def sdlInitLine {σ : Type} (txFunc : Option (σ → Nat → Nat × σ))
    (rxFunc : Option (σ → Nat × Nat × σ)) : serial_line_handle σ :=
  { txFunc := txFunc, rxFunc := rxFunc, rxBuff := cBuffInit true (SDL_MAX_PAY_LEN * 2 + 6) }

/-- The transmit loop of `sdlSend`,
`while(cBuffPull(&tmpBuff,&byte,1,0)){ if(!line->txFunc(byte)) return 0; }`
followed by `return 1`; `none` when the iteration bound is exhausted. -/
def sdlSendLoop {σ : Type} (txFunc : σ → Nat → Nat × σ) :
    Nat → circular_buffer_handle → σ → Option (Nat × σ)
  | 0, _, _ => none
  | fuel + 1, tmpBuff, w =>
    let r := cBuffPull tmpBuff 1 0
    if r.1 = 0 then some (1, w)
    else
      let t := txFunc w (r.2.1.headD 0)
      if t.1 = 0 then some (0, t.2)
      else sdlSendLoop txFunc fuel r.2.2 t.2

/-- Function `sdlSend(line, buff, len)`, with `len = buff.length`: status and state of
the transport afterwards.  The scratch buffer `tmpBuff` over `tmpArray`
(`SDL_MAX_PAY_LEN*2+6` bytes) is initialised by the call. -/
def sdlSend {σ : Type} (line : serial_line_handle σ) (w : σ) (buff : List Nat) :
    Option (Nat × σ) :=
  match line.txFunc with
  | none => some (0, w)
  | some txFunc =>
    let len := buff.length
    if len > SDL_MAX_PAY_LEN then some (0, w)
    else
      let tmpBuff := cBuffInit true (SDL_MAX_PAY_LEN * 2 + 6)
      let p := cBuffPushToFill tmpBuff buff 1
      if p.1 ≠ len then some (0, w)
      else
        let f := frame p.2
        if f.1 = 0 then some (0, w)
        else sdlSendLoop txFunc (f.2.elemNum + 1) f.2 w

/-- A transmit function instrumented with the list of the bytes it has been
called with, in call order. -/
def recordTx {σ : Type} (txFunc : σ → Nat → Nat × σ) :
    σ × List Nat → Nat → Nat × (σ × List Nat) :=
  fun w byte => ((txFunc w.1 byte).1, ((txFunc w.1 byte).2, w.2 ++ [byte]))

/-- State of the transport after the transmit function has been called on
each byte of a sequence in turn. -/
def txRun {σ : Type} (txFunc : σ → Nat → Nat × σ) (w : σ) (bytes : List Nat) : σ :=
  bytes.foldl (fun s b => (txFunc s b).2) w

/-- The fill loop of `sdlReceive`,
`while(!cBuffFull(&line->rxBuff)){ if(line->rxFunc(&byte)) cBuffPush(..) else break; }`;
`none` when the iteration bound is exhausted. -/
def sdlReceiveFill {σ : Type} (rxFunc : σ → Nat × Nat × σ) :
    Nat → circular_buffer_handle → σ → Option (circular_buffer_handle × σ)
  | 0, _, _ => none
  | fuel + 1, rxBuff, w =>
    if cBuffFull rxBuff then some (rxBuff, w)
    else
      let r := rxFunc w
      if r.1 ≠ 0 then sdlReceiveFill rxFunc fuel (cBuffPush rxBuff [r.2.1] 1).2 r.2.2
      else some (rxBuff, r.2.2)

/-- The copy of a candidate into the scratch buffer,
`while(cBuffPull(&tmpHandle,&byte,1,0)){ cBuffPush(&tmpBuff,&byte,1,1); }`;
`none` when the iteration bound is exhausted. -/
def sdlReceiveCopy :
    Nat → circular_buffer_handle → circular_buffer_handle →
      Option (circular_buffer_handle × circular_buffer_handle)
  | 0, _, _ => none
  | fuel + 1, tmpHandle, tmpBuff =>
    let r := cBuffPull tmpHandle 1 0
    if r.1 = 0 then some (r.2.2, tmpBuff)
    else sdlReceiveCopy fuel r.2.2 (cBuffPush tmpBuff [r.2.1.headD 0] 1).2

/-- The copy of the payload to the output buffer,
`while(cBuffPull(&tmpBuff,&byte,1,0)){ if(!cBuffPushToFill(&tmpHandle,&byte,1,1)){errorFlag=1;break;} }`:
gives `errorFlag`, the scratch buffer and the output handle; `none` when the
iteration bound is exhausted. -/
def sdlReceiveOut :
    Nat → circular_buffer_handle → circular_buffer_handle →
      Option (Nat × circular_buffer_handle × circular_buffer_handle)
  | 0, _, _ => none
  | fuel + 1, tmpBuff, tmpHandle =>
    let r := cBuffPull tmpBuff 1 0
    if r.1 = 0 then some (0, r.2.2, tmpHandle)
    else
      let p := cBuffPushToFill tmpHandle [r.2.1.headD 0] 1
      if p.1 = 0 then some (1, r.2.2, p.2)
      else sdlReceiveOut fuel r.2.2 p.2

/-- The scan loop of `sdlReceive`, `while(searchFrameAdvance(..)){ .. }`
followed by `return 0`.  `len` is the capacity of the output buffer and `out`
the bytes written so far at its start.  Result: returned length, bytes written
at the start of the output buffer, accumulation buffer; `none` when the
iteration bound is exhausted. -/
def sdlReceiveScan (searchFrameAdvance : Locator) (len : Nat) :
    Nat → circular_buffer_handle → circular_buffer_handle → List Nat →
      Option (Nat × List Nat × circular_buffer_handle)
  | 0, _, _, _ => none
  | fuel + 1, rxBuff, tmpBuff, out =>
    let s := searchFrameAdvance rxBuff rule
    if s.1 = 0 then some (0, out, s.2.1)
    else
      let tmpBuff := cBuffFlush tmpBuff
      match sdlReceiveCopy (s.2.2.elemNum + 1) s.2.2 tmpBuff with
      | none => none
      | some c =>
        let d := deframe c.2
        if d.1 = 0 then sdlReceiveScan searchFrameAdvance len fuel s.2.1 d.2 out
        else if d.2.elemNum > SDL_MAX_PAY_LEN then
          sdlReceiveScan searchFrameAdvance len fuel s.2.1 d.2 out
        else
          let tmpHandle := cBuffInit true len
          match sdlReceiveOut (d.2.elemNum + 1) d.2 tmpHandle with
          | none => none
          | some o =>
            if o.1 ≠ 0 then sdlReceiveScan searchFrameAdvance len fuel s.2.1 o.2.1 o.2.2.elems
            else some (o.2.2.elemNum, o.2.2.elems, s.2.1)

/-- Function `sdlReceive(line, buff, len)`: returned length, bytes written at the start
of `buff`, the line and the state of the transport afterwards.  `fuel` bounds
the iterations of the scan loop (`none` when exhausted). -/
def sdlReceive {σ : Type} (searchFrameAdvance : Locator) (fuel : Nat)
    (line : serial_line_handle σ) (w : σ) (len : Nat) :
    Option (Nat × List Nat × serial_line_handle σ × σ) :=
  match line.rxFunc with
  | none => some (0, [], line, w)
  | some rxFunc =>
    let tmpBuff := cBuffInit true (SDL_MAX_PAY_LEN * 2 + 6)
    match sdlReceiveFill rxFunc (line.rxBuff.buffLen - line.rxBuff.elemNum + 1) line.rxBuff w with
    | none => none
    | some f =>
      match sdlReceiveScan searchFrameAdvance len fuel f.1 tmpBuff [] with
      | none => none
      | some r => some (r.1, r.2.1, { line with rxBuff := r.2.2 }, f.2)

/-- A locator for concrete checks: it reports the whole content of the
accumulation buffer as the candidate and shifts it out; it finds nothing in an
empty buffer. -/
def wholeBufferLocator : Locator :=
  fun b _ => if b.elems = [] then (0, b, b) else (1, { b with elems := [] }, b)

/-- A receive function for concrete checks: the state of the transport is the
list of the bytes still to arrive. -/
def listRx : List Nat → Nat × Nat × List Nat
  | [] => (0, 0, [])
  | x :: r => (1, x, r)

/-! ## Bitwise CRC reference (`computeCRC`, `printCRCLUT`) -/

/-- One pass of the inner `for(bit...)` loop of the reference `computeCRC` and
of `printCRCLUT`: `if(crc & 0x8000) crc=(crc<<1) ^ poly; else crc=crc<<1;`
on `uint16_t`. -/
def crcBitStep (crc : Nat) : Nat :=
  if crc &&& 0x8000 ≠ 0 then ((crc <<< 1) ^^^ CRC_POLY) % 65536
  else (crc <<< 1) % 65536

/-- The inner loop `for(uint8_t bit=0;bit<8;bit++)`, as a number of passes. -/
def crcBitLoop : Nat → Nat → Nat
  | 0, crc => crc
  | n + 1, crc => crcBitLoop n (crcBitStep crc)

/-- One iteration of the outer loop of the reference `computeCRC`:
`crc=(byte << 8) ^ crc;` followed by the eight bit passes. -/
def computeCRCStep (crc : Nat) (byte : Nat) : Nat :=
  crcBitLoop 8 (((byte <<< 8) ^^^ crc) % 65536)

/-- Function `computeCRC`: the bit-by-bit reference implementation kept in the
source (polynomial `CRC_POLY`, initial value `CRC_INITIAL`, most significant
bit first, no final XOR). -/
def computeCRC (dataBuff : circular_buffer_handle) : Nat :=
  if dataBuff.buff = false then 0
  else
    (List.range dataBuff.elemNum).foldl
      (fun crc b => computeCRCStep crc (cBuffReadByte dataBuff 0 b)) CRC_INITIAL

/-- The table entry that `printCRCLUT` prints for `byteVal`:
`crc=byteVal<<8` followed by the eight bit passes. -/
def printCRCLUTEntry (byteVal : Nat) : Nat :=
  crcBitLoop 8 ((byteVal <<< 8) % 65536)

/-! ## Decode rules in the words of the specification -/

/-- The bytes that follow the escape-introducing `0x7D` bytes of a sequence,
scanning from the left (a byte taken as the target of an escape does not
introduce one); `none` for an escape-introducing `0x7D` that ends the
sequence. -/
def escTargets : List Nat → List (Option Nat)
  | [] => []
  | b :: rest =>
    if b = ESCAPE_FLAG then
      match rest with
      | [] => [none]
      | c :: rest2 => some c :: escTargets rest2
    else escTargets rest

/-- A sequence with every pair `0x7D, b` replaced by the single byte
`b XOR 0x20` and every other byte kept, in order. -/
def unescape : List Nat → List Nat
  | [] => []
  | b :: rest =>
    if b = ESCAPE_FLAG then
      match rest with
      | [] => []
      | c :: rest2 => INVERTBIT5 c :: unescape rest2
    else b :: unescape rest

/-! ## Receive: polling, locator contract, successive calls -/

/-- Polling a receive function at most `n` times, stopping at the first
report of no byte available: the bytes obtained, in arrival order, and the
state of the transport afterwards. -/
def pollRx {σ : Type} (rxFunc : σ → Nat × Nat × σ) : Nat → σ → List Nat × σ
  | 0, w => ([], w)
  | n + 1, w =>
    if (rxFunc w).1 ≠ 0 then
      ((rxFunc w).2.1 :: (pollRx rxFunc n (rxFunc w).2.2).1, (pollRx rxFunc n (rxFunc w).2.2).2)
    else ([], (rxFunc w).2.2)

/-- Modelled from the spec: the contract of the frame locator of
`frameUtils.h` for the rule of this file, "returns the next region beginning
with `head_marker` and ending with `tail_marker` within the length bounds,
advancing its scan position past what it returns".  On an empty buffer, and on
a buffer that is not full and holds a flag followed by flag-free bytes only,
nothing is found and the buffer is kept.  On a buffer that starts with a flag,
flag-free bytes within the length bound and a second flag, that region is the
candidate and is shifted out. -/
def LocatorContract (searchFrameAdvance : Locator) : Prop :=
  (∀ b : circular_buffer_handle, b.elems = [] →
    (searchFrameAdvance b rule).1 = 0 ∧ (searchFrameAdvance b rule).2.1 = b) ∧
  (∀ (b : circular_buffer_handle) (E : List Nat), b.elems = FRAME_FLAG :: E →
    FRAME_FLAG ∉ E → E.length ≤ rule.maxLen → b.elemNum < b.buffLen →
    (searchFrameAdvance b rule).1 = 0 ∧ (searchFrameAdvance b rule).2.1 = b) ∧
  (∀ (b : circular_buffer_handle) (E rest : List Nat),
    b.elems = FRAME_FLAG :: E ++ FRAME_FLAG :: rest →
    FRAME_FLAG ∉ E → E.length ≤ rule.maxLen →
    (searchFrameAdvance b rule).1 ≠ 0 ∧
    (searchFrameAdvance b rule).2.1 = { b with elems := rest } ∧
    (searchFrameAdvance b rule).2.2.elems = FRAME_FLAG :: E ++ [FRAME_FLAG])

/-- A locator for concrete checks that follows the contract: it skips the
bytes before the first flag, reports the region from that flag to the next one
when its interior is within `maxLen` and shifts it out, and otherwise finds
nothing. -/
def flagLocator : Locator :=
  fun b r =>
    match b.elems.dropWhile (fun x => decide (x ≠ FRAME_FLAG)) with
    | [] => (0, { b with elems := [] }, { b with elems := [] })
    | h :: t =>
      match t.dropWhile (fun x => decide (x ≠ FRAME_FLAG)) with
      | [] => (0, { b with elems := h :: t }, { b with elems := [] })
      | _ :: rest =>
        if (t.takeWhile (fun x => decide (x ≠ FRAME_FLAG))).length ≤ r.maxLen then
          (1, { b with elems := rest },
            { b with elems := h :: t.takeWhile (fun x => decide (x ≠ FRAME_FLAG)) ++ [FRAME_FLAG] })
        else (0, { b with elems := t }, { b with elems := [] })

/-- Successive `sdlReceive` calls on one line, with the same output capacity:
the list gives, for each call, the state of the transport at that call; the
result lists the returned length and the output of each call, then the line. -/
def sdlReceiveCalls {σ : Type} (searchFrameAdvance : Locator) (fuel len : Nat) :
    serial_line_handle σ → List σ → Option (List (Nat × List Nat) × serial_line_handle σ)
  | line, [] => some ([], line)
  | line, w :: ws =>
    match sdlReceive searchFrameAdvance fuel line w len with
    | none => none
    | some r =>
      match sdlReceiveCalls searchFrameAdvance fuel len r.2.2.1 ws with
      | none => none
      | some rs => some ((r.1, r.2.1) :: rs.1, rs.2)

/-! ## Loopback channel of `communicationExample.c` -/

/-- Function `txFunc1` of the example: push the byte on the tail of the
channel buffer `TxBuff`, 0 when it is full. -/
def txFunc1 (TxBuff : circular_buffer_handle) (byte : Nat) : Nat × circular_buffer_handle :=
  if (cBuffPushToFill TxBuff [byte] 1).1 = 0 then (0, (cBuffPushToFill TxBuff [byte] 1).2)
  else (1, (cBuffPushToFill TxBuff [byte] 1).2)

/-- Function `rxFunc2` of the example: pull one byte from the head of the
channel buffer `TxBuff`, 0 when it is empty. -/
def rxFunc2 (TxBuff : circular_buffer_handle) : Nat × Nat × circular_buffer_handle :=
  if (cBuffPull TxBuff 1 0).1 = 0 then (0, 0, (cBuffPull TxBuff 1 0).2.2)
  else (1, (cBuffPull TxBuff 1 0).2.1.headD 0, (cBuffPull TxBuff 1 0).2.2)

/-! ## Scan loop: the candidates it visits -/

/-- The accumulation buffer after `k` further calls of the locator in the scan
loop of `sdlReceive`: each call leaves the buffer on which the next one is
made. -/
def scanBuff (searchFrameAdvance : Locator) :
    Nat → circular_buffer_handle → circular_buffer_handle
  | 0, rxBuff => rxBuff
  | k + 1, rxBuff => scanBuff searchFrameAdvance k (searchFrameAdvance rxBuff rule).2.1

/-- What one pass of the scan loop of `sdlReceive` recovers from a candidate:
the candidate is copied to the flushed scratch buffer `tmpBuff` (capacity
`SDL_MAX_PAY_LEN*2+6`) and `deframe` runs there; `none` when `deframe` returns
0, otherwise the bytes that `deframe` leaves. -/
def candidatePayload (cand : circular_buffer_handle) : Option (List Nat) :=
  (sdlReceiveCopy (cand.elemNum + 1) cand (cBuffInit true (SDL_MAX_PAY_LEN * 2 + 6))).bind
    (fun c => if (deframe c.2).1 = 0 then none else some (deframe c.2).2.elems)

/-! ## Ring buffer facts -/

theorem cBuffPull_head_cons (b : Bool) (cap x : Nat) (xs : List Nat) :
    cBuffPull ⟨b, cap, x :: xs⟩ 1 0 = (1, [x], ⟨b, cap, xs⟩) := by
  simp [cBuffPull, circular_buffer_handle.elemNum]

theorem cBuffPull_head_nil (b : Bool) (cap : Nat) :
    cBuffPull ⟨b, cap, []⟩ 1 0 = (0, [], ⟨b, cap, []⟩) := by
  simp [cBuffPull]

theorem cBuffPushToFill_tail_room (b : Bool) (cap x : Nat) (l : List Nat) (h : l.length < cap) :
    cBuffPushToFill ⟨b, cap, l⟩ [x] 1 = (1, ⟨b, cap, l ++ [x]⟩) := by
  have h1 : cap - l.length = (cap - l.length - 1) + 1 := by omega
  simp only [cBuffPushToFill, circular_buffer_handle.elemNum]
  rw [h1]
  simp

theorem cBuffPushToFill_tail_full (b : Bool) (cap x : Nat) (l : List Nat) (h : cap ≤ l.length) :
    cBuffPushToFill ⟨b, cap, l⟩ [x] 1 = (0, ⟨b, cap, l⟩) := by
  have h1 : cap - l.length = 0 := by omega
  simp only [cBuffPushToFill, circular_buffer_handle.elemNum]
  rw [h1]
  simp

theorem cBuffPushToFill_head_room (b : Bool) (cap x : Nat) (l : List Nat) (h : l.length < cap) :
    cBuffPushToFill ⟨b, cap, l⟩ [x] 0 = (1, ⟨b, cap, x :: l⟩) := by
  have h1 : cap - l.length = (cap - l.length - 1) + 1 := by omega
  simp only [cBuffPushToFill, circular_buffer_handle.elemNum]
  rw [h1]
  simp

theorem cBuffPushToFill_head_full (b : Bool) (cap x : Nat) (l : List Nat) (h : cap ≤ l.length) :
    cBuffPushToFill ⟨b, cap, l⟩ [x] 0 = (0, ⟨b, cap, l⟩) := by
  have h1 : cap - l.length = 0 := by omega
  simp only [cBuffPushToFill, circular_buffer_handle.elemNum]
  rw [h1]
  simp

/-! ## Byte stuffing -/

theorem stuff_length (xs : List Nat) : (stuff xs).length = xs.length + escCount xs := by
  induction xs with
  | nil => rfl
  | cons x xs ih =>
    by_cases hx : x = FRAME_FLAG ∨ x = ESCAPE_FLAG
    · simp only [stuff, escCount, if_pos hx, List.length_cons, ih]; omega
    · simp only [stuff, escCount, if_neg hx, List.length_cons, ih]; omega

theorem escCount_le (xs : List Nat) : escCount xs ≤ xs.length := by
  induction xs with
  | nil => simp [escCount]
  | cons x xs ih =>
    simp only [escCount, List.length_cons]
    split <;> omega

theorem stuff_append (xs ys : List Nat) : stuff (xs ++ ys) = stuff xs ++ stuff ys := by
  induction xs with
  | nil => rfl
  | cons x xs ih =>
    rw [List.cons_append]
    by_cases hx : x = FRAME_FLAG ∨ x = ESCAPE_FLAG
    · rw [stuff, stuff, if_pos hx, if_pos hx, ih]; rfl
    · rw [stuff, stuff, if_neg hx, if_neg hx, ih]; rfl

theorem escCount_append (xs ys : List Nat) : escCount (xs ++ ys) = escCount xs + escCount ys := by
  induction xs with
  | nil => simp [escCount]
  | cons x xs ih => rw [List.cons_append, escCount, escCount, ih]; omega

/-- The stuffing loop, started with the counter on the bytes still to process
(`xs`, at the head) and the bytes already produced (`out`, at the tail),
succeeds and leaves `out ++ stuff xs` when the expansion fits. -/
theorem doByteStuffingLoop_ok (b : Bool) (cap : Nat) :
    ∀ (xs out : List Nat), xs.length + out.length + escCount xs ≤ cap →
      doByteStuffingLoop xs.length ⟨b, cap, xs ++ out⟩ = (1, ⟨b, cap, out ++ stuff xs⟩) := by
  intro xs
  induction xs with
  | nil => intro out _; simp [doByteStuffingLoop, stuff]
  | cons x xs ih =>
    intro out h
    simp only [List.length_cons, escCount] at h
    simp only [List.length_cons, List.cons_append, doByteStuffingLoop, cBuffPull_head_cons,
      List.headD_cons]
    by_cases hx : x = FRAME_FLAG ∨ x = ESCAPE_FLAG
    · rw [if_pos hx] at h
      rw [if_pos hx, cBuffPushToFill_tail_room _ _ _ _ (by simp; omega)]
      simp only [one_ne_zero, if_false]
      rw [cBuffPushToFill_tail_room _ _ _ _ (by simp; omega)]
      simp only [one_ne_zero, if_false]
      have := ih (out ++ [ESCAPE_FLAG, INVERTBIT5 x]) (by simp; omega)
      simp only [List.append_assoc, List.cons_append, List.nil_append] at this ⊢
      rw [this]
      simp [stuff, if_pos hx]
    · rw [if_neg hx] at h
      rw [if_neg hx, cBuffPushToFill_tail_room _ _ _ _ (by simp; omega)]
      simp only [one_ne_zero, if_false]
      have := ih (out ++ [x]) (by simp; omega)
      simp only [List.append_assoc, List.cons_append, List.nil_append] at this ⊢
      rw [this]
      simp [stuff, if_neg hx]

/-- The stuffing loop fails when the expansion does not fit. -/
theorem doByteStuffingLoop_fail (b : Bool) (cap : Nat) :
    ∀ (xs out : List Nat), xs.length + out.length ≤ cap →
      cap < xs.length + out.length + escCount xs →
      (doByteStuffingLoop xs.length ⟨b, cap, xs ++ out⟩).1 = 0 := by
  intro xs
  induction xs with
  | nil => intro out h1 h2; simp [escCount] at h2; omega
  | cons x xs ih =>
    intro out h1 h2
    simp only [List.length_cons, escCount] at h1 h2
    simp only [List.length_cons, List.cons_append, doByteStuffingLoop, cBuffPull_head_cons,
      List.headD_cons]
    by_cases hx : x = FRAME_FLAG ∨ x = ESCAPE_FLAG
    · rw [if_pos hx] at h2
      rw [if_pos hx, cBuffPushToFill_tail_room _ _ _ _ (by simp; omega)]
      simp only [one_ne_zero, if_false]
      by_cases hfull : cap ≤ xs.length + out.length + 1
      · rw [cBuffPushToFill_tail_full _ _ _ _ (by simp; omega)]
        simp
      · rw [cBuffPushToFill_tail_room _ _ _ _ (by simp; omega)]
        simp only [one_ne_zero, if_false]
        have := ih (out ++ [ESCAPE_FLAG, INVERTBIT5 x]) (by simp; omega) (by simp; omega)
        simpa only [List.append_assoc, List.cons_append, List.nil_append] using this
    · rw [if_neg hx] at h2
      rw [if_neg hx, cBuffPushToFill_tail_room _ _ _ _ (by simp; omega)]
      simp only [one_ne_zero, if_false]
      have := ih (out ++ [x]) (by simp; omega) (by simp; omega)
      simpa only [List.append_assoc, List.cons_append, List.nil_append] using this

theorem unstuff_cons_flag (rest : List Nat) : unstuff (FRAME_FLAG :: rest) = none := by
  cases rest <;> simp [unstuff]

theorem unstuff_esc_nil : unstuff [ESCAPE_FLAG] = none := by
  simp [unstuff]

theorem unstuff_esc_bad (c : Nat) (rest : List Nat)
    (hc : INVERTBIT5 c ≠ ESCAPE_FLAG ∧ INVERTBIT5 c ≠ FRAME_FLAG) :
    unstuff (ESCAPE_FLAG :: c :: rest) = none := by
  rw [unstuff, if_neg (by decide), if_pos rfl, if_pos hc]

theorem unstuff_esc_good (c : Nat) (rest : List Nat)
    (hc : ¬ (INVERTBIT5 c ≠ ESCAPE_FLAG ∧ INVERTBIT5 c ≠ FRAME_FLAG)) :
    unstuff (ESCAPE_FLAG :: c :: rest) = (unstuff rest).map (fun ys => INVERTBIT5 c :: ys) := by
  rw [unstuff, if_neg (by decide), if_pos rfl, if_neg hc]

theorem unstuff_cons_plain (x : Nat) (rest : List Nat) (h1 : x ≠ FRAME_FLAG)
    (h2 : x ≠ ESCAPE_FLAG) :
    unstuff (x :: rest) = (unstuff rest).map (fun ys => x :: ys) := by
  cases rest with
  | nil => simp [unstuff, h1, h2]
  | cons c rest2 => rw [unstuff, if_neg h1, if_neg h2]

theorem undoByteStuffingLoop_flag (b : Bool) (cap n : Nat) (l : List Nat) :
    undoByteStuffingLoop (n + 1) ⟨b, cap, FRAME_FLAG :: l⟩ = (0, ⟨b, cap, l⟩) := by
  cases n <;> simp [undoByteStuffingLoop, cBuffPull_head_cons]

theorem undoByteStuffingLoop_plain (b : Bool) (cap n x : Nat) (l : List Nat)
    (h1 : x ≠ FRAME_FLAG) (h2 : x ≠ ESCAPE_FLAG) :
    undoByteStuffingLoop (n + 1) ⟨b, cap, x :: l⟩
      = undoByteStuffingLoop n (cBuffPushToFill ⟨b, cap, l⟩ [x] 1).2 := by
  cases n <;> simp [undoByteStuffingLoop, cBuffPull_head_cons, h1, h2]

theorem undoByteStuffingLoop_esc_end (b : Bool) (cap : Nat) (l : List Nat) :
    undoByteStuffingLoop 1 ⟨b, cap, ESCAPE_FLAG :: l⟩ = (0, ⟨b, cap, l⟩) := by
  simp [undoByteStuffingLoop, cBuffPull_head_cons]

theorem undoByteStuffingLoop_esc_bad (b : Bool) (cap n c : Nat) (l : List Nat)
    (hc : INVERTBIT5 c ≠ ESCAPE_FLAG ∧ INVERTBIT5 c ≠ FRAME_FLAG) :
    undoByteStuffingLoop (n + 2) ⟨b, cap, ESCAPE_FLAG :: c :: l⟩ = (0, ⟨b, cap, l⟩) := by
  rw [undoByteStuffingLoop]
  simp only [cBuffPull_head_cons, List.headD_cons]
  rw [if_neg (by decide), if_pos trivial, if_pos hc]

theorem undoByteStuffingLoop_esc_good (b : Bool) (cap n c : Nat) (l : List Nat)
    (hc : ¬ (INVERTBIT5 c ≠ ESCAPE_FLAG ∧ INVERTBIT5 c ≠ FRAME_FLAG)) :
    undoByteStuffingLoop (n + 2) ⟨b, cap, ESCAPE_FLAG :: c :: l⟩
      = undoByteStuffingLoop n (cBuffPushToFill ⟨b, cap, l⟩ [INVERTBIT5 c] 1).2 := by
  rw [undoByteStuffingLoop]
  simp only [cBuffPull_head_cons, List.headD_cons]
  rw [if_neg (by decide), if_pos trivial, if_neg hc]

/-- The un-stuffing loop computes `unstuff`: on a buffer holding the bytes
still to process (`xs`, at the head) followed by the bytes already produced
(`out`), it fails exactly when `unstuff xs` does and otherwise leaves
`out ++ ys`. -/
theorem undoByteStuffingLoop_spec (b : Bool) (cap : Nat) :
    ∀ (n : Nat) (xs out : List Nat), xs.length = n → xs.length + out.length ≤ cap →
      (∀ ys, unstuff xs = some ys →
        undoByteStuffingLoop xs.length ⟨b, cap, xs ++ out⟩ = (1, ⟨b, cap, out ++ ys⟩)) ∧
      (unstuff xs = none → (undoByteStuffingLoop xs.length ⟨b, cap, xs ++ out⟩).1 = 0) := by
  intro n
  induction n using Nat.strong_induction_on with
  | _ n ih =>
    intro xs out hn h
    cases xs with
    | nil => simp [unstuff, undoByteStuffingLoop]
    | cons x rest =>
      simp only [List.length_cons] at h hn
      by_cases hx : x = FRAME_FLAG
      · subst hx
        simp [unstuff_cons_flag, undoByteStuffingLoop_flag]
      · by_cases hx2 : x = ESCAPE_FLAG
        · subst hx2
          cases rest with
          | nil => simp [unstuff_esc_nil, undoByteStuffingLoop_esc_end]
          | cons c rest2 =>
            simp only [List.length_cons] at h hn
            by_cases hc : INVERTBIT5 c ≠ ESCAPE_FLAG ∧ INVERTBIT5 c ≠ FRAME_FLAG
            · rw [unstuff_esc_bad c rest2 hc]
              simp only [List.length_cons, List.cons_append]
              rw [undoByteStuffingLoop_esc_bad _ _ _ _ _ hc]
              simp
            · have ih2 := ih rest2.length (by omega) rest2 (out ++ [INVERTBIT5 c]) rfl
                (by simp only [List.length_append, List.length_singleton]; omega)
              rw [unstuff_esc_good c rest2 hc]
              simp only [List.length_cons, List.cons_append]
              rw [undoByteStuffingLoop_esc_good _ _ _ _ _ hc,
                cBuffPushToFill_tail_room _ _ _ _
                  (by simp only [List.length_append]; omega)]
              simp only [List.append_assoc, List.cons_append, List.nil_append] at ih2 ⊢
              constructor
              · intro ys hys
                cases hr : unstuff rest2 with
                | none => simp [hr] at hys
                | some zs =>
                  simp only [hr, Option.map_some', Option.some.injEq] at hys
                  rw [ih2.1 zs hr, ← hys]
              · intro hn2
                cases hr : unstuff rest2 with
                | none => exact ih2.2 hr
                | some zs => simp [hr] at hn2
        · have ih2 := ih rest.length (by omega) rest (out ++ [x]) rfl
            (by simp only [List.length_append, List.length_singleton]; omega)
          rw [unstuff_cons_plain x rest hx hx2]
          simp only [List.length_cons, List.cons_append]
          rw [undoByteStuffingLoop_plain _ _ _ _ _ hx hx2,
            cBuffPushToFill_tail_room _ _ _ _ (by simp only [List.length_append]; omega)]
          simp only [List.append_assoc, List.cons_append, List.nil_append] at ih2 ⊢
          constructor
          · intro ys hys
            cases hr : unstuff rest with
            | none => simp [hr] at hys
            | some zs =>
              simp only [hr, Option.map_some', Option.some.injEq] at hys
              rw [ih2.1 zs hr, ← hys]
          · intro hn2
            cases hr : unstuff rest with
            | none => exact ih2.2 hr
            | some zs => simp [hr] at hn2

/-- Un-stuffing a stuffed sequence followed by anything is the sequence
followed by the un-stuffing of the rest. -/
theorem unstuff_stuff_append (xs rest : List Nat) :
    unstuff (stuff xs ++ rest) = (unstuff rest).map (fun ys => xs ++ ys) := by
  induction xs with
  | nil => simp [stuff]
  | cons x xs ih =>
    by_cases hx : x = FRAME_FLAG ∨ x = ESCAPE_FLAG
    · rw [stuff, if_pos hx]
      have hg : ¬ (INVERTBIT5 (INVERTBIT5 x) ≠ ESCAPE_FLAG ∧ INVERTBIT5 (INVERTBIT5 x) ≠ FRAME_FLAG) := by
        rcases hx with hx | hx <;> subst hx <;> decide
      have hi : INVERTBIT5 (INVERTBIT5 x) = x := by
        rcases hx with hx | hx <;> subst hx <;> decide
      rw [List.cons_append, List.cons_append, unstuff_esc_good _ _ hg, ih, hi]
      simp [Option.map_map, Function.comp_def]
    · rw [stuff, if_neg hx]
      have h1 : x ≠ FRAME_FLAG := fun h => hx (Or.inl h)
      have h2 : x ≠ ESCAPE_FLAG := fun h => hx (Or.inr h)
      rw [List.cons_append, unstuff_cons_plain _ _ h1 h2, ih]
      simp [Option.map_map, Function.comp_def]

theorem unstuff_stuff (xs : List Nat) : unstuff (stuff xs) = some xs := by
  have := unstuff_stuff_append xs []
  simpa [unstuff] using this

/-! ## CRC -/

set_option maxRecDepth 100000 in
theorem CRCLUT1021_length : CRCLUT1021.length = 256 := by decide

set_option maxRecDepth 100000 in
theorem CRCLUT1021_low_nodup : (CRCLUT1021.map (fun x => x % 256)).Nodup := by decide

set_option maxRecDepth 100000 in
theorem CRCLUT1021_lt : ∀ x ∈ CRCLUT1021, x < 65536 := by decide

theorem CRCLUT1021_getD_lt (i : Nat) : CRCLUT1021.getD i 0 < 65536 := by
  by_cases h : i < CRCLUT1021.length
  · rw [List.getD_eq_getElem _ _ h]
    exact CRCLUT1021_lt _ (List.getElem_mem h)
  · rw [List.getD_eq_default _ _ (by omega)]
    norm_num

/-- The low bytes of the table entries are pairwise different. -/
theorem CRCLUT1021_low_inj (i j : Nat) (hi : i < 256) (hj : j < 256)
    (h : CRCLUT1021.getD i 0 % 256 = CRCLUT1021.getD j 0 % 256) : i = j := by
  have hn := CRCLUT1021_low_nodup
  have hl : (CRCLUT1021.map (fun x => x % 256)).length = 256 := by
    simp [CRCLUT1021_length]
  have hi2 : i < (CRCLUT1021.map (fun x => x % 256)).length := by omega
  have hj2 : j < (CRCLUT1021.map (fun x => x % 256)).length := by omega
  apply (@List.Nodup.getElem_inj_iff _ _ hn i hi2 j hj2).1
  simp only [List.getElem_map]
  rw [List.getD_eq_getElem _ _ (by rw [CRCLUT1021_length]; exact hi),
    List.getD_eq_getElem _ _ (by rw [CRCLUT1021_length]; exact hj)] at h
  exact h

/-- XOR of two words acts separately on the high part and on the low byte. -/
theorem xor_hilo (h l h2 l2 : Nat) (hl : l < 256) (hl2 : l2 < 256) :
    (256 * h + l) ^^^ (256 * h2 + l2) = 256 * (h ^^^ h2) + (l ^^^ l2) := by
  have hx : l ^^^ l2 < 2 ^ 8 := Nat.xor_lt_two_pow (by simpa using hl) (by simpa using hl2)
  apply Nat.eq_of_testBit_eq
  intro i
  have e2 : (256 : Nat) = 2 ^ 8 := by norm_num
  rw [e2, Nat.testBit_xor, Nat.testBit_mul_pow_two_add _ (by simpa using hl),
    Nat.testBit_mul_pow_two_add _ (by simpa using hl2), Nat.testBit_mul_pow_two_add _ hx]
  split <;> simp [Nat.testBit_xor]

theorem xor_mod_pow (a b n : Nat) : (a ^^^ b) % 2 ^ n = (a % 2 ^ n) ^^^ (b % 2 ^ n) := by
  apply Nat.eq_of_testBit_eq
  intro i
  simp only [Nat.testBit_mod_two_pow, Nat.testBit_xor]
  by_cases h : i < n <;> simp [h]

theorem crcStep_lt (c b : Nat) : crcStep c b < 65536 := by
  unfold crcStep
  exact Nat.mod_lt _ (by norm_num)

/-- The loop body of `computeCRCwithLUT` on a 16-bit `crc` and an 8-bit
`byte`, by high and low byte: the table is indexed by `byte ^ (crc >> 8)`, the
new high byte is the old low byte XOR the high byte of the entry, the new low
byte is the low byte of the entry. -/
theorem crcStep_eq (crc byte : Nat) (hc : crc < 65536) (hb : byte < 256) :
    crcStep crc byte =
      256 * ((crc % 256) ^^^ (CRCLUT1021.getD (byte ^^^ (crc / 256)) 0 / 256))
        + CRCLUT1021.getD (byte ^^^ (crc / 256)) 0 % 256 := by
  have hh : crc / 256 < 2 ^ 8 := by omega
  have hbx : byte ^^^ (crc / 256) < 2 ^ 8 := Nat.xor_lt_two_pow (by simpa using hb) hh
  have h1 : (byte <<< 8) ^^^ crc = 256 * (byte ^^^ (crc / 256)) + crc % 256 := by
    have := xor_hilo byte 0 (crc / 256) (crc % 256) (by norm_num) (by omega)
    rw [Nat.shiftLeft_eq]
    have e : 256 * (crc / 256) + crc % 256 = crc := by omega
    rw [e] at this
    simpa [Nat.mul_comm] using this
  unfold crcStep
  simp only [h1]
  have h2 : (256 * (byte ^^^ (crc / 256)) + crc % 256) % 65536
      = 256 * (byte ^^^ (crc / 256)) + crc % 256 := by
    apply Nat.mod_eq_of_lt; omega
  rw [h2]
  have h3 : ((256 * (byte ^^^ (crc / 256)) + crc % 256) >>> 8) % 256
      = byte ^^^ (crc / 256) := by
    rw [Nat.shiftRight_eq_div_pow]; omega
  rw [h3]
  have ht := CRCLUT1021_getD_lt (byte ^^^ (crc / 256))
  generalize CRCLUT1021.getD (byte ^^^ (crc / 256)) 0 = t at ht ⊢
  have e16 : (65536 : Nat) = 2 ^ 16 := by norm_num
  rw [e16, xor_mod_pow, ← e16]
  have h4 : ((256 * (byte ^^^ (crc / 256)) + crc % 256) <<< 8) % 65536
      = 256 * (crc % 256) + 0 := by
    rw [Nat.shiftLeft_eq]; omega
  rw [h4, Nat.mod_eq_of_lt ht]
  have := xor_hilo (crc % 256) 0 (t / 256) (t % 256) (by norm_num) (by omega)
  have e : 256 * (t / 256) + t % 256 = t := by omega
  rw [e] at this
  simpa using this

/-- Two CRC steps that agree came from states with the same low byte and the
same table index. -/
theorem crcStep_inj (c c2 b b2 : Nat) (hc : c < 65536) (hc2 : c2 < 65536) (hb : b < 256)
    (hb2 : b2 < 256) (h : crcStep c b = crcStep c2 b2) :
    b ^^^ (c / 256) = b2 ^^^ (c2 / 256) ∧ c % 256 = c2 % 256 := by
  rw [crcStep_eq c b hc hb, crcStep_eq c2 b2 hc2 hb2] at h
  have hx : b ^^^ (c / 256) < 2 ^ 8 := Nat.xor_lt_two_pow (by simpa using hb) (by omega)
  have hx2 : b2 ^^^ (c2 / 256) < 2 ^ 8 := Nat.xor_lt_two_pow (by simpa using hb2) (by omega)
  have hlow : CRCLUT1021.getD (b ^^^ (c / 256)) 0 % 256
      = CRCLUT1021.getD (b2 ^^^ (c2 / 256)) 0 % 256 := by
    omega
  have hidx := CRCLUT1021_low_inj _ _ (by simpa using hx) (by simpa using hx2) hlow
  refine ⟨hidx, ?_⟩
  rw [hidx] at h
  have h2 : (c % 256) ^^^ (CRCLUT1021.getD (b2 ^^^ (c2 / 256)) 0 / 256)
      = (c2 % 256) ^^^ (CRCLUT1021.getD (b2 ^^^ (c2 / 256)) 0 / 256) := by omega
  have := congrArg (fun x => x ^^^ (CRCLUT1021.getD (b2 ^^^ (c2 / 256)) 0 / 256)) h2
  simpa [Nat.xor_cancel_right] using this

/-- For a fixed byte the CRC step is injective on 16-bit states. -/
theorem crcStep_inj_state (c c2 b : Nat) (hc : c < 65536) (hc2 : c2 < 65536) (hb : b < 256)
    (h : crcStep c b = crcStep c2 b) : c = c2 := by
  obtain ⟨h1, h2⟩ := crcStep_inj c c2 b b hc hc2 hb hb h
  have h3 : c / 256 = c2 / 256 := Nat.xor_right_injective h1
  omega

/-- From a fixed 16-bit state the CRC step is injective on bytes. -/
theorem crcStep_inj_byte (c b b2 : Nat) (hc : c < 65536) (hb : b < 256) (hb2 : b2 < 256)
    (h : crcStep c b = crcStep c b2) : b = b2 := by
  obtain ⟨h1, _⟩ := crcStep_inj c c b b2 hc hc hb hb2 h
  have := congrArg (fun x => x ^^^ (c / 256)) h1
  simpa [Nat.xor_cancel_right] using this

theorem and_255 (c : Nat) : c &&& 0xFF = c % 256 := by
  have := Nat.and_pow_two_sub_one_eq_mod c 8
  norm_num at this ⊢
  exact this

theorem num16ToNet_eq (c : Nat) (hc : c < 65536) : num16ToNet c = [c / 256, c % 256] := by
  unfold num16ToNet
  rw [and_255, and_255, Nat.shiftRight_eq_div_pow]
  have : c / 2 ^ 8 % 256 = c / 256 := by norm_num; omega
  rw [this]

/-- Zero residue of one state: feeding a 16-bit state its own high byte and
then its own low byte gives 0. -/
theorem crcStep_residue (c : Nat) (hc : c < 65536) :
    crcStep (crcStep c (c / 256)) (c % 256) = 0 := by
  have l0 : CRCLUT1021.getD 0 0 = 0 := by decide
  have s1 : crcStep c (c / 256) = 256 * (c % 256) := by
    rw [crcStep_eq c (c / 256) hc (by omega), Nat.xor_self, l0]
    simp
  rw [s1, crcStep_eq _ _ (by omega) (by omega)]
  have e : 256 * (c % 256) / 256 = c % 256 := by omega
  rw [e, Nat.xor_self, l0]
  have e2 : 256 * (c % 256) % 256 = 0 := by omega
  rw [e2]
  simp

theorem crc16_lt (P : List Nat) : crc16 P < 65536 := by
  unfold crc16
  induction P using List.reverseRecOn with
  | nil => simp
  | append_singleton l a _ =>
    rw [List.foldl_append]
    exact crcStep_lt _ _

theorem crc16_append (P Q : List Nat) : crc16 (P ++ Q) = Q.foldl crcStep (crc16 P) := by
  unfold crc16
  rw [List.foldl_append]

/-- Reading a buffer by offsets `0 .. elemNum-1` visits its bytes in order. -/
theorem foldl_range_getD (f : Nat → Nat → Nat) (l : List Nat) (init : Nat) :
    (List.range l.length).foldl (fun c b => f c (l.getD b 0)) init = l.foldl f init := by
  induction l using List.reverseRecOn with
  | nil => simp
  | append_singleton l a ih =>
    rw [List.length_append, List.length_singleton, List.range_succ, List.foldl_append,
      List.foldl_append]
    have h1 : (List.range l.length).foldl (fun c b => f c ((l ++ [a]).getD b 0)) init
        = (List.range l.length).foldl (fun c b => f c (l.getD b 0)) init := by
      apply List.foldl_ext
      intro c b hb
      rw [List.mem_range] at hb
      rw [List.getD_append _ _ _ _ hb]
    rw [h1, ih]
    simp [List.getD_append_right]

theorem computeCRCwithLUT_eq (cap : Nat) (l : List Nat) :
    computeCRCwithLUT ⟨true, cap, l⟩ = crc16 l := by
  unfold computeCRCwithLUT crc16
  simp only [cBuffReadByte, circular_buffer_handle.elemNum, if_true]
  simpa using foldl_range_getD crcStep l CRC_INITIAL

/-- The CRC over a sequence followed by the two big-endian bytes of its own
CRC is zero. -/
theorem crc16_append_self (P : List Nat) : crc16 (P ++ num16ToNet (crc16 P)) = 0 := by
  rw [crc16_append, num16ToNet_eq _ (crc16_lt P)]
  exact crcStep_residue _ (crc16_lt P)

/-! ## Frame and deframe -/

theorem cBuffPull_tail_snoc (b : Bool) (cap y : Nat) (l : List Nat) :
    cBuffPull ⟨b, cap, l ++ [y]⟩ 1 1 = (1, [y], ⟨b, cap, l⟩) := by
  simp [cBuffPull, circular_buffer_handle.elemNum]

theorem cBuffPull_tail_nil (b : Bool) (cap : Nat) :
    cBuffPull ⟨b, cap, []⟩ 1 1 = (0, [], ⟨b, cap, []⟩) := by
  simp [cBuffPull, circular_buffer_handle.elemNum]

theorem num16ToNet_length (c : Nat) : (num16ToNet c).length = 2 := rfl

theorem addCRC_ok (cap : Nat) (P : List Nat) (h : P.length + 2 ≤ cap) :
    addCRC (payloadBuff cap P) = (1, payloadBuff cap (P ++ num16ToNet (crc16 P))) := by
  have hc : cap ≠ 0 := by omega
  have ht : List.take (cap - P.length) (num16ToNet (crc16 P)) = num16ToNet (crc16 P) := by
    apply List.take_of_length_le
    rw [num16ToNet_length]; omega
  simp only [addCRC, payloadBuff, computeCRCwithLUT_eq, cBuffPushToFill,
    circular_buffer_handle.elemNum, ht, num16ToNet_length]
  simp [hc]

theorem addCRC_fail (cap : Nat) (P : List Nat) (h : cap < P.length + 2) :
    (addCRC (payloadBuff cap P)).1 = 0 := by
  have hl : (List.take (cap - P.length) (num16ToNet (crc16 P))).length ≠ 2 := by
    rw [List.length_take, num16ToNet_length]; omega
  simp only [addCRC, payloadBuff, computeCRCwithLUT_eq, cBuffPushToFill,
    circular_buffer_handle.elemNum, if_neg hl]
  split
  · rfl
  · rfl

theorem doByteStuffing_ok (cap : Nat) (M : List Nat) (hne : M ≠ []) (h1 : M.length < cap)
    (h2 : M.length + escCount M ≤ cap) :
    doByteStuffing (payloadBuff cap M) = (1, payloadBuff cap (stuff M)) := by
  have hl : M.length ≠ 0 := by
    intro h; exact hne (List.length_eq_zero.1 h)
  have hg : ¬ ((true = false) ∨ cap = 0 ∨ M.length = 0 ∨ M.length = cap) := by
    rintro (h | h | h | h)
    · cases h
    all_goals omega
  simp only [doByteStuffing, payloadBuff, circular_buffer_handle.elemNum, if_neg hg]
  have := doByteStuffingLoop_ok true cap M [] (by simpa using h2)
  simpa using this

theorem doByteStuffing_fail (cap : Nat) (M : List Nat) (h0 : M.length ≤ cap)
    (h : cap < M.length + escCount M ∨ M.length = cap ∨ M = []) :
    (doByteStuffing (payloadBuff cap M)).1 = 0 := by
  simp only [doByteStuffing, payloadBuff, circular_buffer_handle.elemNum]
  split
  · rfl
  · rename_i hg
    simp only [not_or] at hg
    rcases h with h | h | h
    · have := doByteStuffingLoop_fail true cap M [] (by simpa using h0) (by simpa using h)
      simpa using this
    · exact absurd h hg.2.2.2
    · exact absurd (by rw [h]; rfl) hg.2.2.1

/-- Success of `frame`: when the stuffed payload and CRC plus the two flags
fit in the buffer, `frame` returns 1 and the buffer holds the wire frame. -/
theorem frame_ok (cap : Nat) (P : List Nat)
    (h : P.length + 4 + escCount (P ++ num16ToNet (crc16 P)) ≤ cap) :
    frame (payloadBuff cap P) = (1, payloadBuff cap (wireFrame P)) := by
  have hM : (P ++ num16ToNet (crc16 P)).length = P.length + 2 := by
    rw [List.length_append, num16ToNet_length]
  have hne : P ++ num16ToNet (crc16 P) ≠ [] := by
    intro h0
    have := congrArg List.length h0
    rw [hM] at this
    simp at this
  have hs : (stuff (P ++ num16ToNet (crc16 P))).length
      = P.length + 2 + escCount (P ++ num16ToNet (crc16 P)) := by
    rw [stuff_length, hM]
  have ha := addCRC_ok cap P (by omega)
  have hd := doByteStuffing_ok cap (P ++ num16ToNet (crc16 P)) hne (by omega) (by omega)
  have hh := cBuffPushToFill_head_room true cap FRAME_FLAG
    (stuff (P ++ num16ToNet (crc16 P))) (by omega)
  have ht := cBuffPushToFill_tail_room true cap FRAME_FLAG
    (FRAME_FLAG :: stuff (P ++ num16ToNet (crc16 P)))
    (by rw [List.length_cons]; omega)
  unfold frame
  rw [if_neg (by simp [payloadBuff]), ha]
  simp only [one_ne_zero, if_false]
  rw [hd]
  simp only [one_ne_zero, if_false]
  simp only [payloadBuff] at hh ht ⊢
  rw [hh]
  simp only [one_ne_zero, if_false]
  rw [ht]
  simp [wireFrame]

/-- Failure of `frame`: when the stuffed payload and CRC plus the two flags do
not fit in the buffer, `frame` returns 0. -/
theorem frame_fail (cap : Nat) (P : List Nat)
    (h : cap < P.length + 4 + escCount (P ++ num16ToNet (crc16 P))) :
    (frame (payloadBuff cap P)).1 = 0 := by
  have hM : (P ++ num16ToNet (crc16 P)).length = P.length + 2 := by
    rw [List.length_append, num16ToNet_length]
  have hs : (stuff (P ++ num16ToNet (crc16 P))).length
      = P.length + 2 + escCount (P ++ num16ToNet (crc16 P)) := by
    rw [stuff_length, hM]
  have hne : P ++ num16ToNet (crc16 P) ≠ [] := by
    intro h0
    have := congrArg List.length h0
    rw [hM] at this
    simp at this
  unfold frame
  rw [if_neg (by simp [payloadBuff])]
  by_cases h1 : P.length + 2 ≤ cap
  · rw [addCRC_ok cap P h1]
    simp only [one_ne_zero, if_false]
    by_cases h2 : cap < (P ++ num16ToNet (crc16 P)).length
        + escCount (P ++ num16ToNet (crc16 P)) ∨ (P ++ num16ToNet (crc16 P)).length = cap
    · have := doByteStuffing_fail cap (P ++ num16ToNet (crc16 P)) (by omega)
        (by rcases h2 with h2 | h2
            · exact Or.inl h2
            · exact Or.inr (Or.inl h2))
      rw [if_pos this]
    · simp only [not_or, not_lt] at h2
      rw [doByteStuffing_ok cap (P ++ num16ToNet (crc16 P)) hne (by omega) (by omega)]
      simp only [one_ne_zero, if_false]
      simp only [payloadBuff]
      by_cases h3 : cap ≤ (stuff (P ++ num16ToNet (crc16 P))).length
      · rw [cBuffPushToFill_head_full _ _ _ _ h3]
        simp
      · rw [cBuffPushToFill_head_room _ _ _ _ (by omega)]
        simp only [one_ne_zero, if_false]
        rw [cBuffPushToFill_tail_full _ _ _ _ (by rw [List.length_cons]; omega)]
        simp
  · have := addCRC_fail cap P (by omega)
    rw [if_pos this]

theorem removeVerifyCRC_ok (cap : Nat) (ys : List Nat) (hc : cap ≠ 0) (h2 : 2 ≤ ys.length)
    (h : crc16 ys = 0) :
    removeVerifyCRC (payloadBuff cap ys) = (1, payloadBuff cap (ys.take (ys.length - 2))) := by
  have hg : ¬ ((true = false) ∨ cap = 0 ∨ ys.length < 2) := by
    rintro (h | h | h)
    · cases h
    all_goals omega
  simp only [removeVerifyCRC, payloadBuff, circular_buffer_handle.elemNum, if_neg hg,
    computeCRCwithLUT_eq, h, if_true, cBuffPull]
  simp [Nat.min_eq_left h2]

theorem removeVerifyCRC_fail (cap : Nat) (ys : List Nat) (h : ys.length < 2 ∨ crc16 ys ≠ 0) :
    (removeVerifyCRC (payloadBuff cap ys)).1 = 0 := by
  simp only [removeVerifyCRC, payloadBuff, circular_buffer_handle.elemNum,
    computeCRCwithLUT_eq]
  split
  · rfl
  · rename_i hg
    simp only [not_or, not_lt] at hg
    rcases h with h | h
    · omega
    · rw [if_neg h]

theorem undoByteStuffing_ok (cap : Nat) (E ys : List Nat) (hne : E ≠ []) (hcap : E.length ≤ cap)
    (h : unstuff E = some ys) :
    undoByteStuffing (payloadBuff cap E) = (1, payloadBuff cap ys) := by
  have hl : E.length ≠ 0 := by
    intro h; exact hne (List.length_eq_zero.1 h)
  have hg : ¬ ((true = false) ∨ cap = 0 ∨ E.length = 0) := by
    rintro (h | h | h)
    · cases h
    all_goals omega
  simp only [undoByteStuffing, payloadBuff, circular_buffer_handle.elemNum, if_neg hg]
  have := (undoByteStuffingLoop_spec true cap E.length E [] rfl (by simpa using hcap)).1 ys h
  simpa using this

theorem undoByteStuffing_fail (cap : Nat) (E : List Nat) (hcap : E.length ≤ cap)
    (h : unstuff E = none ∨ E = []) :
    (undoByteStuffing (payloadBuff cap E)).1 = 0 := by
  simp only [undoByteStuffing, payloadBuff, circular_buffer_handle.elemNum]
  split
  · rfl
  · rename_i hg
    simp only [not_or] at hg
    rcases h with h | h
    · have := (undoByteStuffingLoop_spec true cap E.length E [] rfl (by simpa using hcap)).2 h
      simpa using this
    · exact absurd (by rw [h]; rfl) hg.2.2

/-- What `deframe` does on a flag-delimited buffer `0x7E :: E ++ [0x7E]`: the
flags are pulled and the three remaining stages run on the interior `E`. -/
theorem deframe_delimited (cap : Nat) (E : List Nat) :
    deframe (payloadBuff cap (FRAME_FLAG :: E ++ [FRAME_FLAG])) =
      if (undoByteStuffing (payloadBuff cap E)).1 = 0 then
        (0, (undoByteStuffing (payloadBuff cap E)).2)
      else if (removeVerifyCRC (undoByteStuffing (payloadBuff cap E)).2).1 = 0 then
        (0, (removeVerifyCRC (undoByteStuffing (payloadBuff cap E)).2).2)
      else (1, (removeVerifyCRC (undoByteStuffing (payloadBuff cap E)).2).2) := by
  unfold deframe
  simp only [payloadBuff, List.cons_append, cBuffPull_head_cons, cBuffPull_tail_snoc,
    List.headD_cons]
  simp

/-- Success of `deframe` on a delimited buffer whose interior un-stuffs to a
sequence of at least two bytes with zero CRC residue. -/
theorem deframe_ok (cap : Nat) (E ys : List Nat) (hne : E ≠ []) (hcap : E.length ≤ cap)
    (hu : unstuff E = some ys) (h2 : 2 ≤ ys.length) (hcrc : crc16 ys = 0) :
    deframe (payloadBuff cap (FRAME_FLAG :: E ++ [FRAME_FLAG]))
      = (1, payloadBuff cap (ys.take (ys.length - 2))) := by
  have hl : E.length ≠ 0 := by
    intro h; exact hne (List.length_eq_zero.1 h)
  rw [deframe_delimited, undoByteStuffing_ok cap E ys hne hcap hu,
    removeVerifyCRC_ok cap ys (by omega) h2 hcrc]
  simp

/-- Failure of `deframe` on a delimited buffer whose interior is empty, does
not un-stuff, or un-stuffs to fewer than two bytes or to a non-zero CRC
residue. -/
theorem deframe_fail (cap : Nat) (E : List Nat) (hcap : E.length ≤ cap)
    (h : E = [] ∨ unstuff E = none ∨
      ∃ ys, unstuff E = some ys ∧ (ys.length < 2 ∨ crc16 ys ≠ 0)) :
    (deframe (payloadBuff cap (FRAME_FLAG :: E ++ [FRAME_FLAG]))).1 = 0 := by
  rw [deframe_delimited]
  rcases h with h | h | ⟨ys, hu, h⟩
  · rw [if_pos (undoByteStuffing_fail cap E hcap (Or.inr h))]
  · rw [if_pos (undoByteStuffing_fail cap E hcap (Or.inl h))]
  · by_cases hne : E = []
    · rw [if_pos (undoByteStuffing_fail cap E hcap (Or.inr hne))]
    · rw [undoByteStuffing_ok cap E ys hne hcap hu]
      simp only [one_ne_zero, if_false]
      rw [if_pos (removeVerifyCRC_fail cap ys h)]

theorem stuff_no_flag (M : List Nat) : FRAME_FLAG ∉ stuff M := by
  induction M with
  | nil => simp [stuff]
  | cons x M ih =>
    by_cases hx : x = FRAME_FLAG ∨ x = ESCAPE_FLAG
    · rw [stuff, if_pos hx]
      have h1 : FRAME_FLAG ≠ INVERTBIT5 x := by
        rcases hx with hx | hx <;> subst hx <;> decide
      simp only [List.mem_cons, not_or]
      exact ⟨by decide, h1, ih⟩
    · rw [stuff, if_neg hx]
      simp only [List.mem_cons, not_or]
      exact ⟨fun h => hx (Or.inl h.symm), ih⟩

theorem stuff_escape_follow (M : List Nat) :
    ∀ i, (stuff M)[i]? = some ESCAPE_FLAG →
      (stuff M)[i + 1]? = some 0x5D ∨ (stuff M)[i + 1]? = some 0x5E := by
  induction M with
  | nil => intro i h; simp [stuff] at h
  | cons x M ih =>
    intro i h
    by_cases hx : x = FRAME_FLAG ∨ x = ESCAPE_FLAG
    · rw [stuff, if_pos hx] at h ⊢
      match i, h with
      | 0, _ =>
        have h5 : INVERTBIT5 x = 0x5D ∨ INVERTBIT5 x = 0x5E := by
          rcases hx with hx | hx <;> subst hx <;> decide
        simpa using h5
      | 1, h =>
        exfalso
        have h5 : INVERTBIT5 x ≠ ESCAPE_FLAG := by
          rcases hx with hx | hx <;> subst hx <;> decide
        simp only [List.getElem?_cons_succ, List.getElem?_cons_zero, Option.some.injEq] at h
        exact h5 h
      | i + 2, h =>
        simp only [List.getElem?_cons_succ] at h ⊢
        exact ih i h
    · rw [stuff, if_neg hx] at h ⊢
      match i, h with
      | 0, h =>
        exfalso
        simp only [List.getElem?_cons_zero, Option.some.injEq] at h
        exact hx (Or.inr h)
      | i + 1, h =>
        simp only [List.getElem?_cons_succ] at h ⊢
        exact ih i h

theorem wireFrame_length (P : List Nat) :
    (wireFrame P).length = P.length + 4 + escCount (P ++ num16ToNet (crc16 P)) := by
  simp only [wireFrame, List.length_cons, List.length_append, stuff_length, num16ToNet_length,
    List.length_singleton, List.length_nil]
  omega

theorem escCount_payload_le (P : List Nat) :
    escCount (P ++ num16ToNet (crc16 P)) ≤ P.length + 2 := by
  have := escCount_le (P ++ num16ToNet (crc16 P))
  rwa [List.length_append, num16ToNet_length] at this

/-- A successful `frame` leaves the wire frame. -/
theorem frame_success (cap : Nat) (P : List Nat) (h : (frame (payloadBuff cap P)).1 ≠ 0) :
    frame (payloadBuff cap P) = (1, payloadBuff cap (wireFrame P)) := by
  by_cases hc : P.length + 4 + escCount (P ++ num16ToNet (crc16 P)) ≤ cap
  · exact frame_ok cap P hc
  · exact absurd (frame_fail cap P (by omega)) h

/-- Function `deframe` inverts `frame`: on the wire frame of `P`, in a buffer that can
hold it, `deframe` returns 1 and leaves `P`. -/
theorem deframe_wireFrame (cap : Nat) (P : List Nat) (hcap : (wireFrame P).length ≤ cap) :
    deframe (payloadBuff cap (wireFrame P)) = (1, payloadBuff cap P) := by
  have hM : (P ++ num16ToNet (crc16 P)).length = P.length + 2 := by
    rw [List.length_append, num16ToNet_length]
  have hne : stuff (P ++ num16ToNet (crc16 P)) ≠ [] := by
    intro h0
    have := congrArg List.length h0
    rw [stuff_length, hM] at this
    simp at this
  have hl : (stuff (P ++ num16ToNet (crc16 P))).length ≤ cap := by
    rw [wireFrame_length] at hcap
    rw [stuff_length, hM]; omega
  have := deframe_ok cap (stuff (P ++ num16ToNet (crc16 P))) (P ++ num16ToNet (crc16 P)) hne hl
    (unstuff_stuff _) (by omega) (crc16_append_self P)
  rw [hM] at this
  simpa [wireFrame] using this

/-- C1 (round trip): for every payload `P` of at most `SDL_MAX_PAY_LEN` bytes
(the empty one included) held in a buffer of capacity `2*256+6`, `frame`
succeeds, and `deframe` applied to the buffer it leaves succeeds and leaves
exactly the bytes of `P`. -/
theorem C1_round_trip (P : List Nat) (hlen : P.length ≤ SDL_MAX_PAY_LEN) :
    (frame (payloadBuff (2 * 256 + 6) P)).1 = 1 ∧
      (deframe (frame (payloadBuff (2 * 256 + 6) P)).2).1 = 1 ∧
      (deframe (frame (payloadBuff (2 * 256 + 6) P)).2).2.elems = P := by
  have he := escCount_payload_le P
  have hf := frame_ok (2 * 256 + 6) P (by simp only [SDL_MAX_PAY_LEN] at hlen; omega)
  have hd := deframe_wireFrame (2 * 256 + 6) P
    (by rw [wireFrame_length]; simp only [SDL_MAX_PAY_LEN] at hlen; omega)
  rw [hf]
  show 1 = 1 ∧ (deframe (payloadBuff (2 * 256 + 6) (wireFrame P))).1 = 1 ∧
    (deframe (payloadBuff (2 * 256 + 6) (wireFrame P))).2.elems = P
  rw [hd]
  exact ⟨rfl, rfl, rfl⟩

theorem C1_round_trip_witness :
    [72, 101, 108, 108, 111, 32, 0].length ≤ SDL_MAX_PAY_LEN ∧
      (frame (payloadBuff (2 * 256 + 6) [72, 101, 108, 108, 111, 32, 0])).1 = 1 ∧
      (deframe (frame (payloadBuff (2 * 256 + 6) [72, 101, 108, 108, 111, 32, 0])).2).1 = 1 ∧
      (deframe (frame (payloadBuff (2 * 256 + 6) [72, 101, 108, 108, 111, 32, 0])).2).2.elems
        = [72, 101, 108, 108, 111, 32, 0] :=
  ⟨by decide, C1_round_trip [72, 101, 108, 108, 111, 32, 0] (by decide)⟩

/-- C2 (wire format): whenever `frame` succeeds on a payload `P`, the buffer
holds exactly `0x7E`, then the stuffing of `P` followed by the high and the low
byte of the CRC-16 of `P`, then `0x7E`; `stuff` replaces each `0x7E` / `0x7D`
by `0x7D` and the byte XOR `0x20` and keeps every other byte. -/
theorem C2_wire_format (cap : Nat) (P : List Nat) (h : (frame (payloadBuff cap P)).1 ≠ 0) :
    (frame (payloadBuff cap P)).2.elems =
      [0x7E] ++ stuff (P ++ [computeCRCwithLUT (payloadBuff cap P) / 256,
                             computeCRCwithLUT (payloadBuff cap P) % 256]) ++ [0x7E] := by
  rw [frame_success cap P h]
  simp only [payloadBuff, computeCRCwithLUT_eq, wireFrame, num16ToNet_eq _ (crc16_lt P)]
  rfl

theorem C2_wire_format_witness :
    (frame (payloadBuff 20 [1, 0x7E, 3])).1 ≠ 0 ∧
    (frame (payloadBuff 20 [1, 0x7E, 3])).2.elems =
      [0x7E] ++ stuff ([1, 0x7E, 3] ++ [computeCRCwithLUT (payloadBuff 20 [1, 0x7E, 3]) / 256,
                             computeCRCwithLUT (payloadBuff 20 [1, 0x7E, 3]) % 256]) ++ [0x7E] :=
  ⟨by decide, C2_wire_format 20 [1, 0x7E, 3] (by decide)⟩

/-- C3 (no embedded delimiter): for every payload on which `frame` succeeds,
the frame has `0x7E` at index 0 and at its last index and at no other index,
and every `0x7D` in it is immediately followed by `0x5D` or `0x5E`. -/
theorem C3_no_embedded_delimiter (cap : Nat) (P : List Nat)
    (h : (frame (payloadBuff cap P)).1 ≠ 0) :
    (frame (payloadBuff cap P)).2.elems[0]? = some 0x7E ∧
    (frame (payloadBuff cap P)).2.elems[(frame (payloadBuff cap P)).2.elems.length - 1]?
      = some 0x7E ∧
    (∀ i, (frame (payloadBuff cap P)).2.elems[i]? = some 0x7E →
      i = 0 ∨ i = (frame (payloadBuff cap P)).2.elems.length - 1) ∧
    (∀ i, (frame (payloadBuff cap P)).2.elems[i]? = some 0x7D →
      (frame (payloadBuff cap P)).2.elems[i + 1]? = some 0x5D ∨
      (frame (payloadBuff cap P)).2.elems[i + 1]? = some 0x5E) := by
  rw [frame_success cap P h]
  simp only [payloadBuff, wireFrame]
  generalize hE : stuff (P ++ num16ToNet (crc16 P)) = E
  have hnf : FRAME_FLAG ∉ E := by rw [← hE]; exact stuff_no_flag _
  have hfol := stuff_escape_follow (P ++ num16ToNet (crc16 P))
  rw [hE] at hfol
  have hlen : (FRAME_FLAG :: E ++ [FRAME_FLAG]).length - 1 = E.length + 1 := by simp
  refine ⟨by simp, ?_, ?_, ?_⟩
  · rw [hlen]
    simp
  · intro i hi
    rw [hlen]
    match i, hi with
    | 0, _ => exact Or.inl rfl
    | j + 1, hi =>
      right
      simp only [List.cons_append, List.getElem?_cons_succ] at hi
      by_cases hj : j < E.length
      · rw [List.getElem?_append_left hj] at hi
        exact absurd (List.mem_iff_getElem?.2 ⟨j, hi⟩) hnf
      · by_cases hj2 : j = E.length
        · omega
        · rw [List.getElem?_eq_none (by simp; omega)] at hi
          cases hi
  · intro i hi
    match i, hi with
    | 0, hi => simp at hi
    | j + 1, hi =>
      simp only [List.cons_append, List.getElem?_cons_succ] at hi ⊢
      by_cases hj : j < E.length
      · rw [List.getElem?_append_left hj] at hi
        have hf := hfol j hi
        have hj1 : j + 1 < E.length := by
          by_contra hc
          rw [List.getElem?_eq_none (by omega)] at hf
          rcases hf with hf | hf <;> cases hf
        rw [List.getElem?_append_left hj1]
        exact hf
      · exfalso
        by_cases hj2 : j = E.length
        · subst hj2
          simp at hi
        · rw [List.getElem?_eq_none (by simp; omega)] at hi
          cases hi

theorem C3_no_embedded_delimiter_witness :
    (frame (payloadBuff 20 [0x7D, 0x7E, 3])).1 ≠ 0 ∧
    ((frame (payloadBuff 20 [0x7D, 0x7E, 3])).2.elems[0]? = some 0x7E ∧
    (frame (payloadBuff 20 [0x7D, 0x7E, 3])).2.elems[
        (frame (payloadBuff 20 [0x7D, 0x7E, 3])).2.elems.length - 1]? = some 0x7E ∧
    (∀ i, (frame (payloadBuff 20 [0x7D, 0x7E, 3])).2.elems[i]? = some 0x7E →
      i = 0 ∨ i = (frame (payloadBuff 20 [0x7D, 0x7E, 3])).2.elems.length - 1) ∧
    (∀ i, (frame (payloadBuff 20 [0x7D, 0x7E, 3])).2.elems[i]? = some 0x7D →
      (frame (payloadBuff 20 [0x7D, 0x7E, 3])).2.elems[i + 1]? = some 0x5D ∨
      (frame (payloadBuff 20 [0x7D, 0x7E, 3])).2.elems[i + 1]? = some 0x5E)) :=
  ⟨by decide, C3_no_embedded_delimiter 20 [0x7D, 0x7E, 3] (by decide)⟩

/-- C4 (CRC zero residue): for every byte sequence `P`, `computeCRCwithLUT`
over `P` followed by the two big-endian bytes of `computeCRCwithLUT` of `P` is
0; and when the buffer has room for two more bytes, `addCRC` succeeds and
`removeVerifyCRC` applied to its result succeeds and leaves exactly `P`. -/
theorem C4_crc_zero_residue (cap : Nat) (P : List Nat) :
    computeCRCwithLUT
        (payloadBuff cap (P ++ num16ToNet (computeCRCwithLUT (payloadBuff cap P)))) = 0 ∧
    (P.length + 2 ≤ cap →
      (addCRC (payloadBuff cap P)).1 = 1 ∧
      removeVerifyCRC (addCRC (payloadBuff cap P)).2 = (1, payloadBuff cap P)) := by
  constructor
  · simp only [payloadBuff, computeCRCwithLUT_eq]
    exact crc16_append_self P
  · intro h
    rw [addCRC_ok cap P h]
    refine ⟨rfl, ?_⟩
    have := removeVerifyCRC_ok cap (P ++ num16ToNet (crc16 P)) (by omega)
      (by rw [List.length_append, num16ToNet_length]; omega) (crc16_append_self P)
    simpa [num16ToNet_length] using this

theorem C4_crc_zero_residue_witness :
    computeCRCwithLUT
        (payloadBuff 8 ([1, 2, 3] ++ num16ToNet (computeCRCwithLUT (payloadBuff 8 [1, 2, 3])))) = 0 ∧
    ([1, 2, 3].length + 2 ≤ 8 →
      (addCRC (payloadBuff 8 [1, 2, 3])).1 = 1 ∧
      removeVerifyCRC (addCRC (payloadBuff 8 [1, 2, 3])).2 = (1, payloadBuff 8 [1, 2, 3])) :=
  C4_crc_zero_residue 8 [1, 2, 3]

/-! ## Single-bit corruption -/

/-- Changing one byte of a sequence changes its CRC. -/
theorem crc16_single_byte (A B : List Nat) (x y : Nat) (hx : x < 256) (hy : y < 256)
    (hB : ∀ b ∈ B, b < 256) (hne : x ≠ y) :
    crc16 (A ++ x :: B) ≠ crc16 (A ++ y :: B) := by
  rw [crc16_append, crc16_append, List.foldl_cons, List.foldl_cons]
  have h0 : crcStep (crc16 A) x ≠ crcStep (crc16 A) y := fun h =>
    hne (crcStep_inj_byte _ _ _ (crc16_lt A) hx hy h)
  have key : ∀ (B : List Nat), (∀ b ∈ B, b < 256) → ∀ s t : Nat, s < 65536 → t < 65536 →
      s ≠ t → B.foldl crcStep s ≠ B.foldl crcStep t := by
    intro B
    induction B with
    | nil => intro _ s t _ _ h; simpa using h
    | cons b B ih =>
      intro hB s t hs ht h
      rw [List.foldl_cons, List.foldl_cons]
      apply ih (fun c hc => hB c (List.mem_cons_of_mem _ hc)) _ _ (crcStep_lt _ _)
        (crcStep_lt _ _)
      intro he
      exact h (crcStep_inj_state s t b hs ht (hB b (List.mem_cons_self _ _)) he)
  exact key B hB _ _ (crcStep_lt _ _) (crcStep_lt _ _) h0

/-- Where an index of a stuffed sequence falls: on a byte copied unchanged, on
the `0x7D` of an escape pair, or on the second byte of an escape pair. -/
theorem stuff_index (M : List Nat) :
    ∀ j, j < (stuff M).length →
      ∃ A x B, M = A ++ x :: B ∧
        ((¬ (x = FRAME_FLAG ∨ x = ESCAPE_FLAG) ∧ j = (stuff A).length) ∨
         ((x = FRAME_FLAG ∨ x = ESCAPE_FLAG) ∧ j = (stuff A).length) ∨
         ((x = FRAME_FLAG ∨ x = ESCAPE_FLAG) ∧ j = (stuff A).length + 1)) := by
  induction M with
  | nil => intro j hj; simp [stuff] at hj
  | cons m M ih =>
    intro j hj
    by_cases hm : m = FRAME_FLAG ∨ m = ESCAPE_FLAG
    · rw [stuff, if_pos hm] at hj
      match j, hj with
      | 0, _ => exact ⟨[], m, M, rfl, Or.inr (Or.inl ⟨hm, rfl⟩)⟩
      | 1, _ => exact ⟨[], m, M, rfl, Or.inr (Or.inr ⟨hm, rfl⟩)⟩
      | j + 2, hj =>
        simp only [List.length_cons] at hj
        obtain ⟨A, x, B, hM, hcase⟩ := ih j (by omega)
        refine ⟨m :: A, x, B, by rw [hM]; rfl, ?_⟩
        have hl : (stuff (m :: A)).length = (stuff A).length + 2 := by
          rw [stuff, if_pos hm]; rfl
        rw [hl]
        rcases hcase with ⟨h1, h2⟩ | ⟨h1, h2⟩ | ⟨h1, h2⟩
        · exact Or.inl ⟨h1, by omega⟩
        · exact Or.inr (Or.inl ⟨h1, by omega⟩)
        · exact Or.inr (Or.inr ⟨h1, by omega⟩)
    · rw [stuff, if_neg hm] at hj
      match j, hj with
      | 0, _ => exact ⟨[], m, M, rfl, Or.inl ⟨hm, rfl⟩⟩
      | j + 1, hj =>
        simp only [List.length_cons] at hj
        obtain ⟨A, x, B, hM, hcase⟩ := ih j (by omega)
        refine ⟨m :: A, x, B, by rw [hM]; rfl, ?_⟩
        have hl : (stuff (m :: A)).length = (stuff A).length + 1 := by
          rw [stuff, if_neg hm]; rfl
        rw [hl]
        rcases hcase with ⟨h1, h2⟩ | ⟨h1, h2⟩ | ⟨h1, h2⟩
        · exact Or.inl ⟨h1, by omega⟩
        · exact Or.inr (Or.inl ⟨h1, by omega⟩)
        · exact Or.inr (Or.inr ⟨h1, by omega⟩)

theorem flipBit_middle (A R : List Nat) (y k : Nat) :
    flipBit (A ++ y :: R) A.length k = A ++ (y ^^^ 2 ^ k) :: R := by
  unfold flipBit
  rw [List.getD_append_right _ _ _ _ (le_refl _), List.set_append_right _ _ (le_refl _)]
  simp

theorem getD_middle (A R : List Nat) (y : Nat) : (A ++ y :: R).getD A.length 0 = y := by
  rw [List.getD_append_right _ _ _ _ (le_refl _)]
  simp

theorem flipBit_delimited (E : List Nat) (j k : Nat) (hj : j < E.length) :
    flipBit (FRAME_FLAG :: E ++ [FRAME_FLAG]) (j + 1) k
      = FRAME_FLAG :: flipBit E j k ++ [FRAME_FLAG] := by
  unfold flipBit
  simp only [List.cons_append, List.set_cons_succ, List.getD_cons_succ]
  rw [List.getD_append _ _ _ _ hj, List.set_append_left _ _ hj]

theorem flip_lt (x k : Nat) (hx : x < 256) (hk : k < 8) : x ^^^ 2 ^ k < 256 := by
  have h1 : x < 2 ^ 8 := by simpa using hx
  have h2 : 2 ^ k < 2 ^ 8 := Nat.pow_lt_pow_right (by norm_num) hk
  simpa using Nat.xor_lt_two_pow h1 h2

theorem flip_ne (x k : Nat) : x ≠ x ^^^ 2 ^ k := by
  intro h
  have h1 : x ^^^ 0 = x ^^^ 2 ^ k := by rw [Nat.xor_zero]; exact h
  have h2 : 0 = 2 ^ k := Nat.xor_right_injective h1
  have h3 : 0 < 2 ^ k := Nat.pos_pow_of_pos k (by norm_num)
  omega

theorem invertbit5_eq (c v : Nat) (h : INVERTBIT5 c = v) : c = INVERTBIT5 v := by
  rw [← h]
  simp only [INVERTBIT5]
  rw [Nat.xor_cancel_right]

theorem stuff_eq_nil (B : List Nat) (h : stuff B = []) : B = [] := by
  cases B with
  | nil => rfl
  | cons b B =>
    exfalso
    have := congrArg List.length h
    rw [stuff_length] at this
    simp at this

theorem flip_escaped_bad (x k : Nat) (hx : x = FRAME_FLAG ∨ x = ESCAPE_FLAG) (hk : k < 8) :
    INVERTBIT5 (INVERTBIT5 x ^^^ 2 ^ k) ≠ ESCAPE_FLAG ∧
      INVERTBIT5 (INVERTBIT5 x ^^^ 2 ^ k) ≠ FRAME_FLAG := by
  rcases hx with hx | hx <;> subst hx <;> interval_cases k <;> decide

/-- Core of the corruption argument: in a delimited buffer whose interior is
the stuffing of a sequence `M` of bytes with zero CRC residue, inverting one
bit of an interior byte makes `deframe` fail, unless the byte is `0x7D` or
becomes a `0x7D` that is followed by `0x5D` or `0x5E`. -/
theorem deframe_flipped_interior (cap : Nat) (M : List Nat) (hM : ∀ b ∈ M, b < 256)
    (hcrc : crc16 M = 0) (j k : Nat) (hj : j < (stuff M).length) (hk : k < 8)
    (hcap : (stuff M).length ≤ cap)
    (hold : (stuff M).getD j 0 ≠ ESCAPE_FLAG)
    (hnew : ¬ ((stuff M).getD j 0 ^^^ 2 ^ k = ESCAPE_FLAG ∧
      ((stuff M ++ [FRAME_FLAG]).getD (j + 1) 0 = 0x5D ∨
       (stuff M ++ [FRAME_FLAG]).getD (j + 1) 0 = 0x5E))) :
    (deframe (payloadBuff cap (FRAME_FLAG :: flipBit (stuff M) j k ++ [FRAME_FLAG]))).1 = 0 := by
  have hlen : (flipBit (stuff M) j k).length ≤ cap := by
    unfold flipBit; rw [List.length_set]; exact hcap
  apply deframe_fail cap _ hlen
  obtain ⟨A, x, B, hMeq, hcase⟩ := stuff_index M j hj
  subst hMeq
  have hxlt : x < 256 := hM x (by simp)
  have hBlt : ∀ b ∈ B, b < 256 := fun b hb => hM b (by simp [hb])
  rw [stuff_append] at hold hnew ⊢
  rcases hcase with ⟨hx, hjA⟩ | ⟨hx, hjA⟩ | ⟨hx, hjA⟩
  · -- a byte that was copied unchanged
    subst hjA
    have h1 : x ≠ FRAME_FLAG := fun h => hx (Or.inl h)
    have h2 : x ≠ ESCAPE_FLAG := fun h => hx (Or.inr h)
    have hsx : stuff (x :: B) = x :: stuff B := by rw [stuff, if_neg hx]
    rw [hsx] at hold hnew ⊢
    rw [flipBit_middle]
    rw [getD_middle] at hnew
    by_cases hf : x ^^^ 2 ^ k = FRAME_FLAG
    · right; left
      rw [hf, unstuff_stuff_append, unstuff_cons_flag]; rfl
    · by_cases he : x ^^^ 2 ^ k = ESCAPE_FLAG
      · right; left
        rw [he, unstuff_stuff_append]
        have hnext : ¬ ((stuff B ++ [FRAME_FLAG]).getD 0 0 = 0x5D ∨
            (stuff B ++ [FRAME_FLAG]).getD 0 0 = 0x5E) := by
          intro hc
          apply hnew
          refine ⟨he, ?_⟩
          rw [List.append_assoc, List.getD_append_right _ _ _ _ (by omega)]
          simpa using hc
        cases hsB : stuff B with
        | nil => rw [unstuff_esc_nil]; rfl
        | cons c R =>
          rw [hsB] at hnext
          simp only [List.cons_append, List.getD_cons_zero] at hnext
          have hbad : INVERTBIT5 c ≠ ESCAPE_FLAG ∧ INVERTBIT5 c ≠ FRAME_FLAG := by
            constructor
            · intro h; exact hnext (Or.inl (invertbit5_eq c _ h))
            · intro h; exact hnext (Or.inr (invertbit5_eq c _ h))
          rw [unstuff_esc_bad c R hbad]; rfl
      · right; right
        refine ⟨A ++ (x ^^^ 2 ^ k) :: B, ?_, Or.inr ?_⟩
        · rw [unstuff_stuff_append, unstuff_cons_plain _ _ hf he, unstuff_stuff]; rfl
        · intro h0
          exact crc16_single_byte A B x (x ^^^ 2 ^ k) hxlt (flip_lt x k hxlt hk) hBlt
            (flip_ne x k) (by rw [hcrc, h0])
  · -- the escape byte of a pair
    exfalso
    subst hjA
    have hsx : stuff (x :: B) = ESCAPE_FLAG :: INVERTBIT5 x :: stuff B := by
      rw [stuff, if_pos hx]
    rw [hsx, getD_middle] at hold
    exact hold rfl
  · -- the second byte of a pair
    have hsx : stuff A ++ stuff (x :: B)
        = (stuff A ++ [ESCAPE_FLAG]) ++ INVERTBIT5 x :: stuff B := by
      rw [stuff, if_pos hx]; simp
    have hjA2 : j = (stuff A ++ [ESCAPE_FLAG]).length := by
      rw [List.length_append, List.length_singleton]; exact hjA
    rw [hsx, hjA2, flipBit_middle]
    right; left
    rw [List.append_assoc, unstuff_stuff_append]
    simp only [List.singleton_append]
    rw [unstuff_esc_bad _ _ (flip_escaped_bad x k hx hk)]; rfl

theorem num16ToNet_lt (c : Nat) (hc : c < 65536) : ∀ b ∈ num16ToNet c, b < 256 := by
  rw [num16ToNet_eq c hc]
  intro b hb
  simp only [List.mem_cons, List.mem_singleton, List.not_mem_nil, or_false] at hb
  rcases hb with hb | hb <;> omega

/-- C5 (corruption detection), as the code has it: for every payload `P` of
bytes, at most `SDL_MAX_PAY_LEN` long, framed in the scratch-sized buffer, and
every bit `k < 8` of a byte strictly inside the frame (index `i`, neither the
first nor the last `0x7E`), `deframe` fails on the frame with that bit
inverted, provided the byte is not an escape byte `0x7D` and the inversion
does not turn it into a `0x7D` that is followed by `0x5D` or `0x5E`. -/
theorem C5_corruption_detection_amended (P : List Nat) (i k : Nat)
    (hbytes : ∀ b ∈ P, b < 256) (hlen : P.length ≤ SDL_MAX_PAY_LEN)
    (hi : 0 < i) (hi2 : i + 1 < (frame (payloadBuff (2 * 256 + 6) P)).2.elems.length)
    (hk : k < 8)
    (hold : (frame (payloadBuff (2 * 256 + 6) P)).2.elems.getD i 0 ≠ 0x7D)
    (hnew : ¬ ((frame (payloadBuff (2 * 256 + 6) P)).2.elems.getD i 0 ^^^ 2 ^ k = 0x7D ∧
      ((frame (payloadBuff (2 * 256 + 6) P)).2.elems.getD (i + 1) 0 = 0x5D ∨
       (frame (payloadBuff (2 * 256 + 6) P)).2.elems.getD (i + 1) 0 = 0x5E))) :
    (deframe (payloadBuff (2 * 256 + 6)
      (flipBit (frame (payloadBuff (2 * 256 + 6) P)).2.elems i k))).1 = 0 := by
  have he := escCount_payload_le P
  have hf := frame_ok (2 * 256 + 6) P (by simp only [SDL_MAX_PAY_LEN] at hlen; omega)
  rw [hf] at hi2 hold hnew ⊢
  simp only [payloadBuff] at hi2 hold hnew
  have hwl := wireFrame_length P
  obtain ⟨j, rfl⟩ : ∃ j, i = j + 1 := ⟨i - 1, by omega⟩
  have hsl : (stuff (P ++ num16ToNet (crc16 P))).length
      = P.length + 2 + escCount (P ++ num16ToNet (crc16 P)) := by
    rw [stuff_length, List.length_append, num16ToNet_length]
  have hj : j < (stuff (P ++ num16ToNet (crc16 P))).length := by omega
  have hM : ∀ b ∈ P ++ num16ToNet (crc16 P), b < 256 := by
    intro b hb
    rcases List.mem_append.1 hb with hb | hb
    · exact hbytes b hb
    · exact num16ToNet_lt _ (crc16_lt P) b hb
  simp only [wireFrame, List.cons_append, List.getD_cons_succ] at hold hnew
  rw [List.getD_append _ _ _ _ hj] at hold hnew
  show (deframe (payloadBuff (2 * 256 + 6) (flipBit (wireFrame P) (j + 1) k))).1 = 0
  rw [wireFrame, flipBit_delimited _ _ _ hj]
  exact deframe_flipped_interior (2 * 256 + 6) (P ++ num16ToNet (crc16 P)) hM
    (crc16_append_self P) j k hj hk (by simp only [SDL_MAX_PAY_LEN] at hlen; omega) hold hnew

theorem C5_corruption_detection_amended_witness :
    (∀ b ∈ [0x7C, 1, 0x7E], b < 256) ∧ [0x7C, 1, 0x7E].length ≤ SDL_MAX_PAY_LEN ∧
    0 < 1 ∧ 1 + 1 < (frame (payloadBuff (2 * 256 + 6) [0x7C, 1, 0x7E])).2.elems.length ∧
    0 < 8 ∧
    (frame (payloadBuff (2 * 256 + 6) [0x7C, 1, 0x7E])).2.elems.getD 1 0 ^^^ 2 ^ 0 = 0x7D ∧
    (deframe (payloadBuff (2 * 256 + 6)
      (flipBit (frame (payloadBuff (2 * 256 + 6) [0x7C, 1, 0x7E])).2.elems 1 0))).1 = 0 :=
  ⟨by decide, by decide, by decide, by decide, by decide, by decide,
    C5_corruption_detection_amended [0x7C, 1, 0x7E] 1 0 (by decide) (by decide) (by decide)
      (by decide) (by decide) (by decide) (by decide)⟩

/-- C5 as stated fails: the payload `1D E2 7D` (3 bytes) frames to
`7E 1D E2 7D 5D 14 44 7E`; inverting bit 3 of the byte at index 3 (strictly
inside the frame) gives `7E 1D E2 75 5D 14 44 7E`, on which `deframe` succeeds
and leaves the 4-byte payload `1D E2 75 5D`.  Conversely the frame of
`1D E2 75 5D` with the same bit inverted is accepted as `1D E2 7D`. -/
theorem C5_counterexample :
    [29, 226, 125].length ≤ SDL_MAX_PAY_LEN ∧
    (frame (payloadBuff (2 * 256 + 6) [29, 226, 125]))
      = (1, payloadBuff (2 * 256 + 6) [126, 29, 226, 125, 93, 20, 68, 126]) ∧
    0 < 3 ∧ 3 + 1 < (frame (payloadBuff (2 * 256 + 6) [29, 226, 125])).2.elems.length ∧
    3 < 8 ∧
    deframe (payloadBuff (2 * 256 + 6)
      (flipBit (frame (payloadBuff (2 * 256 + 6) [29, 226, 125])).2.elems 3 3))
      = (1, payloadBuff (2 * 256 + 6) [29, 226, 117, 93]) ∧
    deframe (payloadBuff (2 * 256 + 6)
      (flipBit (frame (payloadBuff (2 * 256 + 6) [29, 226, 117, 93])).2.elems 3 3))
      = (1, payloadBuff (2 * 256 + 6) [29, 226, 125]) := by
  decide

/-- C6 (worst-case capacity): for every payload `P` held in a buffer of
capacity at least `2*len(P)+6`, `frame` succeeds, and the frame it leaves has
at least `len(P)+4` and at most `2*len(P)+6` bytes. -/
theorem C6_worst_case_capacity (cap : Nat) (P : List Nat) (h : 2 * P.length + 6 ≤ cap) :
    (frame (payloadBuff cap P)).1 = 1 ∧
    P.length + 4 ≤ (frame (payloadBuff cap P)).2.elems.length ∧
    (frame (payloadBuff cap P)).2.elems.length ≤ 2 * P.length + 6 := by
  have he := escCount_payload_le P
  rw [frame_ok cap P (by omega)]
  show 1 = 1 ∧ P.length + 4 ≤ (wireFrame P).length ∧ (wireFrame P).length ≤ 2 * P.length + 6
  rw [wireFrame_length]
  omega

theorem C6_worst_case_capacity_witness :
    2 * [0x7E, 0x7D].length + 6 ≤ 10 ∧
    ((frame (payloadBuff 10 [0x7E, 0x7D])).1 = 1 ∧
    [0x7E, 0x7D].length + 4 ≤ (frame (payloadBuff 10 [0x7E, 0x7D])).2.elems.length ∧
    (frame (payloadBuff 10 [0x7E, 0x7D])).2.elems.length ≤ 2 * [0x7E, 0x7D].length + 6) :=
  ⟨by decide, C6_worst_case_capacity 10 [0x7E, 0x7D] (by decide)⟩

/-! ## Send -/

theorem txRun_cons {σ : Type} (tx : σ → Nat → Nat × σ) (w : σ) (x : Nat) (l : List Nat) :
    txRun tx w (x :: l) = txRun tx (tx w x).2 l := rfl

theorem txRun_recordTx {σ : Type} (tx : σ → Nat → Nat × σ) :
    ∀ (l : List Nat) (w : σ) (log : List Nat),
      txRun (recordTx tx) (w, log) l = (txRun tx w l, log ++ l) := by
  intro l
  induction l with
  | nil => intro w log; simp [txRun]
  | cons x l ih =>
    intro w log
    rw [txRun_cons, txRun_cons]
    have : (recordTx tx (w, log) x).2 = ((tx w x).2, log ++ [x]) := rfl
    rw [this, ih]
    simp

/-- The transmit loop when every byte is accepted: every byte of the buffer is
passed to the transmit function, in order, and the loop ends with `return 1`. -/
theorem sdlSendLoop_all {σ : Type} (tx : σ → Nat → Nat × σ) (b0 : Bool) (cap : Nat)
    (hacc : ∀ s b, (tx s b).1 ≠ 0) :
    ∀ (l : List Nat) (fuel : Nat) (w : σ), l.length < fuel →
      sdlSendLoop tx fuel ⟨b0, cap, l⟩ w = some (1, txRun tx w l) := by
  intro l
  induction l with
  | nil =>
    intro fuel w hf
    obtain ⟨f, rfl⟩ : ∃ f, fuel = f + 1 := ⟨fuel - 1, by omega⟩
    simp [sdlSendLoop, cBuffPull_head_nil, txRun]
  | cons x l ih =>
    intro fuel w hf
    simp only [List.length_cons] at hf
    obtain ⟨f, rfl⟩ : ∃ f, fuel = f + 1 := ⟨fuel - 1, by omega⟩
    simp only [sdlSendLoop, cBuffPull_head_cons, List.headD_cons, one_ne_zero, if_false,
      if_neg (hacc w x)]
    rw [ih f (tx w x).2 (by omega), txRun_cons]

/-- The transmit loop when the `k`-th byte offered is the first one refused:
the first `k` bytes have been passed to the transmit function, in order, and
the loop ends with `return 0`. -/
theorem sdlSendLoop_refuse {σ : Type} (tx : σ → Nat → Nat × σ) (b0 : Bool) (cap : Nat) :
    ∀ (l : List Nat) (k fuel : Nat) (w : σ), l.length < fuel → 1 ≤ k → k ≤ l.length →
      (∀ j, j + 1 < k → (tx (txRun tx w (l.take j)) (l.getD j 0)).1 ≠ 0) →
      (tx (txRun tx w (l.take (k - 1))) (l.getD (k - 1) 0)).1 = 0 →
      sdlSendLoop tx fuel ⟨b0, cap, l⟩ w = some (0, txRun tx w (l.take k)) := by
  intro l
  induction l with
  | nil => intro k fuel w _ h1 h2 _ _; simp at h2; omega
  | cons x l ih =>
    intro k fuel w hf h1 h2 hacc hrej
    simp only [List.length_cons] at hf h2
    obtain ⟨f, rfl⟩ : ∃ f, fuel = f + 1 := ⟨fuel - 1, by omega⟩
    simp only [sdlSendLoop, cBuffPull_head_cons, List.headD_cons, one_ne_zero, if_false]
    match k, h1, h2, hacc, hrej with
    | 1, _, _, _, hrej =>
      have hr : (tx w x).1 = 0 := by simpa [txRun] using hrej
      rw [if_pos hr]
      simp [txRun]
    | k + 2, _, h2, hacc, hrej =>
      have ha : (tx w x).1 ≠ 0 := by simpa [txRun] using hacc 0 (by omega)
      rw [if_neg ha]
      rw [ih (k + 1) f (tx w x).2 (by omega) (by omega) (by omega)]
      · rw [List.take_succ_cons, txRun_cons]
      · intro j hj
        have := hacc (j + 1) (by omega)
        simpa [txRun_cons] using this
      · have : k + 2 - 1 = (k + 1 - 1) + 1 := by omega
        rw [this] at hrej
        simpa [txRun_cons] using hrej

theorem recordTx_fst {σ : Type} (tx : σ → Nat → Nat × σ) (w : σ × List Nat) (b : Nat) :
    (recordTx tx w b).1 = (tx w.1 b).1 := rfl

/-- What `sdlSend` does up to the transmit loop: for a payload of at most
`SDL_MAX_PAY_LEN` bytes the scratch buffer receives the wire frame and the
loop runs on it. -/
theorem sdlSend_eq_loop {σ : Type} (f : σ → Nat → Nat × σ) (rx : Option (σ → Nat × Nat × σ))
    (rxBuff : circular_buffer_handle) (w : σ) (P : List Nat)
    (hlen : P.length ≤ SDL_MAX_PAY_LEN) :
    sdlSend ⟨some f, rx, rxBuff⟩ w P
      = sdlSendLoop f ((wireFrame P).length + 1)
          (payloadBuff (SDL_MAX_PAY_LEN * 2 + 6) (wireFrame P)) w := by
  have he := escCount_payload_le P
  simp only [SDL_MAX_PAY_LEN] at hlen
  have hpush : cBuffPushToFill (cBuffInit true (SDL_MAX_PAY_LEN * 2 + 6)) P 1
      = (P.length, payloadBuff (SDL_MAX_PAY_LEN * 2 + 6) P) := by
    simp only [cBuffPushToFill, cBuffInit, payloadBuff, circular_buffer_handle.elemNum,
      List.length_nil, Nat.sub_zero]
    rw [List.take_of_length_le (by simp only [SDL_MAX_PAY_LEN]; omega)]
    simp
  have hf := frame_ok (SDL_MAX_PAY_LEN * 2 + 6) P (by simp only [SDL_MAX_PAY_LEN]; omega)
  simp only [sdlSend]
  rw [if_neg (by simp only [SDL_MAX_PAY_LEN]; omega), hpush]
  simp only [ne_eq, not_true_eq_false, if_false]
  rw [hf]
  simp [payloadBuff]

/-- C7 (successful send): for every line whose transmit function accepts every
byte and every payload `P` of at most `SDL_MAX_PAY_LEN` bytes, `sdlSend`
returns 1 and the bytes passed to the transmit function, in call order
(recorded by `recordTx`, starting from the empty record), are exactly the
frame `0x7E ++ stuff (P ++ CRC16_BE(P)) ++ 0x7E`, each passed once. -/
theorem C7_successful_send {σ : Type} (tx : σ → Nat → Nat × σ)
    (rx : Option (σ × List Nat → Nat × Nat × (σ × List Nat)))
    (rxBuff : circular_buffer_handle) (w : σ) (P : List Nat)
    (hacc : ∀ s b, (tx s b).1 ≠ 0) (hlen : P.length ≤ SDL_MAX_PAY_LEN) :
    sdlSend ⟨some (recordTx tx), rx, rxBuff⟩ (w, []) P
      = some (1, (txRun tx w ([0x7E] ++ stuff (P ++ num16ToNet (crc16 P)) ++ [0x7E]),
                  [0x7E] ++ stuff (P ++ num16ToNet (crc16 P)) ++ [0x7E])) := by
  rw [sdlSend_eq_loop _ _ _ _ _ hlen]
  simp only [payloadBuff]
  rw [sdlSendLoop_all (recordTx tx) true _ (fun s b => by rw [recordTx_fst]; exact hacc _ _)
    _ _ _ (by omega), txRun_recordTx]
  rfl

theorem C7_successful_send_witness :
    (∀ (s : Nat) (b : Nat), ((fun (s : Nat) (_ : Nat) => (1, s + 1)) s b).1 ≠ 0) ∧
    [72, 101, 108, 108, 111, 32, 0].length ≤ SDL_MAX_PAY_LEN ∧
    sdlSend ⟨some (recordTx (fun (s : Nat) (_ : Nat) => (1, s + 1))), none, cBuffInit true 518⟩
        (0, []) [72, 101, 108, 108, 111, 32, 0]
      = some (1, (txRun (fun (s : Nat) (_ : Nat) => (1, s + 1)) 0
                    ([0x7E] ++ stuff ([72, 101, 108, 108, 111, 32, 0]
                      ++ num16ToNet (crc16 [72, 101, 108, 108, 111, 32, 0])) ++ [0x7E]),
                  [0x7E] ++ stuff ([72, 101, 108, 108, 111, 32, 0]
                      ++ num16ToNet (crc16 [72, 101, 108, 108, 111, 32, 0])) ++ [0x7E])) :=
  ⟨fun _ _ => one_ne_zero, by decide,
    C7_successful_send (fun (s : Nat) (_ : Nat) => (1, s + 1)) none (cBuffInit true 518) 0
      [72, 101, 108, 108, 111, 32, 0] (fun _ _ => one_ne_zero) (by decide)⟩

/-- C8 (capacity enforcement on send): for every line and every payload longer
than `SDL_MAX_PAY_LEN`, `sdlSend` returns 0 and leaves the state of the
transport untouched; in particular a recording transmit function has recorded
no call. -/
theorem C8_capacity_enforcement (P : List Nat) (hlen : SDL_MAX_PAY_LEN < P.length) :
    (∀ (σ : Type) (line : serial_line_handle σ) (w : σ), sdlSend line w P = some (0, w)) ∧
    (∀ (σ : Type) (tx : σ → Nat → Nat × σ)
      (rx : Option (σ × List Nat → Nat × Nat × (σ × List Nat)))
      (rxBuff : circular_buffer_handle) (w : σ),
      sdlSend ⟨some (recordTx tx), rx, rxBuff⟩ (w, []) P = some (0, (w, []))) := by
  have key : ∀ (σ : Type) (line : serial_line_handle σ) (w : σ),
      sdlSend line w P = some (0, w) := by
    intro σ line w
    unfold sdlSend
    cases line.txFunc with
    | none => rfl
    | some f => simp only [if_pos hlen]
  exact ⟨key, fun σ tx rx rxBuff w => key _ _ _⟩

theorem C8_capacity_enforcement_witness :
    SDL_MAX_PAY_LEN < (List.replicate 257 0).length ∧
    ((∀ (σ : Type) (line : serial_line_handle σ) (w : σ),
      sdlSend line w (List.replicate 257 0) = some (0, w)) ∧
    (∀ (σ : Type) (tx : σ → Nat → Nat × σ)
      (rx : Option (σ × List Nat → Nat × Nat × (σ × List Nat)))
      (rxBuff : circular_buffer_handle) (w : σ),
      sdlSend ⟨some (recordTx tx), rx, rxBuff⟩ (w, []) (List.replicate 257 0)
        = some (0, (w, [])))) :=
  ⟨by rw [List.length_replicate]; decide,
    C8_capacity_enforcement (List.replicate 257 0) (by rw [List.length_replicate]; decide)⟩

/-- C9 (transport failure on send): for every payload `P` of at most
`SDL_MAX_PAY_LEN` bytes, if the transmit function accepts the first `k-1`
bytes of the frame and refuses the `k`-th, `sdlSend` returns 0 and the bytes
passed to the transmit function, in call order, are exactly the first `k`
bytes of the frame of `P`: `k` calls, none after the refusal. -/
theorem C9_transport_failure {σ : Type} (tx : σ → Nat → Nat × σ)
    (rx : Option (σ × List Nat → Nat × Nat × (σ × List Nat)))
    (rxBuff : circular_buffer_handle) (w : σ) (P : List Nat) (k : Nat)
    (hlen : P.length ≤ SDL_MAX_PAY_LEN) (hk1 : 1 ≤ k) (hk2 : k ≤ (wireFrame P).length)
    (hacc : ∀ j, j + 1 < k →
      (tx (txRun tx w ((wireFrame P).take j)) ((wireFrame P).getD j 0)).1 ≠ 0)
    (hrej : (tx (txRun tx w ((wireFrame P).take (k - 1))) ((wireFrame P).getD (k - 1) 0)).1 = 0) :
    sdlSend ⟨some (recordTx tx), rx, rxBuff⟩ (w, []) P
      = some (0, (txRun tx w ((wireFrame P).take k), (wireFrame P).take k)) ∧
    ((wireFrame P).take k).length = k := by
  rw [sdlSend_eq_loop _ _ _ _ _ hlen]
  simp only [payloadBuff]
  rw [sdlSendLoop_refuse (recordTx tx) true _ (wireFrame P) k _ (w, []) (by omega) hk1 hk2]
  · rw [txRun_recordTx]
    simp only [List.nil_append, List.length_take, true_and]
    omega
  · intro j hj
    rw [recordTx_fst, txRun_recordTx]
    exact hacc j hj
  · rw [recordTx_fst, txRun_recordTx]
    exact hrej

theorem C9_transport_failure_witness :
    [1].length ≤ SDL_MAX_PAY_LEN ∧ 1 ≤ 3 ∧ 3 ≤ (wireFrame [1]).length ∧
    (sdlSend ⟨some (recordTx (fun (s : Nat) (_ : Nat) => (if s < 2 then 1 else 0, s + 1))),
        none, cBuffInit true 518⟩ (0, []) [1]
      = some (0, (txRun (fun (s : Nat) (_ : Nat) => (if s < 2 then 1 else 0, s + 1)) 0
                    ((wireFrame [1]).take 3), (wireFrame [1]).take 3)) ∧
    ((wireFrame [1]).take 3).length = 3) :=
  ⟨by decide, by decide, by decide,
    C9_transport_failure (fun (s : Nat) (_ : Nat) => (if s < 2 then 1 else 0, s + 1)) none
      (cBuffInit true 518) 0 [1] 3 (by decide) (by decide) (by decide)
      (by intro j hj; have hj2 : j < 2 := by omega
          interval_cases j <;> decide) (by decide)⟩

/-! ## Receive -/

/-- The copy to the output buffer when the payload fits: no error, the output
handle holds the bytes already there followed by the whole payload. -/
theorem sdlReceiveOut_fits (b b2 : Bool) (cap len : Nat) :
    ∀ (l acc : List Nat) (fuel : Nat), l.length < fuel → acc.length + l.length ≤ len →
      sdlReceiveOut fuel ⟨b, cap, l⟩ ⟨b2, len, acc⟩
        = some (0, ⟨b, cap, []⟩, ⟨b2, len, acc ++ l⟩) := by
  intro l
  induction l with
  | nil =>
    intro acc fuel hf _
    obtain ⟨f, rfl⟩ : ∃ f, fuel = f + 1 := ⟨fuel - 1, by omega⟩
    simp [sdlReceiveOut, cBuffPull_head_nil]
  | cons x l ih =>
    intro acc fuel hf hl
    simp only [List.length_cons] at hf hl
    obtain ⟨f, rfl⟩ : ∃ f, fuel = f + 1 := ⟨fuel - 1, by omega⟩
    simp only [sdlReceiveOut, cBuffPull_head_cons, List.headD_cons, one_ne_zero, if_false]
    rw [cBuffPushToFill_tail_room _ _ _ _ (by omega)]
    simp only [one_ne_zero, if_false]
    rw [ih (acc ++ [x]) f (by omega) (by simp; omega)]
    simp

/-- The copy to the output buffer when the payload does not fit: the error
flag is raised. -/
theorem sdlReceiveOut_overflow (b b2 : Bool) (cap len : Nat) :
    ∀ (l acc : List Nat) (fuel : Nat), l.length < fuel → acc.length ≤ len →
      len < acc.length + l.length →
      ∃ tb th, sdlReceiveOut fuel ⟨b, cap, l⟩ ⟨b2, len, acc⟩ = some (1, tb, th) := by
  intro l
  induction l with
  | nil => intro acc fuel _ h1 h2; simp at h2; omega
  | cons x l ih =>
    intro acc fuel hf h1 h2
    simp only [List.length_cons] at hf h2
    obtain ⟨f, rfl⟩ : ∃ f, fuel = f + 1 := ⟨fuel - 1, by omega⟩
    simp only [sdlReceiveOut, cBuffPull_head_cons, List.headD_cons, one_ne_zero, if_false]
    by_cases hfull : len ≤ acc.length
    · rw [cBuffPushToFill_tail_full _ _ _ _ hfull]
      exact ⟨_, _, rfl⟩
    · rw [cBuffPushToFill_tail_room _ _ _ _ (by omega)]
      simp only [one_ne_zero, if_false]
      exact ih (acc ++ [x]) f (by omega) (by simp; omega) (by simp; omega)

/-- The copy of a candidate into the scratch buffer always ends. -/
theorem sdlReceiveCopy_total (b : Bool) (cap : Nat) :
    ∀ (l : List Nat) (fuel : Nat) (dst : circular_buffer_handle), l.length < fuel →
      ∃ r, sdlReceiveCopy fuel ⟨b, cap, l⟩ dst = some r := by
  intro l
  induction l with
  | nil =>
    intro fuel dst hf
    obtain ⟨f, rfl⟩ : ∃ f, fuel = f + 1 := ⟨fuel - 1, by omega⟩
    simp only [sdlReceiveCopy, cBuffPull_head_nil, if_true]
    exact ⟨_, rfl⟩
  | cons x l ih =>
    intro fuel dst hf
    simp only [List.length_cons] at hf
    obtain ⟨f, rfl⟩ : ∃ f, fuel = f + 1 := ⟨fuel - 1, by omega⟩
    simp only [sdlReceiveCopy, cBuffPull_head_cons, List.headD_cons, one_ne_zero, if_false]
    exact ih f _ (by omega)

/-- The fill loop always ends: it stops at the latest when the accumulation
buffer is full. -/
theorem sdlReceiveFill_total {σ : Type} (rxFunc : σ → Nat × Nat × σ) :
    ∀ (fuel : Nat) (rxBuff : circular_buffer_handle) (w : σ),
      rxBuff.buffLen - rxBuff.elemNum < fuel →
      ∃ r, sdlReceiveFill rxFunc fuel rxBuff w = some r := by
  intro fuel
  induction fuel with
  | zero => intro rxBuff w h; omega
  | succ f ih =>
    intro rxBuff w h
    simp only [sdlReceiveFill]
    by_cases hfull : cBuffFull rxBuff = true
    · rw [if_pos hfull]; exact ⟨_, rfl⟩
    · rw [if_neg hfull]
      by_cases hr : (rxFunc w).1 ≠ 0
      · rw [if_pos hr]
        apply ih
        have hnf : rxBuff.elems.length < rxBuff.buffLen := by
          simp only [cBuffFull, decide_eq_true_eq, not_le] at hfull
          exact hfull
        have h2 : rxBuff.buffLen - rxBuff.elems.length < f + 1 := h
        simp only [cBuffPush, circular_buffer_handle.elemNum, one_ne_zero, if_false,
          List.length_drop, List.length_append, List.length_singleton]
        omega
      · rw [if_neg hr]; exact ⟨_, rfl⟩

/-- The scan loop returns only lengths within the output capacity and
`SDL_MAX_PAY_LEN`, and a non-zero length is that of a complete payload left by
a successful `deframe`, which the output then holds. -/
theorem sdlReceiveScan_bound (search : Locator) (len : Nat) :
    ∀ (fuel : Nat) (rxBuff tmpBuff : circular_buffer_handle) (out0 : List Nat)
      (n : Nat) (out : List Nat) (rb : circular_buffer_handle),
      sdlReceiveScan search len fuel rxBuff tmpBuff out0 = some (n, out, rb) →
      n ≤ len ∧ n ≤ SDL_MAX_PAY_LEN ∧
        (n ≠ 0 → out.length = n ∧
          ∃ c, (deframe c).1 ≠ 0 ∧ (deframe c).2.elems = out) := by
  intro fuel
  induction fuel with
  | zero => intro rxBuff tmpBuff out0 n out rb h; simp [sdlReceiveScan] at h
  | succ f ih =>
    intro rxBuff tmpBuff out0 n out rb h
    simp only [sdlReceiveScan] at h
    split at h
    · simp only [Option.some.injEq, Prod.mk.injEq] at h
      obtain ⟨rfl, _, _⟩ := h
      simp
    · split at h
      · cases h
      · rename_i c hc
        split at h
        · exact ih _ _ _ _ _ _ h
        · split at h
          · exact ih _ _ _ _ _ _ h
          · rename_i hd hsz
            split at h
            · cases h
            · rename_i o ho
              split at h
              · exact ih _ _ _ _ _ _ h
              · rename_i herr
                simp only [Option.some.injEq, Prod.mk.injEq] at h
                obtain ⟨hn, hout, _⟩ := h
                rcases hdp : (deframe c.2).2 with ⟨db, dcap, p⟩
                rw [hdp] at ho hsz
                simp only [cBuffInit, circular_buffer_handle.elemNum] at ho hsz
                by_cases hfit : p.length ≤ len
                · rw [sdlReceiveOut_fits db true dcap len p [] _ (by omega)
                    (by simpa using hfit)] at ho
                  simp only [Option.some.injEq] at ho
                  subst ho
                  simp only [List.nil_append, circular_buffer_handle.elemNum] at hn hout
                  subst hn hout
                  refine ⟨hfit, by omega, fun _ => ⟨rfl, c.2, hd, ?_⟩⟩
                  rw [hdp]
                · exfalso
                  obtain ⟨tb, th, ho2⟩ := sdlReceiveOut_overflow db true dcap len p [] _
                    (Nat.lt_succ_self _) (by simp) (by simpa using hfit)
                  rw [ho2] at ho
                  simp only [Option.some.injEq] at ho
                  subst ho
                  exact herr one_ne_zero

/-- The scan loop ends when every successful search makes progress for some
measure on the accumulation buffer. -/
theorem sdlReceiveScan_total (search : Locator) (len : Nat)
    (μ : circular_buffer_handle → Nat)
    (hμ : ∀ b, (search b rule).1 ≠ 0 → μ (search b rule).2.1 < μ b) :
    ∀ (m : Nat) (rxBuff tmpBuff : circular_buffer_handle) (out0 : List Nat),
      μ rxBuff ≤ m → ∃ r, sdlReceiveScan search len (m + 1) rxBuff tmpBuff out0 = some r := by
  intro m
  induction m with
  | zero =>
    intro rxBuff tmpBuff out0 hm
    have hs : (search rxBuff rule).1 = 0 := by
      by_contra hne
      have := hμ rxBuff hne
      omega
    simp only [sdlReceiveScan, if_pos hs]
    exact ⟨_, rfl⟩
  | succ m ih =>
    intro rxBuff tmpBuff out0 hm
    simp only [sdlReceiveScan]
    by_cases hs : (search rxBuff rule).1 = 0
    · rw [if_pos hs]; exact ⟨_, rfl⟩
    · rw [if_neg hs]
      have hprog := hμ rxBuff hs
      rcases hsh : (search rxBuff rule).2.2 with ⟨sb, scap, sl⟩
      obtain ⟨c, hc⟩ := sdlReceiveCopy_total sb scap sl (sl.length + 1) (cBuffFlush tmpBuff)
        (Nat.lt_succ_self _)
      simp only [circular_buffer_handle.elemNum, hc]
      by_cases hd : (deframe c.2).1 = 0
      · rw [if_pos hd]; exact ih _ _ _ (by omega)
      · rw [if_neg hd]
        by_cases hsz : (deframe c.2).2.elems.length > SDL_MAX_PAY_LEN
        · rw [if_pos hsz]; exact ih _ _ _ (by omega)
        · rw [if_neg hsz]
          rcases hdp : (deframe c.2).2 with ⟨db, dcap, p⟩
          simp only [cBuffInit]
          by_cases hfit : p.length ≤ len
          · rw [sdlReceiveOut_fits db true dcap len p [] _ (Nat.lt_succ_self _)
              (by simpa using hfit)]
            simp only [ne_eq, not_true_eq_false, if_false]
            exact ⟨_, rfl⟩
          · obtain ⟨tb, th, ho2⟩ := sdlReceiveOut_overflow db true dcap len p [] _
              (Nat.lt_succ_self _) (by simp) (by simpa using hfit)
            rw [ho2]
            simp only [ne_eq, one_ne_zero, not_false_eq_true, if_true]
            exact ih _ _ _ (by omega)

/-! ## Decode rules -/

theorem invertbit5_esc_iff (c : Nat) : INVERTBIT5 c = ESCAPE_FLAG ↔ c = 0x5D := by
  constructor
  · intro h; exact invertbit5_eq c _ h
  · intro h; subst h; decide

theorem invertbit5_flag_iff (c : Nat) : INVERTBIT5 c = FRAME_FLAG ↔ c = 0x5E := by
  constructor
  · intro h; exact invertbit5_eq c _ h
  · intro h; subst h; decide

theorem escTargets_esc_cons (c : Nat) (rest : List Nat) :
    escTargets (ESCAPE_FLAG :: c :: rest) = some c :: escTargets rest := by
  rw [escTargets, if_pos rfl]

theorem escTargets_plain (x : Nat) (rest : List Nat) (h : x ≠ ESCAPE_FLAG) :
    escTargets (x :: rest) = escTargets rest := by
  cases rest with
  | nil => simp [escTargets, h]
  | cons c r => rw [escTargets, if_neg h]

theorem unescape_esc_cons (c : Nat) (rest : List Nat) :
    unescape (ESCAPE_FLAG :: c :: rest) = INVERTBIT5 c :: unescape rest := by
  rw [unescape, if_pos rfl]

theorem unescape_plain (x : Nat) (rest : List Nat) (h : x ≠ ESCAPE_FLAG) :
    unescape (x :: rest) = x :: unescape rest := by
  cases rest with
  | nil => simp [unescape, h]
  | cons c r => rw [unescape, if_neg h]

/-- The decoding function fails exactly on the three causes of the
specification, and otherwise gives the un-escaped sequence. -/
theorem unstuff_rules :
    ∀ (n : Nat) (S : List Nat), S.length = n →
      (unstuff S = none ↔
        (FRAME_FLAG ∈ S ∨ none ∈ escTargets S ∨
          ∃ c, some c ∈ escTargets S ∧ c ≠ 0x5D ∧ c ≠ 0x5E)) ∧
      (∀ ys, unstuff S = some ys → ys = unescape S) := by
  intro n
  induction n using Nat.strong_induction_on with
  | _ n ih =>
    intro S hn
    cases S with
    | nil => simp [unstuff, escTargets, unescape]
    | cons x rest =>
      simp only [List.length_cons] at hn
      by_cases hx : x = FRAME_FLAG
      · subst hx
        simp [unstuff_cons_flag]
      · by_cases hx2 : x = ESCAPE_FLAG
        · subst hx2
          cases rest with
          | nil => simp [unstuff_esc_nil, escTargets]
          | cons c rest2 =>
            simp only [List.length_cons] at hn
            obtain ⟨ih1, ih2⟩ := ih rest2.length (by omega) rest2 rfl
            by_cases hc : INVERTBIT5 c ≠ ESCAPE_FLAG ∧ INVERTBIT5 c ≠ FRAME_FLAG
            · rw [unstuff_esc_bad c rest2 hc, escTargets_esc_cons]
              have hc1 : c ≠ 0x5D := fun h => hc.1 ((invertbit5_esc_iff c).2 h)
              have hc2 : c ≠ 0x5E := fun h => hc.2 ((invertbit5_flag_iff c).2 h)
              refine ⟨⟨fun _ => Or.inr (Or.inr ⟨c, by simp, hc1, hc2⟩), fun _ => rfl⟩, ?_⟩
              intro ys h; cases h
            · rw [unstuff_esc_good c rest2 hc, escTargets_esc_cons, unescape_esc_cons]
              have hc5 : c = 0x5D ∨ c = 0x5E := by
                by_contra hne
                simp only [not_or] at hne
                apply hc
                exact ⟨fun h => hne.1 ((invertbit5_esc_iff c).1 h),
                  fun h => hne.2 ((invertbit5_flag_iff c).1 h)⟩
              have hcf : c ≠ FRAME_FLAG := by rcases hc5 with h | h <;> subst h <;> decide
              constructor
              · constructor
                · intro h
                  have hr : unstuff rest2 = none := by
                    cases hu : unstuff rest2 with
                    | none => rfl
                    | some zs => rw [hu] at h; simp at h
                  rcases ih1.1 hr with h1 | h1 | ⟨d, h1, h2⟩
                  · exact Or.inl (by simp [h1])
                  · exact Or.inr (Or.inl (by simp [h1]))
                  · exact Or.inr (Or.inr ⟨d, by simp [h1], h2⟩)
                · intro h
                  have hr : unstuff rest2 = none := by
                    apply ih1.2
                    rcases h with h | h | ⟨d, h1, h2⟩
                    · simp only [List.mem_cons] at h
                      rcases h with h | h | h
                      · exact absurd h (by decide)
                      · exact absurd h.symm hcf
                      · exact Or.inl h
                    · simp only [List.mem_cons] at h
                      rcases h with h | h
                      · cases h
                      · exact Or.inr (Or.inl h)
                    · simp only [List.mem_cons, Option.some.injEq] at h1
                      rcases h1 with h1 | h1
                      · subst h1
                        rcases hc5 with h | h
                        · exact absurd h h2.1
                        · exact absurd h h2.2
                      · exact Or.inr (Or.inr ⟨d, h1, h2⟩)
                  rw [hr]; rfl
              · intro ys h
                cases hu : unstuff rest2 with
                | none => rw [hu] at h; simp at h
                | some zs =>
                  rw [hu] at h
                  simp only [Option.map_some', Option.some.injEq] at h
                  rw [← h, ih2 zs hu]
        · obtain ⟨ih1, ih2⟩ := ih rest.length (by omega) rest rfl
          rw [unstuff_cons_plain x rest hx hx2, escTargets_plain x rest hx2,
            unescape_plain x rest hx2]
          constructor
          · constructor
            · intro h
              have hr : unstuff rest = none := by
                cases hu : unstuff rest with
                | none => rfl
                | some zs => rw [hu] at h; simp at h
              rcases ih1.1 hr with h1 | h1 | h1
              · exact Or.inl (by simp [h1])
              · exact Or.inr (Or.inl h1)
              · exact Or.inr (Or.inr h1)
            · intro h
              have hr : unstuff rest = none := by
                apply ih1.2
                rcases h with h | h | h
                · simp only [List.mem_cons] at h
                  rcases h with h | h
                  · exact absurd h.symm hx
                  · exact Or.inl h
                · exact Or.inr (Or.inl h)
                · exact Or.inr (Or.inr h)
              rw [hr]; rfl
          · intro ys h
            cases hu : unstuff rest with
            | none => rw [hu] at h; simp at h
            | some zs =>
              rw [hu] at h
              simp only [Option.map_some', Option.some.injEq] at h
              rw [← h, ih2 zs hu]

/-- C15 (byte-stuffing decode rules): for every non-empty byte sequence `S`
held in a buffer, `undoByteStuffing` fails if and only if `S` contains a
`0x7E`, or ends with an escape-introducing `0x7D`, or has an
escape-introducing `0x7D` followed by a byte other than `0x5D` and `0x5E`;
otherwise it returns 1 and the buffer holds `S` with every pair `0x7D, b`
replaced by `b XOR 0x20` and all other bytes unchanged, in order. -/
theorem C15_decode_rules (cap : Nat) (S : List Nat) (hne : S ≠ []) (hcap : S.length ≤ cap) :
    ((undoByteStuffing (payloadBuff cap S)).1 = 0 ↔
      (0x7E ∈ S ∨ none ∈ escTargets S ∨
        ∃ c, some c ∈ escTargets S ∧ c ≠ 0x5D ∧ c ≠ 0x5E)) ∧
    ((undoByteStuffing (payloadBuff cap S)).1 ≠ 0 →
      undoByteStuffing (payloadBuff cap S) = (1, payloadBuff cap (unescape S))) := by
  obtain ⟨h1, h2⟩ := unstuff_rules S.length S rfl
  cases hu : unstuff S with
  | none =>
    have hf := undoByteStuffing_fail cap S hcap (Or.inl hu)
    exact ⟨⟨fun _ => h1.1 hu, fun _ => hf⟩, fun h => absurd hf h⟩
  | some ys =>
    have hok := undoByteStuffing_ok cap S ys hne hcap hu
    have hys := h2 ys hu
    subst hys
    rw [hok]
    refine ⟨⟨fun h => absurd h one_ne_zero, fun h => ?_⟩, fun _ => rfl⟩
    have := h1.2 h
    rw [hu] at this
    cases this

theorem C15_decode_rules_witness :
    [0x41, 0x7D, 0x5E, 0x42] ≠ [] ∧ [0x41, 0x7D, 0x5E, 0x42].length ≤ 8 ∧
    (((undoByteStuffing (payloadBuff 8 [0x41, 0x7D, 0x5E, 0x42])).1 = 0 ↔
      (0x7E ∈ [0x41, 0x7D, 0x5E, 0x42] ∨ none ∈ escTargets [0x41, 0x7D, 0x5E, 0x42] ∨
        ∃ c, some c ∈ escTargets [0x41, 0x7D, 0x5E, 0x42] ∧ c ≠ 0x5D ∧ c ≠ 0x5E)) ∧
    ((undoByteStuffing (payloadBuff 8 [0x41, 0x7D, 0x5E, 0x42])).1 ≠ 0 →
      undoByteStuffing (payloadBuff 8 [0x41, 0x7D, 0x5E, 0x42])
        = (1, payloadBuff 8 (unescape [0x41, 0x7D, 0x5E, 0x42])))) :=
  ⟨by decide, by decide, C15_decode_rules 8 [0x41, 0x7D, 0x5E, 0x42] (by decide) (by decide)⟩

/-! ## Missing capability, degenerate candidates, exact capacity -/

/-- C16 (missing capability): for every line without transmit function
`sdlSend` returns 0 for every payload and leaves the state of the transport
as it was (the receive function, if any, is not called); for every line without
receive function `sdlReceive` returns 0, writes nothing, and leaves the line,
its accumulation buffer included, and the state of the transport as they were
(the transmit function, if any, is not called). -/
theorem C16_missing_capability {σ : Type} (line : serial_line_handle σ) (w : σ) :
    (line.txFunc = none → ∀ P : List Nat, sdlSend line w P = some (0, w)) ∧
    (line.rxFunc = none → ∀ (search : Locator) (fuel len : Nat),
      sdlReceive search fuel line w len = some (0, [], line, w)) := by
  constructor
  · intro h P
    unfold sdlSend
    rw [h]
  · intro h search fuel len
    unfold sdlReceive
    rw [h]

theorem C16_missing_capability_witness :
    (sdlInitLine none (some listRx)).txFunc = none ∧
    (sdlInitLine (some (fun (w : List Nat) b => (1, w ++ [b]))) none).rxFunc = none ∧
    (∀ P : List Nat,
      sdlSend (sdlInitLine none (some listRx)) [1, 2] P = some (0, [1, 2])) ∧
    (∀ (search : Locator) (fuel len : Nat),
      sdlReceive search fuel (sdlInitLine (some (fun (w : List Nat) b => (1, w ++ [b]))) none)
          [1, 2] len
        = some (0, [], sdlInitLine (some (fun (w : List Nat) b => (1, w ++ [b]))) none, [1, 2])) :=
  ⟨rfl, rfl, (C16_missing_capability (sdlInitLine none (some listRx)) [1, 2]).1 rfl,
    (C16_missing_capability (sdlInitLine (some (fun (w : List Nat) b => (1, w ++ [b]))) none)
      [1, 2]).2 rfl⟩

theorem removeVerifyCRC_short (d : circular_buffer_handle) (h : d.elems.length < 2) :
    (removeVerifyCRC d).1 = 0 := by
  unfold removeVerifyCRC
  rw [if_pos (Or.inr (Or.inr h))]

/-- C19 (degenerate candidates): `deframe` fails on the empty buffer, on the
single byte `0x7E`, on the two bytes `0x7E 0x7E`, and on every buffer
`0x7E, E, 0x7E` whose interior `E` does not un-stuff or un-stuffs to fewer
than two bytes. -/
theorem C19_degenerate_candidates (cap : Nat) :
    (deframe (payloadBuff cap [])).1 = 0 ∧
    (deframe (payloadBuff cap [0x7E])).1 = 0 ∧
    (deframe (payloadBuff cap [0x7E, 0x7E])).1 = 0 ∧
    (∀ E : List Nat,
      ((undoByteStuffing (payloadBuff cap E)).1 = 0 ∨
        (undoByteStuffing (payloadBuff cap E)).2.elems.length < 2) →
      (deframe (payloadBuff cap ([0x7E] ++ E ++ [0x7E]))).1 = 0) := by
  have hdel : ∀ E : List Nat,
      ((undoByteStuffing (payloadBuff cap E)).1 = 0 ∨
        (undoByteStuffing (payloadBuff cap E)).2.elems.length < 2) →
      (deframe (payloadBuff cap ([0x7E] ++ E ++ [0x7E]))).1 = 0 := by
    intro E h
    have e : ([0x7E] ++ E ++ [0x7E] : List Nat) = FRAME_FLAG :: E ++ [FRAME_FLAG] := rfl
    rw [e, deframe_delimited]
    by_cases hu : (undoByteStuffing (payloadBuff cap E)).1 = 0
    · rw [if_pos hu]
    · rw [if_neg hu]
      rcases h with h | h
      · exact absurd h hu
      · rw [if_pos (removeVerifyCRC_short _ h)]
  refine ⟨?_, ?_, ?_, hdel⟩
  · simp [deframe, payloadBuff, cBuffPull_head_nil]
  · simp [deframe, payloadBuff, cBuffPull_head_cons, cBuffPull_tail_nil]
  · exact hdel [] (Or.inl (by simp [undoByteStuffing, payloadBuff]))

theorem C19_degenerate_candidates_witness :
    ((undoByteStuffing (payloadBuff 8 [0x41])).1 = 0 ∨
        (undoByteStuffing (payloadBuff 8 [0x41])).2.elems.length < 2) ∧
    (deframe (payloadBuff 8 ([0x7E] ++ [0x41] ++ [0x7E]))).1 = 0 :=
  ⟨by decide, (C19_degenerate_candidates 8).2.2.2 [0x41] (by decide)⟩

theorem escCount_eq_countP (M : List Nat) :
    escCount M = M.countP (fun b => decide (b = 0x7E ∨ b = 0x7D)) := by
  induction M with
  | nil => rfl
  | cons x M ih =>
    rw [escCount, ih, List.countP_cons]
    by_cases hx : x = FRAME_FLAG ∨ x = ESCAPE_FLAG
    · have : decide (x = 0x7E ∨ x = 0x7D) = true := decide_eq_true hx
      rw [if_pos hx, this]; simp; omega
    · have : decide (x = 0x7E ∨ x = 0x7D) = false := decide_eq_false hx
      rw [if_neg hx, this]; simp

/-- C20 (exact success condition of `frame`): for every payload `P` held in a
buffer of capacity `cap` over a non-NULL array, `frame` succeeds if and only
if `len(P) + 4 + e ≤ cap`, where `e` counts the bytes equal to `0x7E` or `0x7D`
in `P` followed by the two big-endian bytes of its CRC; and on success the
frame has exactly `len(P) + 4 + e` bytes. -/
theorem C20_frame_success_condition (cap : Nat) (P : List Nat) :
    ((frame (payloadBuff cap P)).1 ≠ 0 ↔
      P.length + 4 + (P ++ num16ToNet (computeCRCwithLUT (payloadBuff cap P))).countP
        (fun b => decide (b = 0x7E ∨ b = 0x7D)) ≤ cap) ∧
    ((frame (payloadBuff cap P)).1 ≠ 0 →
      (frame (payloadBuff cap P)).2.elems.length =
        P.length + 4 + (P ++ num16ToNet (computeCRCwithLUT (payloadBuff cap P))).countP
          (fun b => decide (b = 0x7E ∨ b = 0x7D))) := by
  have hc : computeCRCwithLUT (payloadBuff cap P) = crc16 P := computeCRCwithLUT_eq cap P
  rw [hc, ← escCount_eq_countP]
  by_cases h : P.length + 4 + escCount (P ++ num16ToNet (crc16 P)) ≤ cap
  · have hf := frame_ok cap P h
    rw [hf]
    refine ⟨⟨fun _ => h, fun _ => one_ne_zero⟩, fun _ => ?_⟩
    exact wireFrame_length P
  · have hf := frame_fail cap P (by omega)
    exact ⟨⟨fun h0 => absurd hf h0, fun h0 => absurd h0 h⟩, fun h0 => absurd hf h0⟩

theorem C20_frame_success_condition_witness :
    (frame (payloadBuff 8 [0x7E, 1])).1 ≠ 0 ∧
    (frame (payloadBuff 8 [0x7E, 1])).2.elems.length =
        [0x7E, 1].length + 4 + ([0x7E, 1] ++
          num16ToNet (computeCRCwithLUT (payloadBuff 8 [0x7E, 1]))).countP
          (fun b => decide (b = 0x7E ∨ b = 0x7D)) :=
  ⟨by decide, (C20_frame_success_condition 8 [0x7E, 1]).2 (by decide)⟩

/-! ## Table-driven CRC against the bitwise reference -/

theorem and_two_pow_ne_zero (c i : Nat) : c &&& 2 ^ i ≠ 0 ↔ c.testBit i = true := by
  constructor
  · intro h
    by_contra hb
    apply h
    apply Nat.eq_of_testBit_eq
    intro j
    rw [Nat.testBit_and, Nat.testBit_two_pow, Nat.zero_testBit]
    by_cases hij : i = j
    · subst hij; simp [hb]
    · simp [hij]
  · intro h h0
    have := congrArg (fun n => n.testBit i) h0
    simp [Nat.testBit_and, Nat.testBit_two_pow, h] at this

theorem shiftLeft_one_xor (a b : Nat) : (a ^^^ b) <<< 1 = (a <<< 1) ^^^ (b <<< 1) := by
  apply Nat.eq_of_testBit_eq
  intro j
  simp only [Nat.testBit_shiftLeft, Nat.testBit_xor]
  by_cases h : j ≥ 1 <;> simp [h]

theorem crcBitStep_lt (c : Nat) : crcBitStep c < 65536 := by
  unfold crcBitStep
  split <;> exact Nat.mod_lt _ (by norm_num)

theorem crcBitLoop_lt (n c : Nat) (hc : c < 65536) : crcBitLoop n c < 65536 := by
  induction n generalizing c with
  | zero => exact hc
  | succ n ih => exact ih _ (crcBitStep_lt c)

/-- One bit pass on a state XOR a value below the top bit: the value comes
out doubled. -/
theorem crcBitStep_xor (s x : Nat) (hx : x < 32768) :
    crcBitStep (s ^^^ x) = crcBitStep s ^^^ (2 * x) := by
  have e15 : (0x8000 : Nat) = 2 ^ 15 := by norm_num
  have e16 : (65536 : Nat) = 2 ^ 16 := by norm_num
  have htop : ((s ^^^ x) &&& 0x8000 ≠ 0) ↔ (s &&& 0x8000 ≠ 0) := by
    have hxb : x.testBit 15 = false := Nat.testBit_lt_two_pow (by simpa using hx)
    rw [e15, and_two_pow_ne_zero, and_two_pow_ne_zero, Nat.testBit_xor, hxb]
    simp
  have hx2 : (x <<< 1) % 2 ^ 16 = 2 * x := by
    rw [Nat.shiftLeft_eq]; norm_num; omega
  unfold crcBitStep
  by_cases ht : s &&& 0x8000 ≠ 0
  · rw [if_pos (htop.2 ht), if_pos ht, shiftLeft_one_xor]
    have : (s <<< 1) ^^^ (x <<< 1) ^^^ CRC_POLY = ((s <<< 1) ^^^ CRC_POLY) ^^^ (x <<< 1) := by
      rw [Nat.xor_assoc, Nat.xor_comm (x <<< 1), ← Nat.xor_assoc]
    rw [this, e16, xor_mod_pow, hx2]
  · rw [if_neg (fun h => ht (htop.1 h)), if_neg ht, shiftLeft_one_xor, e16, xor_mod_pow, hx2]

/-- The bit passes on a state XOR a small value: the value comes out
shifted. -/
theorem crcBitLoop_xor :
    ∀ (k s x : Nat), x * 2 ^ k < 65536 →
      crcBitLoop k (s ^^^ x) = crcBitLoop k s ^^^ (x * 2 ^ k) := by
  intro k
  induction k with
  | zero => intro s x _; simp [crcBitLoop]
  | succ k ih =>
    intro s x hx
    have hx1 : x < 32768 := by
      have : 2 ^ (k + 1) ≥ 2 := by
        have := Nat.one_le_two_pow (n := k)
        rw [Nat.pow_succ]; omega
      by_contra hc
      have : x * 2 ^ (k + 1) ≥ 32768 * 2 := Nat.mul_le_mul (by omega) this
      omega
    have e : x * 2 ^ (k + 1) = (2 * x) * 2 ^ k := by rw [Nat.pow_succ]; ring
    rw [crcBitLoop, crcBitLoop, crcBitStep_xor s x hx1, ih _ _ (by rw [← e]; exact hx), e]

set_option maxRecDepth 100000 in
/-- Every entry of the table is what `printCRCLUT` computes for its index. -/
theorem CRCLUT1021_eq_bitwise :
    CRCLUT1021 = (List.range 256).map printCRCLUTEntry := by decide

theorem CRCLUT1021_getD_eq (i : Nat) (hi : i < 256) :
    CRCLUT1021.getD i 0 = printCRCLUTEntry i := by
  rw [CRCLUT1021_eq_bitwise, List.getD_eq_getElem _ _ (by simpa using hi)]
  simp

/-- The table-driven step and the bitwise step agree on every state and
byte. -/
theorem crcStep_eq_computeCRCStep (crc byte : Nat) :
    crcStep crc byte = computeCRCStep crc byte := by
  unfold crcStep computeCRCStep
  have hx : ((byte <<< 8) ^^^ crc) % 65536 < 65536 := Nat.mod_lt _ (by norm_num)
  generalize ((byte <<< 8) ^^^ crc) % 65536 = x at hx
  simp only []
  have hidx : (x >>> 8) % 256 = x / 256 := by
    rw [Nat.shiftRight_eq_div_pow]; norm_num; omega
  have hsplit : x = (256 * (x / 256)) ^^^ (x % 256) := by
    have := xor_hilo (x / 256) 0 0 (x % 256) (by norm_num) (by omega)
    simp only [Nat.add_zero, Nat.mul_zero, Nat.zero_add, Nat.xor_zero, Nat.zero_xor] at this
    rw [this]; omega
  have hloop : crcBitLoop 8 x = crcBitLoop 8 (256 * (x / 256)) ^^^ (x % 256 * 2 ^ 8) := by
    conv_lhs => rw [hsplit]
    exact crcBitLoop_xor 8 _ _ (by norm_num; omega)
  have hlut : CRCLUT1021.getD (x / 256) 0 = crcBitLoop 8 (256 * (x / 256)) := by
    rw [CRCLUT1021_getD_eq _ (by omega)]
    unfold printCRCLUTEntry
    rw [Nat.shiftLeft_eq]
    have : x / 256 * 2 ^ 8 % 65536 = 256 * (x / 256) := by norm_num; omega
    rw [this]
  have e16 : (65536 : Nat) = 2 ^ 16 := by norm_num
  have hsh : (x <<< 8) % 2 ^ 16 = x % 256 * 2 ^ 8 := by
    rw [Nat.shiftLeft_eq]; norm_num; omega
  have hl : crcBitLoop 8 (256 * (x / 256)) < 65536 := crcBitLoop_lt 8 _ (by omega)
  rw [hidx, hlut, hloop, e16, xor_mod_pow, hsh, ← e16, Nat.mod_eq_of_lt hl, Nat.xor_comm]

/-- C17 (table-driven CRC equals the bitwise definition): for every buffer,
`computeCRCwithLUT` returns the value of the bit-by-bit reference `computeCRC`
(polynomial 0x1021, initial value 0xFFFF, most significant bit first, no final
XOR); and each of the 256 entries `CRCLUT1021[i]` is the result of the eight
shift / xor-0x1021 passes applied to `i<<8`. -/
theorem C17_lut_equals_bitwise :
    (∀ dataBuff : circular_buffer_handle, computeCRCwithLUT dataBuff = computeCRC dataBuff) ∧
    CRCLUT1021.length = 256 ∧
    (∀ i, i < 256 → CRCLUT1021.getD i 0 = crcBitLoop 8 (i <<< 8)) := by
  refine ⟨?_, CRCLUT1021_length, ?_⟩
  · intro d
    unfold computeCRCwithLUT computeCRC
    have : (fun crc b => crcStep crc (cBuffReadByte d 0 b))
        = (fun crc b => computeCRCStep crc (cBuffReadByte d 0 b)) := by
      funext crc b
      exact crcStep_eq_computeCRCStep _ _
    rw [this]
  · intro i hi
    rw [CRCLUT1021_getD_eq i hi]
    unfold printCRCLUTEntry
    have : (i <<< 8) % 65536 = i <<< 8 := by
      apply Nat.mod_eq_of_lt
      rw [Nat.shiftLeft_eq]; norm_num; omega
    rw [this]

theorem C17_lut_equals_bitwise_witness :
    1 < 256 ∧ CRCLUT1021.getD 1 0 = crcBitLoop 8 (1 <<< 8) :=
  ⟨by decide, C17_lut_equals_bitwise.2.2 1 (by decide)⟩

/-! ## Fill step -/

theorem cBuffPush_tail_room (b : Bool) (cap x : Nat) (l : List Nat) (h : l.length < cap) :
    cBuffPush ⟨b, cap, l⟩ [x] 1 = (1, ⟨b, cap, l ++ [x]⟩) := by
  have h0 : (l ++ [x]).length - cap = 0 := by
    rw [List.length_append, List.length_singleton]; omega
  simp only [cBuffPush, one_ne_zero, if_false, h0, List.drop_zero, List.length_singleton]

theorem pollRx_length {σ : Type} (rxFunc : σ → Nat × Nat × σ) :
    ∀ (n : Nat) (w : σ), (pollRx rxFunc n w).1.length ≤ n := by
  intro n
  induction n with
  | zero => intro w; simp [pollRx]
  | succ n ih =>
    intro w
    rw [pollRx]
    split
    · simp only [List.length_cons]
      have := ih (rxFunc w).2.2
      omega
    · simp

/-- The fill loop polls the receive function until it first reports no byte
or the free space is used up, and appends the bytes obtained at the tail. -/
theorem sdlReceiveFill_spec {σ : Type} (rxFunc : σ → Nat × Nat × σ) (b : Bool) (cap : Nat) :
    ∀ (room fuel : Nat) (l : List Nat) (w : σ), cap - l.length = room → room < fuel →
      sdlReceiveFill rxFunc fuel ⟨b, cap, l⟩ w
        = some (⟨b, cap, l ++ (pollRx rxFunc room w).1⟩, (pollRx rxFunc room w).2) := by
  intro room
  induction room with
  | zero =>
    intro fuel l w hroom hf
    obtain ⟨f, rfl⟩ : ∃ f, fuel = f + 1 := ⟨fuel - 1, by omega⟩
    have hfull : cBuffFull ⟨b, cap, l⟩ = true := by
      simp only [cBuffFull, circular_buffer_handle.elemNum, decide_eq_true_eq]; omega
    simp only [sdlReceiveFill, hfull, if_true, pollRx, List.append_nil]
  | succ room ih =>
    intro fuel l w hroom hf
    obtain ⟨f, rfl⟩ : ∃ f, fuel = f + 1 := ⟨fuel - 1, by omega⟩
    have hfull : ¬ (cBuffFull ⟨b, cap, l⟩ = true) := by
      simp only [cBuffFull, circular_buffer_handle.elemNum, decide_eq_true_eq]; omega
    simp only [sdlReceiveFill, if_neg hfull]
    rw [pollRx]
    by_cases hr : (rxFunc w).1 ≠ 0
    · rw [if_pos hr, if_pos hr, cBuffPush_tail_room _ _ _ _ (by omega)]
      rw [ih f (l ++ [(rxFunc w).2.1]) (rxFunc w).2.2
        (by rw [List.length_append, List.length_singleton]; omega) (by omega)]
      simp
    · rw [if_neg hr, if_neg hr]
      simp

/-- What `sdlReceive` does with a receive function: the fill step, then the
scan loop on the filled accumulation buffer and the empty scratch buffer. -/
theorem sdlReceive_eq_scan {σ : Type} (search : Locator) (fuel len : Nat)
    (tx : Option (σ → Nat → Nat × σ)) (rxFunc : σ → Nat × Nat × σ) (b : Bool) (cap : Nat)
    (l : List Nat) (w : σ) :
    sdlReceive search fuel ⟨tx, some rxFunc, ⟨b, cap, l⟩⟩ w len =
      match sdlReceiveScan search len fuel
          ⟨b, cap, l ++ (pollRx rxFunc (cap - l.length) w).1⟩
          (cBuffInit true (SDL_MAX_PAY_LEN * 2 + 6)) [] with
      | none => none
      | some r => some (r.1, r.2.1, ⟨tx, some rxFunc, r.2.2⟩,
          (pollRx rxFunc (cap - l.length) w).2) := by
  simp only [sdlReceive, circular_buffer_handle.elemNum]
  rw [sdlReceiveFill_spec rxFunc b cap (cap - l.length) _ l w rfl (Nat.lt_succ_self _)]

/-- C18 (fill step of receive): in one `sdlReceive` call the receive function
is polled until it first reports no byte available or as many bytes as the
free space of the accumulation buffer have been obtained (not at all when the
buffer is full); the bytes obtained are appended at the tail in arrival order
after the bytes already there, which are kept, so at most capacity minus
occupancy bytes are taken; the scan then runs on that buffer. -/
theorem C18_fill_step {σ : Type} (rxFunc : σ → Nat × Nat × σ) (b : Bool) (cap : Nat)
    (l : List Nat) (w : σ) :
    sdlReceiveFill rxFunc (cap - l.length + 1) ⟨b, cap, l⟩ w
      = some (⟨b, cap, l ++ (pollRx rxFunc (cap - l.length) w).1⟩,
              (pollRx rxFunc (cap - l.length) w).2) ∧
    (pollRx rxFunc (cap - l.length) w).1.length ≤ cap - l.length ∧
    (cap ≤ l.length →
      sdlReceiveFill rxFunc (cap - l.length + 1) ⟨b, cap, l⟩ w = some (⟨b, cap, l⟩, w)) ∧
    (∀ (search : Locator) (fuel len : Nat) (tx : Option (σ → Nat → Nat × σ)),
      sdlReceive search fuel ⟨tx, some rxFunc, ⟨b, cap, l⟩⟩ w len =
        match sdlReceiveScan search len fuel
            ⟨b, cap, l ++ (pollRx rxFunc (cap - l.length) w).1⟩
            (cBuffInit true (SDL_MAX_PAY_LEN * 2 + 6)) [] with
        | none => none
        | some r => some (r.1, r.2.1, ⟨tx, some rxFunc, r.2.2⟩,
            (pollRx rxFunc (cap - l.length) w).2)) := by
  have h1 := sdlReceiveFill_spec rxFunc b cap (cap - l.length) (cap - l.length + 1) l w rfl
    (Nat.lt_succ_self _)
  refine ⟨h1, pollRx_length rxFunc _ w, ?_, ?_⟩
  · intro hfull
    rw [h1]
    have : cap - l.length = 0 := by omega
    rw [this]
    simp [pollRx]
  · intro search fuel len tx
    exact sdlReceive_eq_scan search fuel len tx rxFunc b cap l w

theorem C18_fill_step_witness :
    2 ≤ [7, 8].length ∧
    sdlReceiveFill listRx (2 - [7, 8].length + 1) ⟨true, 2, [7, 8]⟩ [1, 2, 3]
      = some (⟨true, 2, [7, 8]⟩, [1, 2, 3]) :=
  ⟨by decide, (C18_fill_step listRx true 2 [7, 8] [1, 2, 3]).2.2.1 (by decide)⟩

/-! ## Scan loop -/

theorem cBuffPull_meta (d : circular_buffer_handle) (n ht : Nat) :
    (cBuffPull d n ht).2.2.buff = d.buff ∧ (cBuffPull d n ht).2.2.buffLen = d.buffLen := by
  unfold cBuffPull
  split <;> exact ⟨rfl, rfl⟩

theorem cBuffPushToFill_meta (d : circular_buffer_handle) (data : List Nat) (ht : Nat) :
    (cBuffPushToFill d data ht).2.buff = d.buff ∧
      (cBuffPushToFill d data ht).2.buffLen = d.buffLen := by
  unfold cBuffPushToFill
  simp only []
  split <;> exact ⟨rfl, rfl⟩

/-- The un-stuffing loop changes neither the array nor the capacity of the
buffer. -/
theorem undoByteStuffingLoop_meta :
    ∀ (n : Nat) (d : circular_buffer_handle),
      (undoByteStuffingLoop n d).2.buff = d.buff ∧
        (undoByteStuffingLoop n d).2.buffLen = d.buffLen := by
  intro n
  induction n using Nat.strong_induction_on with
  | _ n ih =>
    intro d
    have hp := cBuffPull_meta d 1 0
    match n with
    | 0 => exact ⟨rfl, rfl⟩
    | 1 =>
      rw [undoByteStuffingLoop]
      split
      · exact hp
      · split
        · exact hp
        · have hq := cBuffPushToFill_meta (cBuffPull d 1 0).2.2
            [(cBuffPull d 1 0).2.1.headD 0] 1
          have := ih 0 (by omega) (cBuffPushToFill (cBuffPull d 1 0).2.2
            [(cBuffPull d 1 0).2.1.headD 0] 1).2
          exact ⟨this.1.trans (hq.1.trans hp.1), this.2.trans (hq.2.trans hp.2)⟩
    | m + 2 =>
      rw [undoByteStuffingLoop]
      split
      · exact hp
      · split
        · have hp2 := cBuffPull_meta (cBuffPull d 1 0).2.2 1 0
          simp only []
          split
          · exact ⟨hp2.1.trans hp.1, hp2.2.trans hp.2⟩
          · have hq := cBuffPushToFill_meta (cBuffPull (cBuffPull d 1 0).2.2 1 0).2.2
              [INVERTBIT5 ((cBuffPull (cBuffPull d 1 0).2.2 1 0).2.1.headD 0)] 1
            have := ih m (by omega) (cBuffPushToFill (cBuffPull (cBuffPull d 1 0).2.2 1 0).2.2
              [INVERTBIT5 ((cBuffPull (cBuffPull d 1 0).2.2 1 0).2.1.headD 0)] 1).2
            exact ⟨this.1.trans (hq.1.trans (hp2.1.trans hp.1)),
              this.2.trans (hq.2.trans (hp2.2.trans hp.2))⟩
        · have hq := cBuffPushToFill_meta (cBuffPull d 1 0).2.2
            [(cBuffPull d 1 0).2.1.headD 0] 1
          have := ih (m + 1) (by omega) (cBuffPushToFill (cBuffPull d 1 0).2.2
            [(cBuffPull d 1 0).2.1.headD 0] 1).2
          exact ⟨this.1.trans (hq.1.trans hp.1), this.2.trans (hq.2.trans hp.2)⟩

theorem undoByteStuffing_meta (d : circular_buffer_handle) :
    (undoByteStuffing d).2.buff = d.buff ∧ (undoByteStuffing d).2.buffLen = d.buffLen := by
  unfold undoByteStuffing
  split
  · exact ⟨rfl, rfl⟩
  · exact undoByteStuffingLoop_meta _ d

theorem removeVerifyCRC_meta (d : circular_buffer_handle) :
    (removeVerifyCRC d).2.buff = d.buff ∧ (removeVerifyCRC d).2.buffLen = d.buffLen := by
  unfold removeVerifyCRC
  split
  · exact ⟨rfl, rfl⟩
  · simp only []
    split <;> exact cBuffPull_meta d 2 1

/-- Function `deframe` changes neither the array nor the capacity of the
buffer it works in. -/
theorem deframe_meta (d : circular_buffer_handle) :
    (deframe d).2.buff = d.buff ∧ (deframe d).2.buffLen = d.buffLen := by
  have h1 := cBuffPull_meta d 1 0
  have h2 := cBuffPull_meta (cBuffPull d 1 0).2.2 1 1
  have h3 := undoByteStuffing_meta (cBuffPull (cBuffPull d 1 0).2.2 1 1).2.2
  have h4 := removeVerifyCRC_meta (undoByteStuffing (cBuffPull (cBuffPull d 1 0).2.2 1 1).2.2).2
  have m2 := And.intro (h2.1.trans h1.1) (h2.2.trans h1.2)
  have m3 := And.intro (h3.1.trans m2.1) (h3.2.trans m2.2)
  have m4 := And.intro (h4.1.trans m3.1) (h4.2.trans m3.2)
  unfold deframe
  simp only []
  split
  · exact ⟨rfl, rfl⟩
  · split
    · exact h1
    · split
      · exact h1
      · split
        · exact m2
        · split
          · exact m2
          · split
            · exact m3
            · split
              · exact m4
              · exact m4

theorem deframe_payloadBuff_eq (cap : Nat) (R : List Nat) :
    (deframe (payloadBuff cap R)).2 = payloadBuff cap (deframe (payloadBuff cap R)).2.elems := by
  have h := deframe_meta (payloadBuff cap R)
  rcases hd : (deframe (payloadBuff cap R)).2 with ⟨b, c, l⟩
  rw [hd] at h
  simp only [payloadBuff] at h ⊢
  rw [h.1, h.2]

/-- The copy of a candidate that fits the scratch buffer: the scratch buffer
receives the bytes of the candidate in order. -/
theorem sdlReceiveCopy_fits (b b2 : Bool) (cap cap2 : Nat) :
    ∀ (l acc : List Nat) (fuel : Nat), l.length < fuel → acc.length + l.length ≤ cap2 →
      sdlReceiveCopy fuel ⟨b, cap, l⟩ ⟨b2, cap2, acc⟩
        = some (⟨b, cap, []⟩, ⟨b2, cap2, acc ++ l⟩) := by
  intro l
  induction l with
  | nil =>
    intro acc fuel hf _
    obtain ⟨f, rfl⟩ : ∃ f, fuel = f + 1 := ⟨fuel - 1, by omega⟩
    simp [sdlReceiveCopy, cBuffPull_head_nil]
  | cons x l ih =>
    intro acc fuel hf hl
    simp only [List.length_cons] at hf hl
    obtain ⟨f, rfl⟩ : ∃ f, fuel = f + 1 := ⟨fuel - 1, by omega⟩
    simp only [sdlReceiveCopy, cBuffPull_head_cons, List.headD_cons, one_ne_zero, if_false]
    rw [cBuffPush_tail_room _ _ _ _ (by omega),
      ih (acc ++ [x]) f (by omega) (by simp; omega)]
    simp

/-- The scan loop when the locator finds nothing: `return 0`. -/
theorem sdlReceiveScan_notfound (search : Locator) (len fuel : Nat)
    (rxBuff tmpBuff : circular_buffer_handle) (out : List Nat)
    (h : (search rxBuff rule).1 = 0) :
    sdlReceiveScan search len (fuel + 1) rxBuff tmpBuff out
      = some (0, out, (search rxBuff rule).2.1) := by
  simp only [sdlReceiveScan, if_pos h]

/-- One pass of the scan loop on a candidate that `deframe` rejects: the
candidate is discarded and the scan goes on. -/
theorem sdlReceiveScan_rejected (search : Locator) (len fuel : Nat)
    (rxBuff : circular_buffer_handle) (junk out R : List Nat)
    (h : (search rxBuff rule).1 ≠ 0) (hR : (search rxBuff rule).2.2.elems = R)
    (hfit : R.length ≤ SDL_MAX_PAY_LEN * 2 + 6)
    (hrej : (deframe (payloadBuff (SDL_MAX_PAY_LEN * 2 + 6) R)).1 = 0) :
    sdlReceiveScan search len (fuel + 1) rxBuff (payloadBuff (SDL_MAX_PAY_LEN * 2 + 6) junk) out =
      sdlReceiveScan search len fuel (search rxBuff rule).2.1
        (payloadBuff (SDL_MAX_PAY_LEN * 2 + 6)
          (deframe (payloadBuff (SDL_MAX_PAY_LEN * 2 + 6) R)).2.elems) out := by
  rcases hc : (search rxBuff rule).2.2 with ⟨cb, ccap, cl⟩
  rw [hc] at hR
  simp only at hR
  subst hR
  have hcopy := sdlReceiveCopy_fits cb true ccap (SDL_MAX_PAY_LEN * 2 + 6) cl [] (cl.length + 1)
    (Nat.lt_succ_self _) (by simpa using hfit)
  rw [← deframe_payloadBuff_eq]
  simp only [payloadBuff] at hrej ⊢
  simp only [sdlReceiveScan, if_neg h, hc, circular_buffer_handle.elemNum, cBuffFlush,
    hcopy, List.nil_append, if_pos hrej]

/-- One pass of the scan loop on the frame of a payload longer than
`SDL_MAX_PAY_LEN`: `deframe` accepts it, the length check discards it and the
scan goes on. -/
theorem sdlReceiveScan_oversize (search : Locator) (len fuel : Nat)
    (rxBuff : circular_buffer_handle) (junk out P : List Nat)
    (h : (search rxBuff rule).1 ≠ 0) (hR : (search rxBuff rule).2.2.elems = wireFrame P)
    (hfit : (wireFrame P).length ≤ SDL_MAX_PAY_LEN * 2 + 6)
    (hlong : SDL_MAX_PAY_LEN < P.length) :
    sdlReceiveScan search len (fuel + 1) rxBuff (payloadBuff (SDL_MAX_PAY_LEN * 2 + 6) junk) out =
      sdlReceiveScan search len fuel (search rxBuff rule).2.1
        (payloadBuff (SDL_MAX_PAY_LEN * 2 + 6) P) out := by
  rcases hc : (search rxBuff rule).2.2 with ⟨cb, ccap, cl⟩
  rw [hc] at hR
  simp only at hR
  subst hR
  have hcopy := sdlReceiveCopy_fits cb true ccap (SDL_MAX_PAY_LEN * 2 + 6) (wireFrame P) []
    ((wireFrame P).length + 1) (Nat.lt_succ_self _) (by simpa using hfit)
  have hd := deframe_wireFrame (SDL_MAX_PAY_LEN * 2 + 6) P hfit
  simp only [payloadBuff] at hd ⊢
  simp only [sdlReceiveScan, if_neg h, hc, circular_buffer_handle.elemNum, cBuffFlush,
    hcopy, List.nil_append, hd, one_ne_zero, if_false, gt_iff_lt, if_pos hlong]

/-- One pass of the scan loop on the frame of a payload within
`SDL_MAX_PAY_LEN` and within the output capacity: the payload is copied to the
output and its length returned. -/
theorem sdlReceiveScan_valid (search : Locator) (len fuel : Nat)
    (rxBuff : circular_buffer_handle) (junk out P : List Nat)
    (h : (search rxBuff rule).1 ≠ 0) (hR : (search rxBuff rule).2.2.elems = wireFrame P)
    (hfit : (wireFrame P).length ≤ SDL_MAX_PAY_LEN * 2 + 6)
    (hP : P.length ≤ SDL_MAX_PAY_LEN) (hlen : P.length ≤ len) :
    sdlReceiveScan search len (fuel + 1) rxBuff (payloadBuff (SDL_MAX_PAY_LEN * 2 + 6) junk) out =
      some (P.length, P, (search rxBuff rule).2.1) := by
  rcases hc : (search rxBuff rule).2.2 with ⟨cb, ccap, cl⟩
  rw [hc] at hR
  simp only at hR
  subst hR
  have hcopy := sdlReceiveCopy_fits cb true ccap (SDL_MAX_PAY_LEN * 2 + 6) (wireFrame P) []
    ((wireFrame P).length + 1) (Nat.lt_succ_self _) (by simpa using hfit)
  have hd := deframe_wireFrame (SDL_MAX_PAY_LEN * 2 + 6) P hfit
  have hout := sdlReceiveOut_fits true true (SDL_MAX_PAY_LEN * 2 + 6) len P [] (P.length + 1)
    (Nat.lt_succ_self _) (by simpa using hlen)
  simp only [payloadBuff] at hd ⊢
  simp only [sdlReceiveScan, if_neg h, hc, circular_buffer_handle.elemNum, cBuffFlush,
    hcopy, List.nil_append, hd, one_ne_zero, if_false, gt_iff_lt,
    if_neg (Nat.not_lt.2 hP), cBuffInit, hout, ne_eq, not_true_eq_false]

/-! ## Receive with a locator that meets the contract -/

theorem dropWhile_flag_free (E : List Nat) (h : FRAME_FLAG ∉ E) :
    E.dropWhile (fun x => decide (x ≠ FRAME_FLAG)) = [] := by
  induction E with
  | nil => rfl
  | cons x E ih =>
    have hx : x ≠ FRAME_FLAG := fun e => h (by simp [e])
    have hE : FRAME_FLAG ∉ E := fun e => h (List.mem_cons_of_mem _ e)
    rw [List.dropWhile_cons, if_pos (decide_eq_true hx), ih hE]

theorem dropWhile_to_flag (E rest : List Nat) (h : FRAME_FLAG ∉ E) :
    (E ++ FRAME_FLAG :: rest).dropWhile (fun x => decide (x ≠ FRAME_FLAG))
      = FRAME_FLAG :: rest := by
  induction E with
  | nil => simp [List.dropWhile_cons]
  | cons x E ih =>
    have hx : x ≠ FRAME_FLAG := fun e => h (by simp [e])
    have hE : FRAME_FLAG ∉ E := fun e => h (List.mem_cons_of_mem _ e)
    rw [List.cons_append, List.dropWhile_cons, if_pos (decide_eq_true hx), ih hE]

theorem takeWhile_to_flag (E rest : List Nat) (h : FRAME_FLAG ∉ E) :
    (E ++ FRAME_FLAG :: rest).takeWhile (fun x => decide (x ≠ FRAME_FLAG)) = E := by
  induction E with
  | nil => simp [List.takeWhile_cons]
  | cons x E ih =>
    have hx : x ≠ FRAME_FLAG := fun e => h (by simp [e])
    have hE : FRAME_FLAG ∉ E := fun e => h (List.mem_cons_of_mem _ e)
    rw [List.cons_append, List.takeWhile_cons, if_pos (decide_eq_true hx), ih hE]

/-- The locator used for concrete checks meets the contract. -/
theorem flagLocator_contract : LocatorContract flagLocator := by
  refine ⟨?_, ?_, ?_⟩
  · intro b hb
    rcases b with ⟨bb, bc, bl⟩
    simp only at hb
    subst hb
    exact ⟨rfl, rfl⟩
  · intro b E hb hE _ _
    rcases b with ⟨bb, bc, bl⟩
    simp only at hb
    subst hb
    simp only [flagLocator, List.dropWhile_cons, decide_not, decide_True, Bool.not_true,
      Bool.false_eq_true, if_false]
    have := dropWhile_flag_free E hE
    simp only [decide_not] at this
    rw [this]
    exact ⟨rfl, rfl⟩
  · intro b E rest hb hE hlen
    rcases b with ⟨bb, bc, bl⟩
    simp only at hb
    subst hb
    simp only [flagLocator, List.cons_append, List.dropWhile_cons, decide_not, decide_True,
      Bool.not_true, Bool.false_eq_true, if_false]
    have h1 := dropWhile_to_flag E rest hE
    have h2 := takeWhile_to_flag E rest hE
    simp only [decide_not] at h1 h2
    rw [h1]
    simp only [h2, if_pos hlen]
    exact ⟨one_ne_zero, trivial, trivial⟩

theorem pollRx_listRx : ∀ (n : Nat) (bytes : List Nat),
    pollRx listRx n bytes = (bytes.take n, bytes.drop n) := by
  intro n
  induction n with
  | zero => intro bytes; simp [pollRx]
  | succ n ih =>
    intro bytes
    cases bytes with
    | nil => simp [pollRx, listRx]
    | cons x r => simp [pollRx, listRx, ih]

/-- From the result of the scan loop on the filled buffer to the result of
`sdlReceive`. -/
theorem sdlReceive_of_scan {σ : Type} (search : Locator) (fuel len : Nat)
    (tx : Option (σ → Nat → Nat × σ)) (rxFunc : σ → Nat × Nat × σ) (b : Bool) (cap : Nat)
    (l : List Nat) (w : σ) (n : Nat) (out : List Nat) (rb : circular_buffer_handle)
    (h : sdlReceiveScan search len fuel ⟨b, cap, l ++ (pollRx rxFunc (cap - l.length) w).1⟩
      (cBuffInit true (SDL_MAX_PAY_LEN * 2 + 6)) [] = some (n, out, rb)) :
    sdlReceive search fuel ⟨tx, some rxFunc, ⟨b, cap, l⟩⟩ w len
      = some (n, out, ⟨tx, some rxFunc, rb⟩, (pollRx rxFunc (cap - l.length) w).2) := by
  rw [sdlReceive_eq_scan, h]

theorem rule_maxLen : rule.maxLen = SDL_MAX_PAY_LEN * 2 + 4 := rfl

theorem stuff_payload_length_le (P : List Nat) (hP : P.length ≤ SDL_MAX_PAY_LEN) :
    (stuff (P ++ num16ToNet (crc16 P))).length ≤ SDL_MAX_PAY_LEN * 2 + 4 := by
  have he := escCount_payload_le P
  rw [stuff_length, List.length_append, num16ToNet_length]
  simp only [SDL_MAX_PAY_LEN] at hP ⊢
  omega

/-- A receive call that finds the accumulation buffer, after the fill, holding
a flag then flag-free bytes, and not full: nothing is returned and the bytes
stay in the buffer. -/
theorem sdlReceive_partial (search : Locator) (hc : LocatorContract search)
    (tx : Option (List Nat → Nat → Nat × List Nat)) (fuel len : Nat) (l bytes E : List Nat)
    (hfuel : 1 ≤ fuel)
    (hroom : l.length + bytes.length < SDL_MAX_PAY_LEN * 2 + 6)
    (hE : l ++ bytes = FRAME_FLAG :: E) (hfree : FRAME_FLAG ∉ E)
    (hlen : E.length ≤ SDL_MAX_PAY_LEN * 2 + 4) :
    sdlReceive search fuel ⟨tx, some listRx, ⟨true, SDL_MAX_PAY_LEN * 2 + 6, l⟩⟩ bytes len
      = some (0, [], ⟨tx, some listRx, ⟨true, SDL_MAX_PAY_LEN * 2 + 6, l ++ bytes⟩⟩, []) := by
  obtain ⟨f, rfl⟩ : ∃ f, fuel = f + 1 := ⟨fuel - 1, by omega⟩
  have hpoll : pollRx listRx (SDL_MAX_PAY_LEN * 2 + 6 - l.length) bytes = (bytes, []) := by
    rw [pollRx_listRx, List.take_of_length_le (by omega), List.drop_of_length_le (by omega)]
  have hk := hc.2.1 ⟨true, SDL_MAX_PAY_LEN * 2 + 6, l ++ bytes⟩ E hE hfree
    (by rw [rule_maxLen]; exact hlen)
    (by simp only [circular_buffer_handle.elemNum, List.length_append]; exact hroom)
  have hs := sdlReceiveScan_notfound search len f ⟨true, SDL_MAX_PAY_LEN * 2 + 6, l ++ bytes⟩
    (cBuffInit true (SDL_MAX_PAY_LEN * 2 + 6)) [] hk.1
  rw [hk.2] at hs
  have := sdlReceive_of_scan search (f + 1) len tx listRx true (SDL_MAX_PAY_LEN * 2 + 6) l bytes
    0 [] ⟨true, SDL_MAX_PAY_LEN * 2 + 6, l ++ bytes⟩ (by rw [hpoll]; exact hs)
  rw [this, hpoll]

/-- A receive call that finds the accumulation buffer, after the fill, holding
the frame of a payload `P` followed by further bytes: `P` is returned and the
further bytes stay in the buffer. -/
theorem sdlReceive_frame {σ : Type} (search : Locator) (hc : LocatorContract search)
    (tx : Option (σ → Nat → Nat × σ)) (rxFunc : σ → Nat × Nat × σ) (w : σ)
    (fuel len : Nat) (l P rest : List Nat)
    (hfuel : 1 ≤ fuel)
    (hbuf : l ++ (pollRx rxFunc (SDL_MAX_PAY_LEN * 2 + 6 - l.length) w).1 = wireFrame P ++ rest)
    (hP : P.length ≤ SDL_MAX_PAY_LEN) (hlen : P.length ≤ len) :
    sdlReceive search fuel ⟨tx, some rxFunc, ⟨true, SDL_MAX_PAY_LEN * 2 + 6, l⟩⟩ w len
      = some (P.length, P, ⟨tx, some rxFunc, ⟨true, SDL_MAX_PAY_LEN * 2 + 6, rest⟩⟩,
          (pollRx rxFunc (SDL_MAX_PAY_LEN * 2 + 6 - l.length) w).2) := by
  obtain ⟨f, rfl⟩ : ∃ f, fuel = f + 1 := ⟨fuel - 1, by omega⟩
  have hsl := stuff_payload_length_le P hP
  have hshape : wireFrame P ++ rest
      = FRAME_FLAG :: stuff (P ++ num16ToNet (crc16 P)) ++ FRAME_FLAG :: rest := by
    simp [wireFrame]
  have hk := hc.2.2 ⟨true, SDL_MAX_PAY_LEN * 2 + 6, wireFrame P ++ rest⟩
    (stuff (P ++ num16ToNet (crc16 P))) rest hshape (stuff_no_flag _)
    (by rw [rule_maxLen]; exact hsl)
  have hwl : (wireFrame P).length ≤ SDL_MAX_PAY_LEN * 2 + 6 := by
    simp only [wireFrame, List.length_cons, List.length_append, List.length_singleton,
      List.length_nil]
    omega
  have hs := sdlReceiveScan_valid search len f ⟨true, SDL_MAX_PAY_LEN * 2 + 6, wireFrame P ++ rest⟩
    [] [] P hk.1 (by rw [hk.2.2]; rfl) hwl hP hlen
  rw [hk.2.1] at hs
  exact sdlReceive_of_scan search (f + 1) len tx rxFunc true (SDL_MAX_PAY_LEN * 2 + 6) l w
    P.length P ⟨true, SDL_MAX_PAY_LEN * 2 + 6, rest⟩ (by rw [hbuf]; exact hs)

theorem sdlReceiveCalls_cons {σ : Type} (search : Locator) (fuel len : Nat)
    (line line2 lineF : serial_line_handle σ) (w w2 : σ) (ws : List σ) (n : Nat)
    (out : List Nat) (rs : List (Nat × List Nat))
    (h1 : sdlReceive search fuel line w len = some (n, out, line2, w2))
    (h2 : sdlReceiveCalls search fuel len line2 ws = some (rs, lineF)) :
    sdlReceiveCalls search fuel len line (w :: ws) = some ((n, out) :: rs, lineF) := by
  rw [sdlReceiveCalls, h1]
  simp only [h2]

theorem sdlReceiveCalls_nil {σ : Type} (search : Locator) (fuel len : Nat)
    (line : serial_line_handle σ) :
    sdlReceiveCalls search fuel len line [] = some ([], line) := by
  rw [sdlReceiveCalls]

/-- Delivery of the rest of a frame, one byte per call: every call but the last
returns 0, the last returns the payload. -/
theorem sdlReceiveCalls_one_by_one (search : Locator) (hc : LocatorContract search)
    (tx : Option (List Nat → Nat → Nat × List Nat)) (fuel len : Nat) (P : List Nat)
    (hfuel : 1 ≤ fuel) (hP : P.length ≤ SDL_MAX_PAY_LEN) (hlen : P.length ≤ len) :
    ∀ (post pre : List Nat) (x : Nat), pre ++ x :: post = wireFrame P →
      sdlReceiveCalls search fuel len
          ⟨tx, some listRx, ⟨true, SDL_MAX_PAY_LEN * 2 + 6, pre⟩⟩
          ((x :: post).map (fun b => [b]))
        = some (List.replicate post.length (0, []) ++ [(P.length, P)],
            ⟨tx, some listRx, ⟨true, SDL_MAX_PAY_LEN * 2 + 6, []⟩⟩) := by
  have hsl := stuff_payload_length_le P hP
  intro post
  induction post with
  | nil =>
    intro pre x hsplit
    have hcall := sdlReceive_frame search hc tx listRx [x] fuel len pre P [] hfuel
      (by
        have hl : pre.length + 1 = (wireFrame P).length := by
          rw [← hsplit]; simp
        have hw : (wireFrame P).length ≤ SDL_MAX_PAY_LEN * 2 + 6 := by
          simp only [wireFrame, List.length_cons, List.length_append, List.length_singleton,
            List.length_nil]
          omega
        rw [pollRx_listRx, List.take_of_length_le (by simp; omega), List.append_nil, hsplit])
      hP hlen
    have hw2 : (pollRx listRx (SDL_MAX_PAY_LEN * 2 + 6 - pre.length) [x]).2 = [] := by
      have hl : pre.length + 1 = (wireFrame P).length := by
        rw [← hsplit]; simp
      have hw : (wireFrame P).length ≤ SDL_MAX_PAY_LEN * 2 + 6 := by
        simp only [wireFrame, List.length_cons, List.length_append, List.length_singleton,
          List.length_nil]
        omega
      rw [pollRx_listRx, List.drop_of_length_le (by simp; omega)]
    rw [hw2] at hcall
    simp only [List.map_cons, List.map_nil, List.length_nil, List.replicate_zero,
      List.nil_append]
    exact sdlReceiveCalls_cons search fuel len _ _ _ _ _ _ _ _ _ hcall
      (sdlReceiveCalls_nil search fuel len _)
  | cons y post ih =>
    intro pre x hsplit
    -- the buffer after this call is a flag followed by flag-free bytes
    have hw : (wireFrame P).length = (stuff (P ++ num16ToNet (crc16 P))).length + 2 := by
      simp [wireFrame]
    have hlenpre : pre.length + 1 + (post.length + 1) = (wireFrame P).length := by
      rw [← hsplit]; simp; omega
    have htake : pre ++ [x] = (wireFrame P).take (pre.length + 1) := by
      rw [← hsplit]
      have : pre ++ x :: y :: post = (pre ++ [x]) ++ y :: post := by simp
      rw [this, List.take_left' (by simp)]
    have hshape : pre ++ [x]
        = FRAME_FLAG :: (stuff (P ++ num16ToNet (crc16 P))).take pre.length := by
      rw [htake, wireFrame, List.cons_append, List.take_succ_cons,
        List.take_append_of_le_length (by omega)]
    have hfree : FRAME_FLAG ∉ (stuff (P ++ num16ToNet (crc16 P))).take pre.length :=
      fun h => stuff_no_flag _ (List.mem_of_mem_take h)
    have hcall := sdlReceive_partial search hc tx fuel len pre [x]
      ((stuff (P ++ num16ToNet (crc16 P))).take pre.length) hfuel
      (by simp only [List.length_singleton]; omega) hshape hfree
      (by rw [List.length_take]; omega)
    have hnext := ih (pre ++ [x]) y (by rw [← hsplit]; simp)
    simp only [List.map_cons, List.length_cons, List.replicate_succ, List.cons_append]
      at hnext ⊢
    exact sdlReceiveCalls_cons search fuel len _ _ _ _ _ _ _ _ _ hcall hnext

/-- C11 (partial arrival): for every payload `P` of at most `SDL_MAX_PAY_LEN`
bytes and every output capacity of at least `len(P)`, when the bytes of the
frame of `P` are delivered to a freshly initialised line one per `sdlReceive`
call (the receive function reports one byte and then none), every call before
the one that delivers the last byte returns 0 and the call that delivers the
last byte returns `len(P)` with the output holding exactly `P`.  The locator is
any one that meets the contract of the specification, and the scan loop is
given at least one iteration. -/
theorem C11_partial_arrival (search : Locator) (hc : LocatorContract search)
    (tx : Option (List Nat → Nat → Nat × List Nat)) (fuel len : Nat) (P : List Nat)
    (hfuel : 1 ≤ fuel) (hP : P.length ≤ SDL_MAX_PAY_LEN) (hlen : P.length ≤ len) :
    sdlReceiveCalls search fuel len (sdlInitLine tx (some listRx))
        ((frame (payloadBuff (SDL_MAX_PAY_LEN * 2 + 6) P)).2.elems.map (fun b => [b]))
      = some (List.replicate ((frame (payloadBuff (SDL_MAX_PAY_LEN * 2 + 6) P)).2.elems.length - 1)
                (0, []) ++ [(P.length, P)],
              sdlInitLine tx (some listRx)) := by
  have he := escCount_payload_le P
  rw [frame_ok (SDL_MAX_PAY_LEN * 2 + 6) P (by simp only [SDL_MAX_PAY_LEN] at hP ⊢; omega)]
  have hw : wireFrame P
      = FRAME_FLAG :: (stuff (P ++ num16ToNet (crc16 P)) ++ [FRAME_FLAG]) := rfl
  have := sdlReceiveCalls_one_by_one search hc tx fuel len P hfuel hP hlen
    (stuff (P ++ num16ToNet (crc16 P)) ++ [FRAME_FLAG]) [] FRAME_FLAG (by rw [hw]; rfl)
  simp only [payloadBuff, hw, List.length_cons, Nat.add_sub_cancel]
  exact this

theorem C11_partial_arrival_witness :
    LocatorContract flagLocator ∧ 1 ≤ 1 ∧ [1, 2, 3].length ≤ SDL_MAX_PAY_LEN ∧
    [1, 2, 3].length ≤ 20 ∧
    sdlReceiveCalls flagLocator 1 20 (sdlInitLine none (some listRx))
        ((frame (payloadBuff (SDL_MAX_PAY_LEN * 2 + 6) [1, 2, 3])).2.elems.map (fun b => [b]))
      = some (List.replicate
                ((frame (payloadBuff (SDL_MAX_PAY_LEN * 2 + 6) [1, 2, 3])).2.elems.length - 1)
                (0, []) ++ [([1, 2, 3].length, [1, 2, 3])],
              sdlInitLine none (some listRx)) :=
  ⟨flagLocator_contract, by decide, by decide, by decide,
    C11_partial_arrival flagLocator flagLocator_contract none 1 20 [1, 2, 3]
      (by decide) (by decide) (by decide)⟩

/-! ## Resynchronization -/

/-- Scan pass on a buffer that starts with a flag-bounded, flag-free region
that `deframe` rejects: the region is consumed and the scan goes on with the
rest. -/
theorem sdlReceiveScan_skip_region (search : Locator) (hc : LocatorContract search)
    (len f : Nat) (X rest junk out : List Nat) (hX : FRAME_FLAG ∉ X)
    (hXlen : X.length ≤ SDL_MAX_PAY_LEN * 2 + 4)
    (hrej : (deframe (payloadBuff (SDL_MAX_PAY_LEN * 2 + 6)
      (FRAME_FLAG :: X ++ [FRAME_FLAG]))).1 = 0) :
    sdlReceiveScan search len (f + 1)
        ⟨true, SDL_MAX_PAY_LEN * 2 + 6, FRAME_FLAG :: X ++ FRAME_FLAG :: rest⟩
        (payloadBuff (SDL_MAX_PAY_LEN * 2 + 6) junk) out
      = sdlReceiveScan search len f ⟨true, SDL_MAX_PAY_LEN * 2 + 6, rest⟩
          (payloadBuff (SDL_MAX_PAY_LEN * 2 + 6)
            (deframe (payloadBuff (SDL_MAX_PAY_LEN * 2 + 6)
              (FRAME_FLAG :: X ++ [FRAME_FLAG]))).2.elems) out := by
  have hk := hc.2.2 ⟨true, SDL_MAX_PAY_LEN * 2 + 6, FRAME_FLAG :: X ++ FRAME_FLAG :: rest⟩
    X rest rfl hX (by rw [rule_maxLen]; exact hXlen)
  have hs := sdlReceiveScan_rejected search len f
    ⟨true, SDL_MAX_PAY_LEN * 2 + 6, FRAME_FLAG :: X ++ FRAME_FLAG :: rest⟩ junk out
    (FRAME_FLAG :: X ++ [FRAME_FLAG]) hk.1 hk.2.2
    (by simp only [List.cons_append, List.length_cons, List.length_append,
          List.length_singleton, List.length_nil]; omega) hrej
  rw [hk.2.1] at hs
  exact hs

/-- Scan pass on a buffer that starts with the frame of a payload within the
limits: the payload is returned and the rest stays in the buffer. -/
theorem sdlReceiveScan_frame (search : Locator) (hc : LocatorContract search)
    (len f : Nat) (P rest junk out : List Nat)
    (hP : P.length ≤ SDL_MAX_PAY_LEN) (hlen : P.length ≤ len) :
    sdlReceiveScan search len (f + 1)
        ⟨true, SDL_MAX_PAY_LEN * 2 + 6, wireFrame P ++ rest⟩
        (payloadBuff (SDL_MAX_PAY_LEN * 2 + 6) junk) out
      = some (P.length, P, ⟨true, SDL_MAX_PAY_LEN * 2 + 6, rest⟩) := by
  have hsl := stuff_payload_length_le P hP
  have hshape : wireFrame P ++ rest
      = FRAME_FLAG :: stuff (P ++ num16ToNet (crc16 P)) ++ FRAME_FLAG :: rest := by
    simp [wireFrame]
  have hk := hc.2.2 ⟨true, SDL_MAX_PAY_LEN * 2 + 6, wireFrame P ++ rest⟩
    (stuff (P ++ num16ToNet (crc16 P))) rest hshape (stuff_no_flag _)
    (by rw [rule_maxLen]; exact hsl)
  have hwl : (wireFrame P).length ≤ SDL_MAX_PAY_LEN * 2 + 6 := by
    simp only [wireFrame, List.length_cons, List.length_append, List.length_singleton,
      List.length_nil]
    omega
  have hs := sdlReceiveScan_valid search len f
    ⟨true, SDL_MAX_PAY_LEN * 2 + 6, wireFrame P ++ rest⟩ junk out P hk.1
    (by rw [hk.2.2]; rfl) hwl hP hlen
  rw [hk.2.1] at hs
  exact hs

/-- Scan pass on a buffer that starts with the frame of a payload longer than
`SDL_MAX_PAY_LEN`: the frame is consumed and the scan goes on with the rest. -/
theorem sdlReceiveScan_frame_oversize (search : Locator) (hc : LocatorContract search)
    (len f : Nat) (P rest junk out : List Nat)
    (hfit : (wireFrame P).length ≤ SDL_MAX_PAY_LEN * 2 + 6)
    (hlong : SDL_MAX_PAY_LEN < P.length) :
    sdlReceiveScan search len (f + 1)
        ⟨true, SDL_MAX_PAY_LEN * 2 + 6, wireFrame P ++ rest⟩
        (payloadBuff (SDL_MAX_PAY_LEN * 2 + 6) junk) out
      = sdlReceiveScan search len f ⟨true, SDL_MAX_PAY_LEN * 2 + 6, rest⟩
          (payloadBuff (SDL_MAX_PAY_LEN * 2 + 6) P) out := by
  have hshape : wireFrame P ++ rest
      = FRAME_FLAG :: stuff (P ++ num16ToNet (crc16 P)) ++ FRAME_FLAG :: rest := by
    simp [wireFrame]
  have hsl : (stuff (P ++ num16ToNet (crc16 P))).length ≤ SDL_MAX_PAY_LEN * 2 + 4 := by
    simp only [wireFrame, List.length_cons, List.length_append, List.length_singleton,
      List.length_nil] at hfit
    omega
  have hk := hc.2.2 ⟨true, SDL_MAX_PAY_LEN * 2 + 6, wireFrame P ++ rest⟩
    (stuff (P ++ num16ToNet (crc16 P))) rest hshape (stuff_no_flag _)
    (by rw [rule_maxLen]; exact hsl)
  have hs := sdlReceiveScan_oversize search len f
    ⟨true, SDL_MAX_PAY_LEN * 2 + 6, wireFrame P ++ rest⟩ junk out P hk.1
    (by rw [hk.2.2]; rfl) hfit hlong
  rw [hk.2.1] at hs
  exact hs

/-- Scan pass on the empty accumulation buffer: `return 0`. -/
theorem sdlReceiveScan_empty (search : Locator) (hc : LocatorContract search)
    (len f : Nat) (tmpBuff : circular_buffer_handle) (out : List Nat) :
    sdlReceiveScan search len (f + 1) ⟨true, SDL_MAX_PAY_LEN * 2 + 6, []⟩ tmpBuff out
      = some (0, out, ⟨true, SDL_MAX_PAY_LEN * 2 + 6, []⟩) := by
  have hk := hc.1 ⟨true, SDL_MAX_PAY_LEN * 2 + 6, []⟩ rfl
  have hs := sdlReceiveScan_notfound search len f ⟨true, SDL_MAX_PAY_LEN * 2 + 6, []⟩
    tmpBuff out hk.1
  rw [hk.2] at hs
  exact hs

theorem pollRx_listRx_all (n : Nat) (bytes : List Nat) (h : bytes.length ≤ n) :
    pollRx listRx n bytes = (bytes, []) := by
  rw [pollRx_listRx, List.take_of_length_le h, List.drop_of_length_le h]

/-- A receive call on a line with an empty accumulation buffer when no byte
arrives: 0 is returned and the line stays as it is. -/
theorem sdlReceive_idle (search : Locator) (hc : LocatorContract search)
    (tx : Option (List Nat → Nat → Nat × List Nat)) (fuel len : Nat) (hfuel : 1 ≤ fuel) :
    sdlReceive search fuel ⟨tx, some listRx, ⟨true, SDL_MAX_PAY_LEN * 2 + 6, []⟩⟩ [] len
      = some (0, [], ⟨tx, some listRx, ⟨true, SDL_MAX_PAY_LEN * 2 + 6, []⟩⟩, []) := by
  obtain ⟨f, rfl⟩ : ∃ f, fuel = f + 1 := ⟨fuel - 1, by omega⟩
  have hpoll := pollRx_listRx_all (SDL_MAX_PAY_LEN * 2 + 6 - ([] : List Nat).length) []
    (Nat.zero_le _)
  have := sdlReceive_of_scan search (f + 1) len tx listRx true (SDL_MAX_PAY_LEN * 2 + 6) [] []
    0 [] ⟨true, SDL_MAX_PAY_LEN * 2 + 6, []⟩
    (by rw [hpoll]; exact sdlReceiveScan_empty search hc len f _ _)
  rw [this, hpoll]

/-- A receive call on a fresh line to which a rejected flag-bounded, flag-free
region and then the frame of a payload within the limits arrive: the payload is
returned and the accumulation buffer is left empty. -/
theorem sdlReceive_resync (search : Locator) (hc : LocatorContract search)
    (tx : Option (List Nat → Nat → Nat × List Nat)) (fuel len : Nat) (X P : List Nat)
    (hfuel : 2 ≤ fuel) (hX : FRAME_FLAG ∉ X)
    (hrej : (deframe (payloadBuff (SDL_MAX_PAY_LEN * 2 + 6)
      (FRAME_FLAG :: X ++ [FRAME_FLAG]))).1 = 0)
    (hfit : (FRAME_FLAG :: X ++ [FRAME_FLAG]).length + (wireFrame P).length
      ≤ SDL_MAX_PAY_LEN * 2 + 6)
    (hP : P.length ≤ SDL_MAX_PAY_LEN) (hlen : P.length ≤ len) :
    sdlReceive search fuel ⟨tx, some listRx, ⟨true, SDL_MAX_PAY_LEN * 2 + 6, []⟩⟩
        ((FRAME_FLAG :: X ++ [FRAME_FLAG]) ++ wireFrame P) len
      = some (P.length, P, ⟨tx, some listRx, ⟨true, SDL_MAX_PAY_LEN * 2 + 6, []⟩⟩, []) := by
  obtain ⟨f, rfl⟩ : ∃ f, fuel = f + 2 := ⟨fuel - 2, by omega⟩
  have hXl : X.length ≤ SDL_MAX_PAY_LEN * 2 + 4 := by
    simp only [List.cons_append, List.length_cons, List.length_append, List.length_singleton,
      List.length_nil] at hfit
    omega
  have hpoll := pollRx_listRx_all (SDL_MAX_PAY_LEN * 2 + 6 - ([] : List Nat).length)
    ((FRAME_FLAG :: X ++ [FRAME_FLAG]) ++ wireFrame P)
    (by simp only [List.length_nil, Nat.sub_zero, List.length_append] at hfit ⊢; exact hfit)
  have h1 := sdlReceiveScan_skip_region search hc len (f + 1) X (wireFrame P) [] [] hX hXl hrej
  have h2 := sdlReceiveScan_frame search hc len f P []
    (deframe (payloadBuff (SDL_MAX_PAY_LEN * 2 + 6) (FRAME_FLAG :: X ++ [FRAME_FLAG]))).2.elems
    [] hP hlen
  rw [List.append_nil] at h2
  rw [h2] at h1
  have hstream : (FRAME_FLAG :: X ++ [FRAME_FLAG]) ++ wireFrame P
      = FRAME_FLAG :: X ++ FRAME_FLAG :: wireFrame P := by simp
  have := sdlReceive_of_scan search (f + 2) len tx listRx true (SDL_MAX_PAY_LEN * 2 + 6) []
    ((FRAME_FLAG :: X ++ [FRAME_FLAG]) ++ wireFrame P) P.length P
    ⟨true, SDL_MAX_PAY_LEN * 2 + 6, []⟩
    (by rw [hpoll, List.nil_append, hstream]; exact h1)
  rw [this, hpoll]

/-- C12 (resynchronization), as the code has it: for every byte stream made of
one flag-bounded region whose interior holds no `0x7E` and which `deframe`
rejects, immediately followed by the frame of a payload `P` of at most
`SDL_MAX_PAY_LEN` bytes, both fitting in the accumulation buffer, `sdlReceive`
on a freshly initialised line with an output capacity of at least `len(P)`
returns `len(P)` with output `P`, and a following call with no new bytes
returns 0.  The locator is any one that meets the contract of the
specification, and the scan loop is given at least two iterations. -/
theorem C12_resynchronization_amended (search : Locator) (hc : LocatorContract search)
    (tx : Option (List Nat → Nat → Nat × List Nat)) (fuel len : Nat) (X P : List Nat)
    (hfuel : 2 ≤ fuel) (hX : 0x7E ∉ X)
    (hrej : (deframe (payloadBuff (SDL_MAX_PAY_LEN * 2 + 6) ([0x7E] ++ X ++ [0x7E]))).1 = 0)
    (hfit : ([0x7E] ++ X ++ [0x7E]).length
      + (frame (payloadBuff (SDL_MAX_PAY_LEN * 2 + 6) P)).2.elems.length
        ≤ SDL_MAX_PAY_LEN * 2 + 6)
    (hP : P.length ≤ SDL_MAX_PAY_LEN) (hlen : P.length ≤ len) :
    sdlReceiveCalls search fuel len (sdlInitLine tx (some listRx))
        [([0x7E] ++ X ++ [0x7E]) ++ (frame (payloadBuff (SDL_MAX_PAY_LEN * 2 + 6) P)).2.elems, []]
      = some ([(P.length, P), (0, [])], sdlInitLine tx (some listRx)) := by
  have he := escCount_payload_le P
  rw [frame_ok (SDL_MAX_PAY_LEN * 2 + 6) P (by simp only [SDL_MAX_PAY_LEN] at hP ⊢; omega)]
    at hfit ⊢
  have h1 := sdlReceive_resync search hc tx fuel len X P hfuel hX hrej hfit hP hlen
  have h2 := sdlReceive_idle search hc tx fuel len (by omega)
  exact sdlReceiveCalls_cons search fuel len _ _ _ _ _ _ _ _ _ h1
    (sdlReceiveCalls_cons search fuel len _ _ _ _ _ _ _ _ _ h2
      (sdlReceiveCalls_nil search fuel len _))

theorem C12_resynchronization_amended_witness :
    LocatorContract flagLocator ∧ 2 ≤ 2 ∧ 0x7E ∉ [1, 2, 3, 4] ∧
    (deframe (payloadBuff (SDL_MAX_PAY_LEN * 2 + 6) ([0x7E] ++ [1, 2, 3, 4] ++ [0x7E]))).1 = 0 ∧
    [2, 3].length ≤ SDL_MAX_PAY_LEN ∧ [2, 3].length ≤ 20 ∧
    sdlReceiveCalls flagLocator 2 20 (sdlInitLine none (some listRx))
        [([0x7E] ++ [1, 2, 3, 4] ++ [0x7E])
          ++ (frame (payloadBuff (SDL_MAX_PAY_LEN * 2 + 6) [2, 3])).2.elems, []]
      = some ([([2, 3].length, [2, 3]), (0, [])], sdlInitLine none (some listRx)) :=
  ⟨flagLocator_contract, by decide, by decide, by decide, by decide, by decide,
    C12_resynchronization_amended flagLocator flagLocator_contract none 2 20 [1, 2, 3, 4] [2, 3]
      (by decide) (by decide) (by decide) (by decide) (by decide) (by decide)⟩

theorem escCount_replicate_zero (n : Nat) : escCount (List.replicate n 0) = 0 := by
  induction n with
  | zero => rfl
  | succ n ih =>
    rw [List.replicate_succ, escCount, ih, if_neg (by decide)]

theorem wireFrame_zeros_length (n : Nat) : (wireFrame (List.replicate n 0)).length ≤ n + 6 := by
  have h2 := escCount_le (num16ToNet (crc16 (List.replicate n 0)))
  rw [num16ToNet_length] at h2
  rw [wireFrame_length, escCount_append, escCount_replicate_zero, List.length_replicate]
  omega

/-- A receive call on a fresh line to which the two flags `0x7E 0x7E` and then
the frame of a payload longer than `SDL_MAX_PAY_LEN` arrive: both candidates
are discarded and 0 is returned. -/
theorem sdlReceive_resync_oversize (search : Locator) (hc : LocatorContract search)
    (tx : Option (List Nat → Nat → Nat × List Nat)) (fuel len : Nat) (P : List Nat)
    (hfuel : 3 ≤ fuel)
    (hfit : 2 + (wireFrame P).length ≤ SDL_MAX_PAY_LEN * 2 + 6)
    (hlong : SDL_MAX_PAY_LEN < P.length) :
    sdlReceive search fuel ⟨tx, some listRx, ⟨true, SDL_MAX_PAY_LEN * 2 + 6, []⟩⟩
        ([0x7E, 0x7E] ++ wireFrame P) len
      = some (0, [], ⟨tx, some listRx, ⟨true, SDL_MAX_PAY_LEN * 2 + 6, []⟩⟩, []) := by
  obtain ⟨f, rfl⟩ : ∃ f, fuel = f + 3 := ⟨fuel - 3, by omega⟩
  have hrej : (deframe (payloadBuff (SDL_MAX_PAY_LEN * 2 + 6)
      (FRAME_FLAG :: [] ++ [FRAME_FLAG]))).1 = 0 := by decide
  have hpoll := pollRx_listRx_all (SDL_MAX_PAY_LEN * 2 + 6 - ([] : List Nat).length)
    ([0x7E, 0x7E] ++ wireFrame P)
    (by simp only [List.length_nil, Nat.sub_zero, List.length_append, List.length_cons]
        omega)
  have h1 := sdlReceiveScan_skip_region search hc len (f + 2) [] (wireFrame P) [] []
    (by simp) (by simp) hrej
  have h2 := sdlReceiveScan_frame_oversize search hc len (f + 1) P []
    (deframe (payloadBuff (SDL_MAX_PAY_LEN * 2 + 6) (FRAME_FLAG :: [] ++ [FRAME_FLAG]))).2.elems
    [] (by omega) hlong
  have h3 := sdlReceiveScan_empty search hc len f (payloadBuff (SDL_MAX_PAY_LEN * 2 + 6) P) []
  rw [List.append_nil] at h2
  rw [h2, h3] at h1
  have := sdlReceive_of_scan search (f + 3) len tx listRx true (SDL_MAX_PAY_LEN * 2 + 6) []
    ([0x7E, 0x7E] ++ wireFrame P) 0 [] ⟨true, SDL_MAX_PAY_LEN * 2 + 6, []⟩
    (by rw [hpoll, List.nil_append]; exact h1)
  rw [this, hpoll]

/-- C12 as stated fails, with the locator `flagLocator` that meets the
contract.  (1) The region `7E 01 F1 D1 7E 41 7E` is flag-bounded and rejected
by `deframe`, but its first part is the frame of the payload `01`: followed by
the frame of `02 03`, `sdlReceive` returns 1 with output `01`.  (2) After the
rejected region `7E 7E`, the frame of a payload of 257 bytes fits in the
accumulation buffer, and `sdlReceive` returns 0.  (3) With an output capacity
of 1, `sdlReceive` returns 0 for the frame of `02 03`. -/
theorem C12_counterexample :
    LocatorContract flagLocator ∧
    ((deframe (payloadBuff (SDL_MAX_PAY_LEN * 2 + 6) [126, 1, 241, 209, 126, 65, 126])).1 = 0 ∧
     [126, 1, 241, 209, 126, 65, 126].length + (wireFrame [2, 3]).length
        ≤ SDL_MAX_PAY_LEN * 2 + 6 ∧
     (sdlReceive flagLocator 4 (sdlInitLine none (some listRx))
        ([126, 1, 241, 209, 126, 65, 126] ++ wireFrame [2, 3]) 20).map (fun r => (r.1, r.2.1))
      = some (1, [1])) ∧
    ((deframe (payloadBuff (SDL_MAX_PAY_LEN * 2 + 6) [0x7E, 0x7E])).1 = 0 ∧
     (List.replicate 257 0).length = 257 ∧
     [0x7E, 0x7E].length + (wireFrame (List.replicate 257 0)).length
        ≤ SDL_MAX_PAY_LEN * 2 + 6 ∧
     sdlReceive flagLocator 4 (sdlInitLine none (some listRx))
        ([0x7E, 0x7E] ++ wireFrame (List.replicate 257 0)) 300
      = some (0, [], sdlInitLine none (some listRx), [])) ∧
    ((sdlReceive flagLocator 4 (sdlInitLine none (some listRx))
        ([0x7E, 0x7E] ++ wireFrame [2, 3]) 1).map (fun r => r.1) = some 0) := by
  have hz := wireFrame_zeros_length 257
  refine ⟨flagLocator_contract, ⟨by decide, by decide, by decide⟩,
    ⟨by decide, List.length_replicate _ _, ?_, ?_⟩, by decide⟩
  · simp only [List.length_cons, List.length_nil, SDL_MAX_PAY_LEN]
    omega
  · exact sdlReceive_resync_oversize flagLocator flagLocator_contract none 4 300
      (List.replicate 257 0) (by decide)
      (by simp only [SDL_MAX_PAY_LEN]; omega)
      (by rw [List.length_replicate]; decide)

/-! ## Deframer length check -/

/-- C14 (deframer length check), as the code has it: `deframe` does not check
the payload length; for every payload `P` longer than `SDL_MAX_PAY_LEN` held
in a buffer large enough for its frame, `frame` and then `deframe` succeed and
leave `P`.  The check against `SDL_MAX_PAY_LEN` is made by `sdlReceive`: when
the locator reports the frame of such a payload, the scan loop discards it and
goes on with the next search. -/
theorem C14_length_check_amended (P : List Nat) (hlong : SDL_MAX_PAY_LEN < P.length) :
    (∀ cap : Nat, (wireFrame P).length ≤ cap →
      (frame (payloadBuff cap P)).1 = 1 ∧
      deframe (frame (payloadBuff cap P)).2 = (1, payloadBuff cap P)) ∧
    (∀ (search : Locator) (len fuel : Nat) (rxBuff : circular_buffer_handle)
      (junk out : List Nat),
      (search rxBuff rule).1 ≠ 0 → (search rxBuff rule).2.2.elems = wireFrame P →
      (wireFrame P).length ≤ SDL_MAX_PAY_LEN * 2 + 6 →
      sdlReceiveScan search len (fuel + 1) rxBuff
          (payloadBuff (SDL_MAX_PAY_LEN * 2 + 6) junk) out
        = sdlReceiveScan search len fuel (search rxBuff rule).2.1
            (payloadBuff (SDL_MAX_PAY_LEN * 2 + 6) P) out) := by
  constructor
  · intro cap hcap
    rw [frame_ok cap P (by rw [← wireFrame_length]; exact hcap)]
    exact ⟨rfl, deframe_wireFrame cap P hcap⟩
  · intro search len fuel rxBuff junk out h hR hfit
    exact sdlReceiveScan_oversize search len fuel rxBuff junk out P h hR hfit hlong

theorem C14_length_check_amended_witness :
    SDL_MAX_PAY_LEN < (List.replicate 257 0).length ∧
    (wireFrame (List.replicate 257 0)).length ≤ 300 ∧
    ((frame (payloadBuff 300 (List.replicate 257 0))).1 = 1 ∧
      deframe (frame (payloadBuff 300 (List.replicate 257 0))).2
        = (1, payloadBuff 300 (List.replicate 257 0))) :=
  ⟨by rw [List.length_replicate]; decide,
    le_trans (wireFrame_zeros_length 257) (by decide),
    (C14_length_check_amended (List.replicate 257 0)
      (by rw [List.length_replicate]; decide)).1 300
      (le_trans (wireFrame_zeros_length 257) (by decide))⟩

theorem deframe_frame_any (cap : Nat) (P : List Nat) (hw : (wireFrame P).length ≤ cap) :
    (frame (payloadBuff cap P)).2.elems.length ≤ cap ∧
    (deframe (frame (payloadBuff cap P)).2).1 = 1 ∧
    (deframe (frame (payloadBuff cap P)).2).2.elems = P := by
  have hf := frame_ok cap P (by rw [← wireFrame_length]; exact hw)
  have hd := deframe_wireFrame cap P hw
  rw [hf]
  refine ⟨hw, ?_, ?_⟩
  · show (deframe (payloadBuff cap (wireFrame P))).1 = 1
    rw [hd]
  · show (deframe (payloadBuff cap (wireFrame P))).2.elems = P
    rw [hd]
    rfl

/-- C14 as stated fails: the payload of 257 zero bytes is longer than
`SDL_MAX_PAY_LEN`, its frame fits a buffer of 300 bytes, and `deframe` of that
frame returns 1 and leaves the 257 bytes. -/
theorem C14_counterexample :
    SDL_MAX_PAY_LEN < (List.replicate 257 0).length ∧
    (frame (payloadBuff 300 (List.replicate 257 0))).2.elems.length ≤ 300 ∧
    (deframe (frame (payloadBuff 300 (List.replicate 257 0))).2).1 = 1 ∧
    (deframe (frame (payloadBuff 300 (List.replicate 257 0))).2).2.elems
      = List.replicate 257 0 :=
  ⟨by rw [List.length_replicate]; decide,
    deframe_frame_any 300 (List.replicate 257 0)
      (le_trans (wireFrame_zeros_length 257) (by decide))⟩

/-! ## Loopback -/

/-- The transmit loop over the channel of the example: when the channel has
room for them, all the bytes are appended to it and the loop ends with
`return 1`. -/
theorem sdlSendLoop_txFunc1 (b0 cb : Bool) (cap0 ccap : Nat) :
    ∀ (l cl : List Nat) (fuel : Nat), l.length < fuel → cl.length + l.length ≤ ccap →
      sdlSendLoop txFunc1 fuel ⟨b0, cap0, l⟩ ⟨cb, ccap, cl⟩ = some (1, ⟨cb, ccap, cl ++ l⟩) := by
  intro l
  induction l with
  | nil =>
    intro cl fuel hf _
    obtain ⟨f, rfl⟩ : ∃ f, fuel = f + 1 := ⟨fuel - 1, by omega⟩
    simp [sdlSendLoop, cBuffPull_head_nil]
  | cons x l ih =>
    intro cl fuel hf hl
    simp only [List.length_cons] at hf hl
    obtain ⟨f, rfl⟩ : ∃ f, fuel = f + 1 := ⟨fuel - 1, by omega⟩
    have ht : txFunc1 ⟨cb, ccap, cl⟩ x = (1, ⟨cb, ccap, cl ++ [x]⟩) := by
      simp only [txFunc1, cBuffPushToFill_tail_room cb ccap x cl (by omega), one_ne_zero,
        if_false]
    simp only [sdlSendLoop, cBuffPull_head_cons, List.headD_cons, one_ne_zero, if_false, ht]
    rw [ih (cl ++ [x]) f (by omega) (by simp; omega)]
    simp

/-- Function `sdlSend` over the channel of the example: the frame of the
payload is appended to the channel. -/
theorem sdlSend_txFunc1
    (rx : Option (circular_buffer_handle → Nat × Nat × circular_buffer_handle))
    (rxBuff : circular_buffer_handle) (cb : Bool) (ccap : Nat) (cl P : List Nat)
    (hP : P.length ≤ SDL_MAX_PAY_LEN) (hroom : cl.length + (wireFrame P).length ≤ ccap) :
    sdlSend ⟨some txFunc1, rx, rxBuff⟩ ⟨cb, ccap, cl⟩ P
      = some (1, ⟨cb, ccap, cl ++ wireFrame P⟩) := by
  rw [sdlSend_eq_loop _ _ _ _ _ hP]
  simp only [payloadBuff]
  exact sdlSendLoop_txFunc1 true cb _ ccap (wireFrame P) cl _ (Nat.lt_succ_self _) hroom

theorem pollRx_rxFunc2 (cb : Bool) (ccap : Nat) : ∀ (n : Nat) (l : List Nat),
    pollRx rxFunc2 n ⟨cb, ccap, l⟩ = (l.take n, ⟨cb, ccap, l.drop n⟩) := by
  intro n
  induction n with
  | zero => intro l; simp [pollRx]
  | succ n ih =>
    intro l
    cases l with
    | nil => simp [pollRx, rxFunc2, cBuffPull_head_nil]
    | cons x r =>
      have hr : rxFunc2 ⟨cb, ccap, x :: r⟩ = (1, x, ⟨cb, ccap, r⟩) := by
        simp [rxFunc2, cBuffPull_head_cons]
      simp [pollRx, hr, ih]

theorem wireFrame_length_le (P : List Nat) (hP : P.length ≤ SDL_MAX_PAY_LEN) :
    (wireFrame P).length ≤ SDL_MAX_PAY_LEN * 2 + 6 := by
  have := stuff_payload_length_le P hP
  simp only [wireFrame, List.length_cons, List.length_append, List.length_singleton,
    List.length_nil]
  omega

/-- C13 (order-preserving loopback): for every two payloads `P1`, `P2` of at
most `SDL_MAX_PAY_LEN` bytes, sent with `sdlSend` in that order over the
loopback channel of the example (`txFunc1` / `rxFunc2` on a channel buffer
large enough to hold both frames), two successive `sdlReceive` calls on the
peer line, with an output capacity of at least both lengths, return `len(P1)`
with output `P1` and then `len(P2)` with output `P2`.  The locator is any one
that meets the contract of the specification, and the scan loop is given at
least one iteration. -/
theorem C13_loopback_order (search : Locator) (hc : LocatorContract search)
    (rx1 : Option (circular_buffer_handle → Nat × Nat × circular_buffer_handle))
    (tx2 : Option (circular_buffer_handle → Nat → Nat × circular_buffer_handle))
    (fuel len chanCap : Nat) (P1 P2 : List Nat) (hfuel : 1 ≤ fuel)
    (hP1 : P1.length ≤ SDL_MAX_PAY_LEN) (hP2 : P2.length ≤ SDL_MAX_PAY_LEN)
    (hlen1 : P1.length ≤ len) (hlen2 : P2.length ≤ len)
    (hchan : (wireFrame P1).length + (wireFrame P2).length ≤ chanCap) :
    ∃ (ch1 ch2 ch3 ch4 : circular_buffer_handle)
      (lineA lineB : serial_line_handle circular_buffer_handle),
      sdlSend (sdlInitLine (some txFunc1) rx1) (cBuffInit true chanCap) P1 = some (1, ch1) ∧
      sdlSend (sdlInitLine (some txFunc1) rx1) ch1 P2 = some (1, ch2) ∧
      sdlReceive search fuel (sdlInitLine tx2 (some rxFunc2)) ch2 len
        = some (P1.length, P1, lineA, ch3) ∧
      sdlReceive search fuel lineA ch3 len = some (P2.length, P2, lineB, ch4) := by
  have hw1 := wireFrame_length_le P1 hP1
  have hw2 := wireFrame_length_le P2 hP2
  have hs1 := sdlSend_txFunc1 rx1 (cBuffInit true (SDL_MAX_PAY_LEN * 2 + 6)) true chanCap []
    P1 hP1 (by simp only [List.length_nil]; omega)
  have hs2 := sdlSend_txFunc1 rx1 (cBuffInit true (SDL_MAX_PAY_LEN * 2 + 6)) true chanCap
    ([] ++ wireFrame P1) P2 hP2 (by simp only [List.nil_append]; omega)
  simp only [List.nil_append] at hs1 hs2
  -- first receive call
  have hpoll1 := pollRx_rxFunc2 true chanCap (SDL_MAX_PAY_LEN * 2 + 6 - ([] : List Nat).length)
    (wireFrame P1 ++ wireFrame P2)
  have htake1 : List.take (SDL_MAX_PAY_LEN * 2 + 6 - ([] : List Nat).length)
      (wireFrame P1 ++ wireFrame P2)
      = wireFrame P1 ++ (wireFrame P2).take (SDL_MAX_PAY_LEN * 2 + 6 - (wireFrame P1).length) := by
    rw [List.length_nil, Nat.sub_zero, List.take_append_eq_append_take,
      List.take_of_length_le hw1]
  have hdrop1 : List.drop (SDL_MAX_PAY_LEN * 2 + 6 - ([] : List Nat).length)
      (wireFrame P1 ++ wireFrame P2)
      = (wireFrame P2).drop (SDL_MAX_PAY_LEN * 2 + 6 - (wireFrame P1).length) := by
    rw [List.length_nil, Nat.sub_zero, List.drop_append_eq_append_drop,
      List.drop_of_length_le hw1, List.nil_append]
  have hr1 := sdlReceive_frame search hc tx2 rxFunc2 ⟨true, chanCap, wireFrame P1 ++ wireFrame P2⟩
    fuel len [] P1 ((wireFrame P2).take (SDL_MAX_PAY_LEN * 2 + 6 - (wireFrame P1).length))
    hfuel (by rw [hpoll1, List.nil_append, htake1]) hP1 hlen1
  rw [hpoll1, hdrop1] at hr1
  -- second receive call
  have hpoll2 := pollRx_rxFunc2 true chanCap
    (SDL_MAX_PAY_LEN * 2 + 6
      - ((wireFrame P2).take (SDL_MAX_PAY_LEN * 2 + 6 - (wireFrame P1).length)).length)
    ((wireFrame P2).drop (SDL_MAX_PAY_LEN * 2 + 6 - (wireFrame P1).length))
  have htake2 : List.take (SDL_MAX_PAY_LEN * 2 + 6
      - ((wireFrame P2).take (SDL_MAX_PAY_LEN * 2 + 6 - (wireFrame P1).length)).length)
      ((wireFrame P2).drop (SDL_MAX_PAY_LEN * 2 + 6 - (wireFrame P1).length))
      = (wireFrame P2).drop (SDL_MAX_PAY_LEN * 2 + 6 - (wireFrame P1).length) := by
    apply List.take_of_length_le
    rw [List.length_drop, List.length_take]
    omega
  have hr2 := sdlReceive_frame search hc tx2 rxFunc2
    ⟨true, chanCap, (wireFrame P2).drop (SDL_MAX_PAY_LEN * 2 + 6 - (wireFrame P1).length)⟩
    fuel len ((wireFrame P2).take (SDL_MAX_PAY_LEN * 2 + 6 - (wireFrame P1).length)) P2 []
    hfuel (by rw [hpoll2, htake2, List.take_append_drop, List.append_nil]) hP2 hlen2
  exact ⟨_, _, _, _, _, _, hs1, hs2, hr1, hr2⟩

theorem C13_loopback_order_witness :
    LocatorContract flagLocator ∧ 1 ≤ 1 ∧
    [72, 101, 108, 108, 111, 32, 0].length ≤ SDL_MAX_PAY_LEN ∧
    [32, 87, 111, 114, 108, 100, 33, 0].length ≤ SDL_MAX_PAY_LEN ∧
    [72, 101, 108, 108, 111, 32, 0].length ≤ 20 ∧
    [32, 87, 111, 114, 108, 100, 33, 0].length ≤ 20 ∧
    (wireFrame [72, 101, 108, 108, 111, 32, 0]).length
      + (wireFrame [32, 87, 111, 114, 108, 100, 33, 0]).length ≤ 30 ∧
    ∃ (ch1 ch2 ch3 ch4 : circular_buffer_handle)
      (lineA lineB : serial_line_handle circular_buffer_handle),
      sdlSend (sdlInitLine (some txFunc1) none) (cBuffInit true 30)
        [72, 101, 108, 108, 111, 32, 0] = some (1, ch1) ∧
      sdlSend (sdlInitLine (some txFunc1) none) ch1
        [32, 87, 111, 114, 108, 100, 33, 0] = some (1, ch2) ∧
      sdlReceive flagLocator 1 (sdlInitLine none (some rxFunc2)) ch2 20
        = some ([72, 101, 108, 108, 111, 32, 0].length, [72, 101, 108, 108, 111, 32, 0],
            lineA, ch3) ∧
      sdlReceive flagLocator 1 lineA ch3 20
        = some ([32, 87, 111, 114, 108, 100, 33, 0].length,
            [32, 87, 111, 114, 108, 100, 33, 0], lineB, ch4) :=
  ⟨flagLocator_contract, by decide, by decide, by decide, by decide, by decide, by decide,
    C13_loopback_order flagLocator flagLocator_contract none none 1 20 30
      [72, 101, 108, 108, 111, 32, 0] [32, 87, 111, 114, 108, 100, 33, 0]
      (by decide) (by decide) (by decide) (by decide) (by decide) (by decide)⟩

/-! ## Canonical frames -/

/-- A sequence that un-stuffs is the stuffing of what it un-stuffs to. -/
theorem unstuff_eq_stuff : ∀ (n : Nat) (E ys : List Nat), E.length ≤ n →
    unstuff E = some ys → E = stuff ys := by
  intro n
  induction n with
  | zero =>
    intro E ys hl h
    have hE : E = [] := List.length_eq_zero.1 (by omega)
    subst hE
    simp only [unstuff, Option.some.injEq] at h
    subst h
    rfl
  | succ n ih =>
    intro E ys hl h
    cases E with
    | nil =>
      simp only [unstuff, Option.some.injEq] at h
      subst h
      rfl
    | cons x rest =>
      by_cases h1 : x = FRAME_FLAG
      · subst h1
        rw [unstuff_cons_flag] at h
        cases h
      · by_cases h2 : x = ESCAPE_FLAG
        · subst h2
          cases rest with
          | nil =>
            rw [unstuff_esc_nil] at h
            cases h
          | cons c rest2 =>
            by_cases hc : INVERTBIT5 c ≠ ESCAPE_FLAG ∧ INVERTBIT5 c ≠ FRAME_FLAG
            · rw [unstuff_esc_bad c rest2 hc] at h
              cases h
            · rw [unstuff_esc_good c rest2 hc] at h
              cases hu : unstuff rest2 with
              | none => rw [hu] at h; cases h
              | some zs =>
                rw [hu] at h
                simp only [Option.map_some', Option.some.injEq] at h
                subst h
                have hr := ih rest2 zs (by simp only [List.length_cons] at hl; omega) hu
                have hv : INVERTBIT5 c = FRAME_FLAG ∨ INVERTBIT5 c = ESCAPE_FLAG := by
                  by_cases he : INVERTBIT5 c = ESCAPE_FLAG
                  · exact Or.inr he
                  · by_cases hf : INVERTBIT5 c = FRAME_FLAG
                    · exact Or.inl hf
                    · exact absurd ⟨he, hf⟩ hc
                have hi : INVERTBIT5 (INVERTBIT5 c) = c := (invertbit5_eq c _ rfl).symm
                rw [stuff, if_pos hv, hi, ← hr]
        · rw [unstuff_cons_plain x rest h1 h2] at h
          cases hu : unstuff rest with
          | none => rw [hu] at h; cases h
          | some zs =>
            rw [hu] at h
            simp only [Option.map_some', Option.some.injEq] at h
            subst h
            have hr := ih rest zs (by simp only [List.length_cons] at hl; omega) hu
            have hx : ¬ (x = FRAME_FLAG ∨ x = ESCAPE_FLAG) := by
              rintro (h | h)
              · exact h1 h
              · exact h2 h
            rw [stuff, if_neg hx, ← hr]

/-- The bytes of a sequence whose stuffing consists of bytes are bytes. -/
theorem stuff_bytes_lt (M : List Nat) (h : ∀ b ∈ stuff M, b < 256) : ∀ b ∈ M, b < 256 := by
  induction M with
  | nil => intro b hb; cases hb
  | cons x M ih =>
    by_cases hx : x = FRAME_FLAG ∨ x = ESCAPE_FLAG
    · rw [stuff, if_pos hx] at h
      intro b hb
      rcases List.mem_cons.1 hb with hb | hb
      · subst hb
        rcases hx with hx | hx <;> rw [hx] <;> decide
      · exact ih (fun c hc => h c (List.mem_cons_of_mem _ (List.mem_cons_of_mem _ hc))) b hb
    · rw [stuff, if_neg hx] at h
      intro b hb
      rcases List.mem_cons.1 hb with hb | hb
      · subst hb
        exact h b (List.mem_cons_self _ _)
      · exact ih (fun c hc => h c (List.mem_cons_of_mem _ hc)) b hb

/-- Entry 0 is the only table entry with low byte 0. -/
theorem CRCLUT1021_low_zero (i : Nat) (hi : i < 256) (h : CRCLUT1021.getD i 0 % 256 = 0) :
    i = 0 := by
  have l0 : CRCLUT1021.getD 0 0 = 0 := by decide
  exact CRCLUT1021_low_inj i 0 hi (by norm_num) (by rw [h, l0])

/-- A CRC step whose result has low byte 0 was fed the high byte of the state
and leaves the low byte of the state as high byte. -/
theorem crcStep_low_zero (c b : Nat) (hc : c < 65536) (hb : b < 256)
    (h : crcStep c b % 256 = 0) : b = c / 256 ∧ crcStep c b = 256 * (c % 256) := by
  have l0 : CRCLUT1021.getD 0 0 = 0 := by decide
  have hx : b ^^^ (c / 256) < 2 ^ 8 := Nat.xor_lt_two_pow (by simpa using hb) (by omega)
  have he := crcStep_eq c b hc hb
  have hlow : CRCLUT1021.getD (b ^^^ (c / 256)) 0 % 256 = 0 := by
    rw [he] at h; omega
  have hidx := CRCLUT1021_low_zero _ (by simpa using hx) hlow
  have hbc : b = c / 256 := by
    have h0 : b ^^^ (c / 256) = (c / 256) ^^^ (c / 256) := by rw [hidx, Nat.xor_self]
    exact Nat.xor_left_injective h0
  refine ⟨hbc, ?_⟩
  rw [he, hidx, l0]
  simp

/-- The only two bytes that bring a 16-bit CRC state to 0 are its own high
and low byte. -/
theorem crcStep_zero_unique (c c1 c2 : Nat) (hc : c < 65536) (h1 : c1 < 256) (h2 : c2 < 256)
    (h : crcStep (crcStep c c1) c2 = 0) : c1 = c / 256 ∧ c2 = c % 256 := by
  have hs := crcStep_lt c c1
  obtain ⟨e2, e3⟩ := crcStep_low_zero (crcStep c c1) c2 hs h2 (by rw [h])
  rw [h] at e3
  have hl : crcStep c c1 % 256 = 0 := by omega
  obtain ⟨e1, e4⟩ := crcStep_low_zero c c1 hc h1 hl
  refine ⟨e1, ?_⟩
  rw [e2, e4]
  omega

/-- The two trailing bytes of a sequence with zero CRC residue are the
big-endian CRC of what precedes them. -/
theorem crc16_zero_tail (ys : List Nat) (hb : ∀ b ∈ ys, b < 256) (h2 : 2 ≤ ys.length)
    (h : crc16 ys = 0) :
    ys = ys.take (ys.length - 2) ++ num16ToNet (crc16 (ys.take (ys.length - 2))) := by
  have hsplit : ys = ys.take (ys.length - 2) ++ ys.drop (ys.length - 2) :=
    (List.take_append_drop _ _).symm
  have hdl : (ys.drop (ys.length - 2)).length = 2 := by
    rw [List.length_drop]; omega
  obtain ⟨c1, c2, hd⟩ : ∃ c1 c2, ys.drop (ys.length - 2) = [c1, c2] := by
    match hm : ys.drop (ys.length - 2), hdl with
    | [c1, c2], _ => exact ⟨c1, c2, rfl⟩
  have hc1 : c1 < 256 :=
    hb c1 (List.mem_of_mem_drop (by rw [hd]; exact List.mem_cons_self _ _))
  have hc2 : c2 < 256 :=
    hb c2 (List.mem_of_mem_drop (by rw [hd]; simp))
  rw [hd] at hsplit
  have hz : crc16 (ys.take (ys.length - 2) ++ [c1, c2]) = 0 := by rw [← hsplit]; exact h
  rw [crc16_append] at hz
  simp only [List.foldl_cons, List.foldl_nil] at hz
  obtain ⟨e1, e2⟩ := crcStep_zero_unique _ c1 c2 (crc16_lt _) hc1 hc2 hz
  rw [num16ToNet_eq _ (crc16_lt _), ← e1, ← e2]
  exact hsplit

/-- A buffer on which `deframe` succeeds begins and ends with `0x7E`, these
being two distinct bytes. -/
theorem deframe_success_delimited (cap : Nat) (F : List Nat)
    (h : (deframe (payloadBuff cap F)).1 ≠ 0) :
    ∃ E, F = FRAME_FLAG :: E ++ [FRAME_FLAG] := by
  cases F with
  | nil =>
    exfalso; apply h
    simp [deframe, payloadBuff, cBuffPull_head_nil]
  | cons x t =>
    by_cases hx : x = FRAME_FLAG
    · subst hx
      rcases List.eq_nil_or_concat t with ht | ⟨E, y, ht⟩
      · subst ht
        exfalso; apply h
        simp [deframe, payloadBuff, cBuffPull_head_cons, cBuffPull_tail_nil]
      · subst ht
        by_cases hy : y = FRAME_FLAG
        · subst hy
          exact ⟨E, by simp⟩
        · exfalso; apply h
          simp [deframe, payloadBuff, cBuffPull_head_cons, cBuffPull_tail_snoc, hy]
    · exfalso; apply h
      simp [deframe, payloadBuff, cBuffPull_head_cons, hx]

/-- What success of `deframe` on a delimited buffer means for the interior. -/
theorem deframe_success_interior (cap : Nat) (E : List Nat) (hcap : E.length ≤ cap)
    (h : (deframe (payloadBuff cap (FRAME_FLAG :: E ++ [FRAME_FLAG]))).1 ≠ 0) :
    ∃ ys, E ≠ [] ∧ unstuff E = some ys ∧ 2 ≤ ys.length ∧ crc16 ys = 0 := by
  by_cases hE : E = []
  · exact absurd (deframe_fail cap E hcap (Or.inl hE)) h
  · cases hu : unstuff E with
    | none => exact absurd (deframe_fail cap E hcap (Or.inr (Or.inl hu))) h
    | some ys =>
      by_cases hl : ys.length < 2
      · exact absurd (deframe_fail cap E hcap (Or.inr (Or.inr ⟨ys, hu, Or.inl hl⟩))) h
      · by_cases hz : crc16 ys = 0
        · exact ⟨ys, hE, rfl, by omega, hz⟩
        · exact absurd (deframe_fail cap E hcap (Or.inr (Or.inr ⟨ys, hu, Or.inr hz⟩))) h

/-- A sequence of bytes on which `deframe` succeeds is the wire frame of the
payload that `deframe` leaves. -/
theorem deframe_canonical (cap : Nat) (F : List Nat) (hF : ∀ b ∈ F, b < 256)
    (hcap : F.length ≤ cap) (h : (deframe (payloadBuff cap F)).1 ≠ 0) :
    F = wireFrame (deframe (payloadBuff cap F)).2.elems := by
  obtain ⟨E, rfl⟩ := deframe_success_delimited cap F h
  have hEl : E.length ≤ cap := by
    simp only [List.length_cons, List.length_append, List.length_singleton] at hcap
    omega
  obtain ⟨ys, hne, hu, h2, hz⟩ := deframe_success_interior cap E hEl h
  have hE := unstuff_eq_stuff E.length E ys (le_refl _) hu
  have hys : ∀ b ∈ ys, b < 256 := by
    apply stuff_bytes_lt
    rw [← hE]
    intro b hb
    exact hF b (List.mem_cons_of_mem _ (List.mem_append_left _ hb))
  rw [deframe_ok cap E ys hne hEl hu h2 hz]
  show FRAME_FLAG :: E ++ [FRAME_FLAG] = wireFrame (ys.take (ys.length - 2))
  unfold wireFrame
  rw [← crc16_zero_tail ys hys h2 hz, ← hE]

/-- C21 (canonical frames): let `F` be a sequence of bytes held in a buffer
that can hold it.  If `deframe` succeeds on `F` leaving the payload `P`, then
`frame` applied to `P` (in a buffer of the same capacity) succeeds and leaves
exactly `F`; `deframe` succeeds on `F` if and only if `F` is what a successful
`frame` leaves for some payload; and any sequence of bytes `G` on which
`deframe` succeeds leaving the same payload as for `F` is equal to `F`. -/
theorem C21_canonical_frames (cap : Nat) (F : List Nat) (hF : ∀ b ∈ F, b < 256)
    (hcap : F.length ≤ cap) :
    ((deframe (payloadBuff cap F)).1 ≠ 0 →
      frame (payloadBuff cap (deframe (payloadBuff cap F)).2.elems) = (1, payloadBuff cap F)) ∧
    ((deframe (payloadBuff cap F)).1 ≠ 0 ↔
      ∃ P : List Nat, frame (payloadBuff cap P) = (1, payloadBuff cap F)) ∧
    (∀ (cap2 : Nat) (G : List Nat), (∀ b ∈ G, b < 256) → G.length ≤ cap2 →
      (deframe (payloadBuff cap F)).1 ≠ 0 → (deframe (payloadBuff cap2 G)).1 ≠ 0 →
      (deframe (payloadBuff cap2 G)).2.elems = (deframe (payloadBuff cap F)).2.elems →
      G = F) := by
  have key : (deframe (payloadBuff cap F)).1 ≠ 0 →
      frame (payloadBuff cap (deframe (payloadBuff cap F)).2.elems)
        = (1, payloadBuff cap F) := by
    intro h
    have hc := deframe_canonical cap F hF hcap h
    have hfr := frame_ok cap (deframe (payloadBuff cap F)).2.elems
      (by rw [← wireFrame_length, ← hc]; exact hcap)
    rw [hfr, ← hc]
  refine ⟨key, ⟨fun h => ⟨_, key h⟩, ?_⟩, ?_⟩
  · rintro ⟨P, hP⟩
    have h1 : (frame (payloadBuff cap P)).1 ≠ 0 := by rw [hP]; exact one_ne_zero
    have hs := frame_success cap P h1
    rw [hP] at hs
    have hw : F = wireFrame P := by
      have := congrArg (fun r => r.2.elems) hs
      simpa [payloadBuff] using this
    rw [hw, deframe_wireFrame cap P (by rw [← hw]; exact hcap)]
    exact one_ne_zero
  · intro cap2 G hG hcap2 hf hg he
    rw [deframe_canonical cap2 G hG hcap2 hg, he, ← deframe_canonical cap F hF hcap hf]

set_option maxRecDepth 100000 in
theorem C21_canonical_frames_witness :
    (∀ b ∈ [0x7E, 0x01, 0xF1, 0xD1, 0x7E], b < 256) ∧
    [0x7E, 0x01, 0xF1, 0xD1, 0x7E].length ≤ 8 ∧
    (deframe (payloadBuff 8 [0x7E, 0x01, 0xF1, 0xD1, 0x7E])).1 ≠ 0 ∧
    frame (payloadBuff 8 (deframe (payloadBuff 8 [0x7E, 0x01, 0xF1, 0xD1, 0x7E])).2.elems)
      = (1, payloadBuff 8 [0x7E, 0x01, 0xF1, 0xD1, 0x7E]) :=
  ⟨by decide, by decide, by decide,
    (C21_canonical_frames 8 [0x7E, 0x01, 0xF1, 0xD1, 0x7E] (by decide) (by decide)).1
      (by decide)⟩

/-! ## Single-byte error detection by the CRC -/

/-- A sequence split at one of its indices. -/
theorem split_at_index (M : List Nat) (i : Nat) (hi : i < M.length) :
    M = M.take i ++ M.getD i 0 :: M.drop (i + 1) ∧ (M.take i).length = i := by
  refine ⟨?_, by rw [List.length_take]; omega⟩
  rw [List.getD_eq_getElem _ _ hi]
  simp

/-- Replacing one byte of a sequence with zero CRC residue by a different byte
gives a sequence with non-zero residue. -/
theorem crc16_set_ne_zero (M : List Nat) (i y : Nat) (hM : ∀ b ∈ M, b < 256)
    (hres : crc16 M = 0) (hi : i < M.length) (hy : y < 256) (hne : y ≠ M.getD i 0) :
    crc16 (M.set i y) ≠ 0 := by
  obtain ⟨hs, hl⟩ := split_at_index M i hi
  have hx : M.getD i 0 < 256 := by
    rw [List.getD_eq_getElem _ _ hi]
    exact hM _ (List.getElem_mem hi)
  have hB : ∀ b ∈ M.drop (i + 1), b < 256 := fun b hb => hM b (List.mem_of_mem_drop hb)
  have hset : M.set i y = M.take i ++ y :: M.drop (i + 1) := by
    conv_lhs => rw [hs]
    conv_lhs => arg 2; rw [← hl]
    rw [List.set_append_right _ _ (le_refl _)]
    simp
  have := crc16_single_byte (M.take i) (M.drop (i + 1)) (M.getD i 0) y hx hy hB (Ne.symm hne)
  rw [← hs, hres, ← hset] at this
  exact fun h => this h.symm

/-- C22 (single-byte error detection): for every sequence `M` of bytes whose
`computeCRCwithLUT` residue is 0 (of any length, so in particular of length at
least 2), replacing the byte at any index by any different byte value, and in
particular inverting any one of its bits, gives a sequence whose
`computeCRCwithLUT` residue is not 0 and on which `removeVerifyCRC` returns
0. -/
theorem C22_single_byte_detection (cap : Nat) (M : List Nat) (i : Nat)
    (hM : ∀ b ∈ M, b < 256)
    (hres : computeCRCwithLUT (payloadBuff cap M) = 0) (hi : i < M.length) :
    (∀ y : Nat, y < 256 → y ≠ M.getD i 0 →
      computeCRCwithLUT (payloadBuff cap (M.set i y)) ≠ 0 ∧
      (removeVerifyCRC (payloadBuff cap (M.set i y))).1 = 0) ∧
    (∀ k : Nat, k < 8 →
      computeCRCwithLUT (payloadBuff cap (flipBit M i k)) ≠ 0 ∧
      (removeVerifyCRC (payloadBuff cap (flipBit M i k))).1 = 0) := by
  have hres2 : crc16 M = 0 := by
    rw [← computeCRCwithLUT_eq cap M]; exact hres
  have key : ∀ y : Nat, y < 256 → y ≠ M.getD i 0 →
      computeCRCwithLUT (payloadBuff cap (M.set i y)) ≠ 0 ∧
      (removeVerifyCRC (payloadBuff cap (M.set i y))).1 = 0 := by
    intro y hy hne
    have h := crc16_set_ne_zero M i y hM hres2 hi hy hne
    refine ⟨?_, removeVerifyCRC_fail cap _ (Or.inr h)⟩
    show computeCRCwithLUT ⟨true, cap, M.set i y⟩ ≠ 0
    rw [computeCRCwithLUT_eq]; exact h
  refine ⟨key, ?_⟩
  intro k hk
  have hx : M.getD i 0 < 256 := by
    rw [List.getD_eq_getElem _ _ hi]
    exact hM _ (List.getElem_mem hi)
  exact key (M.getD i 0 ^^^ 2 ^ k) (flip_lt _ _ hx hk) (Ne.symm (flip_ne _ _))

set_option maxRecDepth 100000 in
theorem C22_single_byte_detection_witness :
    (∀ b ∈ [0x01] ++ num16ToNet (computeCRCwithLUT (payloadBuff 8 [0x01])), b < 256) ∧
    2 ≤ ([0x01] ++ num16ToNet (computeCRCwithLUT (payloadBuff 8 [0x01]))).length ∧
    computeCRCwithLUT
      (payloadBuff 8 ([0x01] ++ num16ToNet (computeCRCwithLUT (payloadBuff 8 [0x01])))) = 0 ∧
    (0x00 : Nat) ≠ ([0x01] ++ num16ToNet (computeCRCwithLUT (payloadBuff 8 [0x01]))).getD 1 0 ∧
    (computeCRCwithLUT (payloadBuff 8
        (([0x01] ++ num16ToNet (computeCRCwithLUT (payloadBuff 8 [0x01]))).set 1 0x00)) ≠ 0 ∧
      (removeVerifyCRC (payloadBuff 8
        (([0x01] ++ num16ToNet (computeCRCwithLUT (payloadBuff 8 [0x01]))).set 1 0x00))).1
        = 0) ∧
    (computeCRCwithLUT (payloadBuff 8
        (flipBit ([0x01] ++ num16ToNet (computeCRCwithLUT (payloadBuff 8 [0x01]))) 1 7)) ≠ 0 ∧
      (removeVerifyCRC (payloadBuff 8
        (flipBit ([0x01] ++ num16ToNet (computeCRCwithLUT (payloadBuff 8 [0x01]))) 1 7))).1
        = 0) :=
  ⟨by decide, by decide, by decide, by decide,
    (C22_single_byte_detection 8 ([0x01] ++ num16ToNet (computeCRCwithLUT (payloadBuff 8 [0x01])))
      1 (by decide) (by decide) (by decide)).1 0x00 (by decide) (by decide),
    (C22_single_byte_detection 8 ([0x01] ++ num16ToNet (computeCRCwithLUT (payloadBuff 8 [0x01])))
      1 (by decide) (by decide) (by decide)).2 7 (by decide)⟩

/-! ## Bound on receive: the returned payload is complete -/

theorem cBuffPush_meta (d : circular_buffer_handle) (data : List Nat) (ht : Nat) :
    (cBuffPush d data ht).2.buff = d.buff ∧ (cBuffPush d data ht).2.buffLen = d.buffLen := by
  unfold cBuffPush
  split <;> exact ⟨rfl, rfl⟩

/-- The copy of a candidate changes neither the array nor the capacity of the
scratch buffer. -/
theorem sdlReceiveCopy_meta :
    ∀ (fuel : Nat) (src dst : circular_buffer_handle)
      (c : circular_buffer_handle × circular_buffer_handle),
      sdlReceiveCopy fuel src dst = some c →
      c.2.buff = dst.buff ∧ c.2.buffLen = dst.buffLen := by
  intro fuel
  induction fuel with
  | zero => intro src dst c h; simp [sdlReceiveCopy] at h
  | succ f ih =>
    intro src dst c h
    simp only [sdlReceiveCopy] at h
    split at h
    · simp only [Option.some.injEq] at h
      subst h
      exact ⟨rfl, rfl⟩
    · have h1 := ih _ _ _ h
      have h2 := cBuffPush_meta dst [(cBuffPull src 1 0).2.1.headD 0] 1
      exact ⟨h1.1.trans h2.1, h1.2.trans h2.2⟩

/-- The copy to the output changes neither the array nor the capacity of the
scratch buffer. -/
theorem sdlReceiveOut_meta :
    ∀ (fuel : Nat) (tmpBuff tmpHandle : circular_buffer_handle)
      (o : Nat × circular_buffer_handle × circular_buffer_handle),
      sdlReceiveOut fuel tmpBuff tmpHandle = some o →
      o.2.1.buff = tmpBuff.buff ∧ o.2.1.buffLen = tmpBuff.buffLen := by
  intro fuel
  induction fuel with
  | zero => intro tb th o h; simp [sdlReceiveOut] at h
  | succ f ih =>
    intro tb th o h
    have hp := cBuffPull_meta tb 1 0
    simp only [sdlReceiveOut] at h
    split at h
    · simp only [Option.some.injEq] at h
      subst h
      exact hp
    · split at h
      · simp only [Option.some.injEq] at h
        subst h
        exact hp
      · have h1 := ih _ _ _ h
        exact ⟨h1.1.trans hp.1, h1.2.trans hp.2⟩

theorem cBuffFlush_scratch (tmpBuff : circular_buffer_handle) (hb : tmpBuff.buff = true)
    (hl : tmpBuff.buffLen = SDL_MAX_PAY_LEN * 2 + 6) :
    cBuffFlush tmpBuff = cBuffInit true (SDL_MAX_PAY_LEN * 2 + 6) := by
  rcases tmpBuff with ⟨b, cap, l⟩
  simp only at hb hl
  subst hb hl
  rfl

/-- The scan loop in terms of the candidates it visits: it passes over the
candidates that `deframe` rejects or whose payload is longer than
`SDL_MAX_PAY_LEN` or than the output capacity, and stops either when the
locator finds nothing (returning 0) or at the first other candidate, whose
whole payload it returns. -/
theorem sdlReceiveScan_candidates (search : Locator) (len : Nat) :
    ∀ (fuel : Nat) (rxBuff tmpBuff : circular_buffer_handle) (out0 : List Nat)
      (n : Nat) (out : List Nat) (rb : circular_buffer_handle),
      tmpBuff.buff = true → tmpBuff.buffLen = SDL_MAX_PAY_LEN * 2 + 6 →
      sdlReceiveScan search len fuel rxBuff tmpBuff out0 = some (n, out, rb) →
      ∃ k : Nat,
        (∀ j : Nat, j < k →
          (search (scanBuff search j rxBuff) rule).1 ≠ 0 ∧
          ∀ P : List Nat,
            candidatePayload (search (scanBuff search j rxBuff) rule).2.2 = some P →
            SDL_MAX_PAY_LEN < P.length ∨ len < P.length) ∧
        rb = (search (scanBuff search k rxBuff) rule).2.1 ∧
        (((search (scanBuff search k rxBuff) rule).1 = 0 ∧ n = 0) ∨
          ((search (scanBuff search k rxBuff) rule).1 ≠ 0 ∧
            candidatePayload (search (scanBuff search k rxBuff) rule).2.2 = some out ∧
            out.length = n)) := by
  intro fuel
  induction fuel with
  | zero => intro rxBuff tmpBuff out0 n out rb _ _ h; simp [sdlReceiveScan] at h
  | succ f ih =>
    intro rxBuff tmpBuff out0 n out rb hb hl h
    -- one more visited candidate in front of an outcome of the rest of the scan
    have step : (search rxBuff rule).1 ≠ 0 →
        (∀ P : List Nat, candidatePayload (search rxBuff rule).2.2 = some P →
          SDL_MAX_PAY_LEN < P.length ∨ len < P.length) →
        (∃ k : Nat,
          (∀ j : Nat, j < k →
            (search (scanBuff search j (search rxBuff rule).2.1) rule).1 ≠ 0 ∧
            ∀ P : List Nat,
              candidatePayload (search (scanBuff search j (search rxBuff rule).2.1) rule).2.2
                = some P →
              SDL_MAX_PAY_LEN < P.length ∨ len < P.length) ∧
          rb = (search (scanBuff search k (search rxBuff rule).2.1) rule).2.1 ∧
          (((search (scanBuff search k (search rxBuff rule).2.1) rule).1 = 0 ∧ n = 0) ∨
            ((search (scanBuff search k (search rxBuff rule).2.1) rule).1 ≠ 0 ∧
              candidatePayload (search (scanBuff search k (search rxBuff rule).2.1) rule).2.2
                = some out ∧
              out.length = n))) →
        ∃ k : Nat,
          (∀ j : Nat, j < k →
            (search (scanBuff search j rxBuff) rule).1 ≠ 0 ∧
            ∀ P : List Nat,
              candidatePayload (search (scanBuff search j rxBuff) rule).2.2 = some P →
              SDL_MAX_PAY_LEN < P.length ∨ len < P.length) ∧
          rb = (search (scanBuff search k rxBuff) rule).2.1 ∧
          (((search (scanBuff search k rxBuff) rule).1 = 0 ∧ n = 0) ∨
            ((search (scanBuff search k rxBuff) rule).1 ≠ 0 ∧
              candidatePayload (search (scanBuff search k rxBuff) rule).2.2 = some out ∧
              out.length = n)) := by
      rintro hfound hskip ⟨k, hk, hrb, hend⟩
      refine ⟨k + 1, ?_, hrb, hend⟩
      intro j hj
      cases j with
      | zero => exact ⟨hfound, hskip⟩
      | succ j => exact hk j (by omega)
    rw [sdlReceiveScan, cBuffFlush_scratch tmpBuff hb hl] at h
    simp only [] at h
    split at h
    · rename_i hs
      simp only [Option.some.injEq, Prod.mk.injEq] at h
      obtain ⟨hn, _, hr⟩ := h
      exact ⟨0, fun j hj => absurd hj (Nat.not_lt_zero j), hr.symm, Or.inl ⟨hs, hn.symm⟩⟩
    · rename_i hs
      split at h
      · cases h
      · rename_i c hc
        have hcm := sdlReceiveCopy_meta _ _ _ _ hc
        have hdm := deframe_meta c.2
        have hdb : (deframe c.2).2.buff = true := hdm.1.trans hcm.1
        have hdl : (deframe c.2).2.buffLen = SDL_MAX_PAY_LEN * 2 + 6 := hdm.2.trans hcm.2
        have hcp : candidatePayload (search rxBuff rule).2.2
            = if (deframe c.2).1 = 0 then none else some (deframe c.2).2.elems := by
          unfold candidatePayload
          rw [hc]
          rfl
        split at h
        · rename_i hd
          apply step hs _ (ih _ _ _ _ _ _ hdb hdl h)
          intro P hP
          rw [hcp, if_pos hd] at hP
          cases hP
        · rename_i hd
          rw [if_neg hd] at hcp
          split at h
          · rename_i hsz
            apply step hs _ (ih _ _ _ _ _ _ hdb hdl h)
            intro P hP
            rw [hcp] at hP
            simp only [Option.some.injEq] at hP
            subst hP
            exact Or.inl hsz
          · rename_i hsz
            split at h
            · cases h
            · rename_i o ho
              have hom := sdlReceiveOut_meta _ _ _ _ ho
              rcases hdp : (deframe c.2).2 with ⟨db, dcap, p⟩
              rw [hdp] at ho hcp
              simp only [cBuffInit, circular_buffer_handle.elemNum] at ho hcp
              by_cases hfit : p.length ≤ len
              · rw [sdlReceiveOut_fits db true dcap len p [] _ (Nat.lt_succ_self _)
                  (by simpa using hfit)] at ho
                simp only [Option.some.injEq] at ho
                subst ho
                simp only [ne_eq, not_true_eq_false, if_false, List.nil_append,
                  circular_buffer_handle.elemNum, Option.some.injEq, Prod.mk.injEq] at h
                obtain ⟨hn, hout, hr⟩ := h
                subst hout
                exact ⟨0, fun j hj => absurd hj (Nat.not_lt_zero j), hr.symm,
                  Or.inr ⟨hs, hcp, hn⟩⟩
              · obtain ⟨tb, th, ho2⟩ := sdlReceiveOut_overflow db true dcap len p [] _
                  (Nat.lt_succ_self _) (by simp) (by simpa using hfit)
                rw [ho2] at ho
                simp only [Option.some.injEq] at ho
                subst ho
                simp only [ne_eq, one_ne_zero, not_false_eq_true, if_true] at h
                apply step hs _ (ih _ _ _ _ _ _ (hom.1.trans hdb) (hom.2.trans hdl) h)
                intro P hP
                rw [hcp] at hP
                simp only [Option.some.injEq] at hP
                subst hP
                exact Or.inr (by omega)

/-- C10 (bound on receive): for every line, every receive function and every
frame locator, and every output capacity `len`, a value `n` returned by
`sdlReceive` satisfies `n ≤ len` and `n ≤ SDL_MAX_PAY_LEN`.  Moreover the
result is tied to the candidates of this call: without a receive function
`n = 0`; otherwise there is a number `k` of candidates that the scan passed
over, each found by the locator and either rejected by `deframe` or with a
payload longer than `SDL_MAX_PAY_LEN` or than `len` (a candidate whose payload
is longer than `len` is passed over, not returned), the accumulation buffer is
the one left by the next call of the locator, and either that call found
nothing and `n = 0`, or it found a candidate and the output is exactly the
whole payload that `deframe` leaves from that candidate, `n` being its length
(never a truncated payload).  `sdlReceive` does return, for a large enough
bound on the scan loop, whenever every successful search of the locator makes
progress for some measure on the accumulation buffer. -/
theorem C10_receive_bound {σ : Type} (search : Locator) (line : serial_line_handle σ)
    (w : σ) (len : Nat) :
    (∀ (fuel n : Nat) (out : List Nat) (line2 : serial_line_handle σ) (w2 : σ),
      sdlReceive search fuel line w len = some (n, out, line2, w2) →
      n ≤ len ∧ n ≤ SDL_MAX_PAY_LEN ∧
        ((line.rxFunc = none ∧ n = 0) ∨
          ∃ (rxFunc : σ → Nat × Nat × σ) (f : circular_buffer_handle × σ) (k : Nat),
            line.rxFunc = some rxFunc ∧
            sdlReceiveFill rxFunc (line.rxBuff.buffLen - line.rxBuff.elemNum + 1)
              line.rxBuff w = some f ∧
            (∀ j : Nat, j < k →
              (search (scanBuff search j f.1) rule).1 ≠ 0 ∧
              ∀ P : List Nat,
                candidatePayload (search (scanBuff search j f.1) rule).2.2 = some P →
                SDL_MAX_PAY_LEN < P.length ∨ len < P.length) ∧
            line2.rxBuff = (search (scanBuff search k f.1) rule).2.1 ∧
            (((search (scanBuff search k f.1) rule).1 = 0 ∧ n = 0) ∨
              ((search (scanBuff search k f.1) rule).1 ≠ 0 ∧
                candidatePayload (search (scanBuff search k f.1) rule).2.2 = some out ∧
                out.length = n)))) ∧
    (∀ μ : circular_buffer_handle → Nat,
      (∀ b, (search b rule).1 ≠ 0 → μ (search b rule).2.1 < μ b) →
      ∃ fuel r, sdlReceive search fuel line w len = some r) := by
  constructor
  · intro fuel n out line2 w2 h
    unfold sdlReceive at h
    split at h
    · rename_i hrx
      simp only [Option.some.injEq, Prod.mk.injEq] at h
      obtain ⟨rfl, _, _⟩ := h
      exact ⟨Nat.zero_le _, Nat.zero_le _, Or.inl ⟨hrx, rfl⟩⟩
    · rename_i rxFunc hrx
      split at h
      · cases h
      · rename_i f hf
        dsimp only at h
        split at h
        · cases h
        · rename_i r hr
          simp only [Option.some.injEq, Prod.mk.injEq] at h
          obtain ⟨hn, hout, hline, _⟩ := h
          obtain ⟨n0, out1, rb⟩ := r
          simp only at hn hout hline
          subst hn hout
          have hb := sdlReceiveScan_bound search len _ _ _ _ _ _ _ hr
          obtain ⟨k, hk, hrb, hend⟩ := sdlReceiveScan_candidates search len _ _ _ _ _ _ _
            rfl rfl hr
          refine ⟨hb.1, hb.2.1, Or.inr ⟨rxFunc, f, k, hrx, hf, hk, ?_, hend⟩⟩
          rw [← hline, hrb]
  · intro μ hμ
    unfold sdlReceive
    cases hrx : line.rxFunc with
    | none => exact ⟨0, _, rfl⟩
    | some rxFunc =>
      obtain ⟨f, hf⟩ := sdlReceiveFill_total rxFunc
        (line.rxBuff.buffLen - line.rxBuff.elemNum + 1) line.rxBuff w (Nat.lt_succ_self _)
      obtain ⟨r, hr⟩ := sdlReceiveScan_total search len μ hμ (μ f.1) f.1
        (cBuffInit true (SDL_MAX_PAY_LEN * 2 + 6)) [] (le_refl _)
      refine ⟨μ f.1 + 1, ?_⟩
      simp only [hf, hr]
      exact ⟨_, rfl⟩

/-- Every successful search of the sample locator shortens the accumulation
buffer. -/
theorem flagLocator_progress (b : circular_buffer_handle)
    (h : (flagLocator b rule).1 ≠ 0) :
    (flagLocator b rule).2.1.elems.length < b.elems.length := by
  unfold flagLocator at h ⊢
  have h1 := (List.dropWhile_suffix (fun x => decide (x ≠ FRAME_FLAG)) (l := b.elems)).length_le
  split at h
  · exact absurd rfl h
  · rename_i x t hx
    have h2 := (List.dropWhile_suffix (fun x => decide (x ≠ FRAME_FLAG)) (l := t)).length_le
    rw [hx] at h1
    simp only [List.length_cons] at h1
    split at h
    · exact absurd rfl h
    · rename_i y rest hy
      rw [hy] at h2
      simp only [List.length_cons] at h2
      split at h
      · rename_i hm
        rw [if_pos hm]
        show rest.length < b.elems.length
        omega
      · exact absurd rfl h

set_option maxRecDepth 100000 in
theorem C10_receive_bound_witness :
    sdlReceive flagLocator 3 (sdlInitLine none (some listRx))
        [126, 1, 2, 3, 173, 173, 126, 126, 9, 112, 217, 126] 2
      = some (1, [9],
          { txFunc := none, rxFunc := some listRx, rxBuff := ⟨true, 518, []⟩ }, []) ∧
    (1 ≤ 2 ∧ 1 ≤ SDL_MAX_PAY_LEN ∧
      (((sdlInitLine none (some listRx)).rxFunc = none ∧ 1 = 0) ∨
        ∃ (rxFunc : List Nat → Nat × Nat × List Nat)
          (f : circular_buffer_handle × List Nat) (k : Nat),
          (sdlInitLine none (some listRx)).rxFunc = some rxFunc ∧
          sdlReceiveFill rxFunc
            ((sdlInitLine none (some listRx)).rxBuff.buffLen
              - (sdlInitLine none (some listRx)).rxBuff.elemNum + 1)
            (sdlInitLine none (some listRx)).rxBuff
            [126, 1, 2, 3, 173, 173, 126, 126, 9, 112, 217, 126] = some f ∧
          (∀ j : Nat, j < k →
            (flagLocator (scanBuff flagLocator j f.1) rule).1 ≠ 0 ∧
            ∀ P : List Nat,
              candidatePayload (flagLocator (scanBuff flagLocator j f.1) rule).2.2 = some P →
              SDL_MAX_PAY_LEN < P.length ∨ 2 < P.length) ∧
          (⟨true, 518, []⟩ : circular_buffer_handle)
            = (flagLocator (scanBuff flagLocator k f.1) rule).2.1 ∧
          (((flagLocator (scanBuff flagLocator k f.1) rule).1 = 0 ∧ 1 = 0) ∨
            ((flagLocator (scanBuff flagLocator k f.1) rule).1 ≠ 0 ∧
              candidatePayload (flagLocator (scanBuff flagLocator k f.1) rule).2.2
                = some [9] ∧
              [9].length = 1)))) ∧
    (∃ fuel r, sdlReceive flagLocator fuel (sdlInitLine none (some listRx))
      [126, 1, 2, 3, 173, 173, 126, 126, 9, 112, 217, 126] 2 = some r) :=
  ⟨by rfl,
    (C10_receive_bound flagLocator (sdlInitLine none (some listRx))
      [126, 1, 2, 3, 173, 173, 126, 126, 9, 112, 217, 126] 2).1 3 1 [9]
      { txFunc := none, rxFunc := some listRx, rxBuff := ⟨true, 518, []⟩ } [] (by rfl),
    (C10_receive_bound flagLocator (sdlInitLine none (some listRx))
      [126, 1, 2, 3, 173, 173, 126, 126, 9, 112, 217, 126] 2).2 (fun b => b.elems.length)
      flagLocator_progress⟩

/-- The scan of the witness above, candidate by candidate: the first candidate
holds the payload `01 02 03`, longer than the output capacity 2, and is passed
over; the second holds `09`, which is returned whole. -/
theorem candidatePayload_samples :
    candidatePayload ⟨true, 518, [126, 1, 2, 3, 173, 173, 126]⟩ = some [1, 2, 3] ∧
    candidatePayload ⟨true, 518, [126, 9, 112, 217, 126]⟩ = some [9] ∧
    candidatePayload ⟨true, 518, [126, 9, 112, 218, 126]⟩ = none := by
  refine ⟨by decide, by decide, by decide⟩

end SimpleDataLink
